import Mathlib

/-!
Verification of the VB6-to-C# batch-conversion pipeline (`src/main.py`)
against its natural-language specification.

The Python code is shallowly embedded: Python `str` values are Lean
`String`s (lists of Unicode scalar values; lone surrogates are outside the
embedding), Python `int` sizes are `Nat`, Python dicts are association
lists in insertion order, and the concrete regular expressions used by the
code are embedded as specialized scanning functions with Python `re`
semantics (leftmost, non-overlapping matches).
-/

namespace VB6

/-! ## Python string primitives -/

/-- Python `pat in hay` substring test (`str.__contains__`). -/
def containsSub (hay pat : List Char) : Bool :=
  hay.tails.any (fun t => pat.isPrefixOf t)

/-- Python whitespace (`str.strip()` / `str.isspace` / regex `\s`),
restricted to the ASCII range plus NEL; the unicode space characters
play no role in any input considered here. -/
def isPyWs (c : Char) : Bool :=
  c = ' ' ∨ c = '\t' ∨ c = '\n' ∨ c = '\x0d' ∨ c = '\x0b' ∨ c = '\x0c' ∨
  c = '\x1c' ∨ c = '\x1d' ∨ c = '\x1e' ∨ c = '\x1f' ∨ c = '\x85'

/-- Python `str.strip()` on a character list. -/
def pyStripChars (l : List Char) : List Char :=
  ((l.dropWhile isPyWs).reverse.dropWhile isPyWs).reverse

/-- Python `str.strip()`. -/
def pyStrip (s : String) : String := ⟨pyStripChars s.data⟩

/-- Line terminators recognized by Python `str.splitlines`. -/
def isLineTerm (c : Char) : Bool :=
  c = '\n' ∨ c = '\x0d' ∨ c = '\x0b' ∨ c = '\x0c' ∨
  c = '\x1c' ∨ c = '\x1d' ∨ c = '\x1e' ∨ c = '\x85' ∨
  c = '\u2028' ∨ c = '\u2029'

mutual

/-- Worker for `splitlines`: `acc` holds the current line reversed;
`splitlinesCR` is the state right after a carriage return (a following
`\n` belongs to the same terminator). -/
def splitlinesGo (acc : List Char) : List Char → List (List Char)
  | [] => if acc.isEmpty then [] else [acc.reverse]
  | c :: t =>
    if c = '\x0d' then acc.reverse :: splitlinesCR t
    else if isLineTerm c then acc.reverse :: splitlinesGo [] t
    else splitlinesGo (c :: acc) t

def splitlinesCR : List Char → List (List Char)
  | [] => []
  | c :: t =>
    if c = '\n' then splitlinesGo [] t
    else if c = '\x0d' then [] :: splitlinesCR t
    else if isLineTerm c then [] :: splitlinesGo [] t
    else splitlinesGo [c] t

end

/-- Python `str.splitlines()`. -/
def pySplitlines (s : String) : List String :=
  (splitlinesGo [] s.data).map (fun l => ⟨l⟩)

/-- `joinSep sep [a, b, c] = a ++ sep ++ b ++ sep ++ c`. -/
def joinSep (sep : List Char) : List (List Char) → List Char
  | [] => []
  | [x] => x
  | x :: y :: t => x ++ sep ++ joinSep sep (y :: t)

/-- Python `sep.join(ss)`. -/
def pyJoin (sep : String) (ss : List String) : String :=
  ⟨joinSep sep.data (ss.map String.data)⟩

/-! ## The Segmenter: `VB6Converter.chunk_large_file` -/

/-- Running state of the line scanner in `chunk_large_file`:
completed chunks (as line lists), the current chunk, its character size,
and the two body-open flags. -/
structure ChunkSt where
  chunks : List (List String)
  cur : List String
  size : Nat
  inMethod : Bool
  inStruct : Bool
deriving DecidableEq, Repr

def initChunkSt : ChunkSt := ⟨[], [], 0, false, false⟩

def anyKwIn (kws : List String) (line : String) : Bool :=
  kws.any (fun k => containsSub line.data k.data)

def clsMethodStartKws : List String :=
  ["Public Sub", "Private Sub", "Public Function", "Private Function",
   "Property Get", "Property Set", "Property Let"]

def clsMethodEndKws : List String := ["End Sub", "End Function", "End Property"]

def clsStructStartKws : List String := ["Type ", "Private Type", "Public Type"]

def clsStructEndKws : List String := ["End Type"]

def declareKws : List String := ["Declare Function", "Declare Sub"]

def basMethodStartKws : List String :=
  ["Public Sub", "Private Sub", "Public Function", "Private Function", "Sub", "Function"]

def basMethodEndKws : List String := ["End Sub", "End Function"]

/-- The `current_size > max_chunk_size * 0.8` test of the source, with the
float multiplication eliminated: for every size arising here the Python
comparison `int > float` agrees with `10 * size > 8 * max`. -/
def over80 (maxSize size : Nat) : Prop := 8 * maxSize < 10 * size

instance (m s : Nat) : Decidable (over80 m s) := by unfold over80; infer_instance

/-- One line of the `.cls` branch of `chunk_large_file`. -/
def clsStep (maxSize : Nat) (s : ChunkSt) (line : String) : ChunkSt :=
  if anyKwIn clsStructStartKws line then
    if maxSize < s.size + line.length ∧ s.cur ≠ [] ∧ s.inMethod = false then
      { chunks := s.chunks ++ [s.cur], cur := [line], size := line.length, inMethod := s.inMethod, inStruct := true }
    else
      { s with cur := s.cur ++ [line], size := s.size + line.length, inStruct := true }
  else if anyKwIn clsStructEndKws line then
    if over80 maxSize (s.size + line.length) then
      { s with chunks := s.chunks ++ [s.cur ++ [line]], cur := [], size := 0, inStruct := false }
    else
      { s with cur := s.cur ++ [line], size := s.size + line.length, inStruct := false }
  else if anyKwIn declareKws line then
    if maxSize < s.size + line.length ∧ s.cur ≠ [] ∧ s.inMethod = false ∧ s.inStruct = false then
      { s with chunks := s.chunks ++ [s.cur], cur := [line], size := line.length }
    else
      { s with cur := s.cur ++ [line], size := s.size + line.length }
  else if anyKwIn clsMethodStartKws line then
    if maxSize < s.size + line.length ∧ s.cur ≠ [] ∧ s.inStruct = false then
      { s with chunks := s.chunks ++ [s.cur], cur := [line], size := line.length, inMethod := true }
    else
      { s with cur := s.cur ++ [line], size := s.size + line.length, inMethod := true }
  else if anyKwIn clsMethodEndKws line then
    if over80 maxSize (s.size + line.length) then
      { s with chunks := s.chunks ++ [s.cur ++ [line]], cur := [], size := 0, inMethod := false }
    else
      { s with cur := s.cur ++ [line], size := s.size + line.length, inMethod := false }
  else
    if maxSize < s.size + line.length ∧ s.cur ≠ [] ∧ s.inMethod = false ∧ s.inStruct = false then
      { s with chunks := s.chunks ++ [s.cur], cur := [line], size := line.length }
    else
      { s with cur := s.cur ++ [line], size := s.size + line.length }

/-- One line of the `.bas` branch of `chunk_large_file`; keyword tests run
on the stripped line, size accounting on the raw line. -/
def basStep (maxSize : Nat) (s : ChunkSt) (line : String) : ChunkSt :=
  if anyKwIn declareKws (pyStrip line) then
    if maxSize < s.size + line.length ∧ s.cur ≠ [] ∧ s.inMethod = false then
      { s with chunks := s.chunks ++ [s.cur], cur := [line], size := line.length }
    else
      { s with cur := s.cur ++ [line], size := s.size + line.length }
  else if anyKwIn basMethodStartKws (pyStrip line) then
    if maxSize < s.size + line.length ∧ s.cur ≠ [] then
      { s with chunks := s.chunks ++ [s.cur], cur := [line], size := line.length, inMethod := true }
    else
      { s with cur := s.cur ++ [line], size := s.size + line.length, inMethod := true }
  else if anyKwIn basMethodEndKws (pyStrip line) then
    if over80 maxSize (s.size + line.length) then
      { s with chunks := s.chunks ++ [s.cur ++ [line]], cur := [], size := 0, inMethod := false }
    else
      { s with cur := s.cur ++ [line], size := s.size + line.length, inMethod := false }
  else
    if maxSize < s.size + line.length ∧ s.cur ≠ [] ∧ s.inMethod = false then
      { s with chunks := s.chunks ++ [s.cur], cur := [line], size := line.length }
    else
      { s with cur := s.cur ++ [line], size := s.size + line.length }

def chunkStepFor (fileType : String) (maxSize : Nat) : ChunkSt → String → ChunkSt :=
  if fileType = "cls" then clsStep maxSize else basStep maxSize

/-- Final flush of `chunk_large_file`: `if current_chunk: chunks.append(...)`. -/
def chunkFinalize (s : ChunkSt) : List (List String) :=
  s.chunks ++ (if s.cur = [] then [] else [s.cur])

/-- `chunk_large_file` as chunk line-lists: fold the per-line step over
`content.splitlines()` and flush the trailing chunk if nonempty. -/
def chunkLargeFileLists (content : String) (maxSize : Nat) (fileType : String) :
    List (List String) :=
  chunkFinalize ((pySplitlines content).foldl (chunkStepFor fileType maxSize) initChunkSt)

/-- `VB6Converter.chunk_large_file` (the source's default
`max_chunk_size` is 6000 and default `file_type` is `"bas"`). -/
def chunk_large_file (content : String) (maxSize : Nat) (fileType : String) :
    List String :=
  (chunkLargeFileLists content maxSize fileType).map (pyJoin "\n")


/-! ## Claim C1: the segmenter preserves the line sequence -/

/-- All lines ever appended, in order: finished chunks then the running one. -/
def chunkFlat (s : ChunkSt) : List String := s.chunks.flatten ++ s.cur

def chunksNE (s : ChunkSt) : Prop := ∀ c ∈ s.chunks, c ≠ []

theorem clsStep_flat (maxSize : Nat) (s : ChunkSt) (line : String) :
    chunkFlat (clsStep maxSize s line) = chunkFlat s ++ [line] := by
  unfold clsStep chunkFlat
  repeat' split
  all_goals simp

theorem basStep_flat (maxSize : Nat) (s : ChunkSt) (line : String) :
    chunkFlat (basStep maxSize s line) = chunkFlat s ++ [line] := by
  unfold basStep chunkFlat
  repeat' split
  all_goals simp

theorem clsStep_ne (maxSize : Nat) (s : ChunkSt) (line : String) (h : chunksNE s) :
    chunksNE (clsStep maxSize s line) := by
  unfold clsStep
  unfold chunksNE at *
  repeat' split
  all_goals simp_all
  all_goals (intro c hc; rcases hc with hc | hc)
  all_goals simp_all

theorem basStep_ne (maxSize : Nat) (s : ChunkSt) (line : String) (h : chunksNE s) :
    chunksNE (basStep maxSize s line) := by
  unfold basStep
  unfold chunksNE at *
  repeat' split
  all_goals simp_all
  all_goals (intro c hc; rcases hc with hc | hc)
  all_goals simp_all

theorem chunkStepFor_flat (fileType : String) (maxSize : Nat) (s : ChunkSt) (line : String) :
    chunkFlat (chunkStepFor fileType maxSize s line) = chunkFlat s ++ [line] := by
  unfold chunkStepFor
  split
  · exact clsStep_flat maxSize s line
  · exact basStep_flat maxSize s line

theorem chunkStepFor_ne (fileType : String) (maxSize : Nat) (s : ChunkSt) (line : String)
    (h : chunksNE s) : chunksNE (chunkStepFor fileType maxSize s line) := by
  unfold chunkStepFor
  split
  · exact clsStep_ne maxSize s line h
  · exact basStep_ne maxSize s line h

theorem foldl_chunk_flat (fileType : String) (maxSize : Nat) :
    ∀ (lines : List String) (s : ChunkSt),
      chunkFlat (lines.foldl (chunkStepFor fileType maxSize) s) = chunkFlat s ++ lines ∧
      (chunksNE s → chunksNE (lines.foldl (chunkStepFor fileType maxSize) s)) := by
  intro lines
  induction lines with
  | nil => intro s; simp
  | cons l t ih =>
    intro s
    have h1 := chunkStepFor_flat fileType maxSize s l
    have h2 := fun hne => chunkStepFor_ne fileType maxSize s l hne
    have ht := ih (chunkStepFor fileType maxSize s l)
    constructor
    · simp only [List.foldl_cons]
      rw [ht.1, h1]
      simp
    · intro hne
      exact ht.2 (h2 hne)

theorem chunkLargeFileLists_flatten (content : String) (maxSize : Nat) (fileType : String) :
    (chunkLargeFileLists content maxSize fileType).flatten = pySplitlines content ∧
    ∀ c ∈ chunkLargeFileLists content maxSize fileType, c ≠ [] := by
  unfold chunkLargeFileLists chunkFinalize
  have hall := foldl_chunk_flat fileType maxSize (pySplitlines content) initChunkSt
  set F := (pySplitlines content).foldl (chunkStepFor fileType maxSize) initChunkSt with hF
  have hflat : F.chunks.flatten ++ F.cur = pySplitlines content := by
    have h1 := hall.1
    unfold chunkFlat at h1
    simpa [initChunkSt] using h1
  have hne : chunksNE F := by
    apply hall.2
    intro c hc
    simp [initChunkSt] at hc
  constructor
  · by_cases hcur : F.cur = []
    · rw [hcur, List.append_nil] at hflat
      simp [hcur, hflat]
    · simp only [hcur, if_neg, ite_false]
      rw [List.flatten_append]
      simpa using hflat
  · intro c hc
    rcases List.mem_append.mp hc with hc | hc
    · exact hne c hc
    · by_cases hcur : F.cur = [] <;> simp_all


theorem joinSep_append (sep : List Char) (x m : List (List Char)) (hx : x ≠ []) (hm : m ≠ []) :
    joinSep sep (x ++ m) = joinSep sep x ++ sep ++ joinSep sep m := by
  induction x with
  | nil => exact absurd rfl hx
  | cons a t ih =>
    cases t with
    | nil =>
      cases m with
      | nil => exact absurd rfl hm
      | cons b u => simp [joinSep]
    | cons b u =>
      have h2 := ih (by simp)
      simp only [List.cons_append] at h2 ⊢
      calc joinSep sep (a :: b :: (u ++ m))
          = a ++ sep ++ joinSep sep (b :: (u ++ m)) := by rw [joinSep]
        _ = a ++ sep ++ (joinSep sep (b :: u) ++ sep ++ joinSep sep m) := by rw [h2]
        _ = (a ++ sep ++ joinSep sep (b :: u)) ++ sep ++ joinSep sep m := by
              simp [List.append_assoc]
        _ = joinSep sep (a :: b :: u) ++ sep ++ joinSep sep m := by rw [joinSep]

theorem flatten_map_map {α β : Type} (f : α → β) (lss : List (List α)) :
    (lss.map (List.map f)).flatten = lss.flatten.map f := by
  induction lss with
  | nil => rfl
  | cons a t ih => simp only [List.map_cons, List.flatten_cons, List.map_append, ih]

theorem joinSep_map_flatten (sep : List Char) (lss : List (List (List Char)))
    (h : ∀ x ∈ lss, x ≠ []) :
    joinSep sep (lss.map (joinSep sep)) = joinSep sep lss.flatten := by
  induction lss with
  | nil => simp
  | cons a t ih =>
    cases t with
    | nil => simp [joinSep]
    | cons b u =>
      have ha : a ≠ [] := h a (by simp)
      have hb : b ++ u.flatten ≠ [] := by
        have hbne : b ≠ [] := h b (by simp)
        cases b with
        | nil => exact absurd rfl hbne
        | cons c w => simp
      have iht := ih (fun x hx => h x (List.mem_cons_of_mem a hx))
      simp only [List.map_cons, joinSep, List.flatten_cons] at *
      rw [iht, joinSep_append sep a (b ++ u.flatten) ha hb]

theorem pyJoin_collapse (lss : List (List String)) (h : ∀ c ∈ lss, c ≠ []) :
    pyJoin "\n" (lss.map (pyJoin "\n")) = pyJoin "\n" lss.flatten := by
  have hdata : (lss.map (pyJoin "\n")).map String.data
      = (lss.map (fun c => c.map String.data)).map (joinSep "\n".data) := by
    simp only [List.map_map]
    rfl
  have hext : ∀ a b : String, a.data = b.data → a = b := by
    intro a b hab
    cases a
    cases b
    exact congrArg String.mk (by simpa using hab)
  apply hext
  rw [show ∀ (sep : String) (ss : List String), (pyJoin sep ss).data
        = joinSep sep.data (ss.map String.data) from fun _ _ => rfl]
  rw [show ∀ (sep : String) (ss : List String), (pyJoin sep ss).data
        = joinSep sep.data (ss.map String.data) from fun _ _ => rfl]
  rw [hdata]
  rw [joinSep_map_flatten "\n".data _ (by
    intro x hx
    simp only [List.mem_map] at hx
    obtain ⟨c, hc, rfl⟩ := hx
    simpa using h c hc)]
  rw [flatten_map_map]

/-- C1. For every input text, unit kind and size budget, the segmenter
drops and duplicates no line: the chunks' line sequences concatenate to
exactly `content.splitlines()`, every chunk is a nonempty group of lines,
and joining the chunk texts with newlines reproduces the newline-join of
the original line sequence. -/
theorem C1_segmenter_preserves_line_sequence (content : String) (maxSize : Nat)
    (fileType : String) :
    (chunkLargeFileLists content maxSize fileType).flatten = pySplitlines content ∧
    (∀ c ∈ chunkLargeFileLists content maxSize fileType, c ≠ []) ∧
    pyJoin "\n" (chunk_large_file content maxSize fileType) =
      pyJoin "\n" (pySplitlines content) := by
  obtain ⟨hflat, hne⟩ := chunkLargeFileLists_flatten content maxSize fileType
  refine ⟨hflat, hne, ?_⟩
  have hrepr : chunk_large_file content maxSize fileType
      = (chunkLargeFileLists content maxSize fileType).map (pyJoin "\n") := rfl
  rw [hrepr, pyJoin_collapse _ hne, hflat]


/-! ## Claim C3: chunk boundaries versus open bodies -/

/-- The segmenter started a new chunk immediately before `line`:
the running chunk was flushed and the new chunk holds exactly `line`. -/
def boundaryBefore (s s2 : ChunkSt) (line : String) : Prop :=
  s2.chunks = s.chunks ++ [s.cur] ∧ s2.cur = [line]

/-- The flag condition the `.cls` branch actually checks before cutting
ahead of `line` (classification in source precedence order). -/
def clsCutGuard (s : ChunkSt) (line : String) : Prop :=
  if anyKwIn clsStructStartKws line then s.inMethod = false
  else if anyKwIn clsStructEndKws line then False
  else if anyKwIn declareKws line then s.inMethod = false ∧ s.inStruct = false
  else if anyKwIn clsMethodStartKws line then s.inStruct = false
  else if anyKwIn clsMethodEndKws line then False
  else s.inMethod = false ∧ s.inStruct = false

/-- The flag condition the `.bas` branch actually checks before cutting
ahead of `line`: a callable-start line may be cut before even while a
callable body is open. -/
def basCutGuard (s : ChunkSt) (line : String) : Prop :=
  if anyKwIn declareKws (pyStrip line) then s.inMethod = false
  else if anyKwIn basMethodStartKws (pyStrip line) then True
  else if anyKwIn basMethodEndKws (pyStrip line) then False
  else s.inMethod = false

theorem chunks_ne_snoc (c : List (List String)) (x : List String) :
    c ≠ c ++ [x] := by
  intro h
  have := congrArg List.length h
  simp at this

instance (s : ChunkSt) (line : String) : Decidable (clsCutGuard s line) := by
  unfold clsCutGuard; infer_instance

instance (s : ChunkSt) (line : String) : Decidable (basCutGuard s line) := by
  unfold basCutGuard; infer_instance

/-- C3 (amended). A chunk boundary is placed immediately before a line
exactly when the running size plus the line exceeds `max_chunk_size`, the
running chunk is nonempty, and the branch-specific flag guard holds — the
guard checks "no record open" for `.cls` callable starts, "no callable
open" for `.cls` record starts, nothing at all for `.bas` callable
starts, and "no body open" only for declare and plain lines.  Hence a
boundary can fall while a body-open flag is true. -/
theorem C3_boundary_characterization (maxSize : Nat) (s : ChunkSt) (line : String) :
    (boundaryBefore s (clsStep maxSize s line) line ↔
      maxSize < s.size + line.length ∧ s.cur ≠ [] ∧ clsCutGuard s line) ∧
    (boundaryBefore s (basStep maxSize s line) line ↔
      maxSize < s.size + line.length ∧ s.cur ≠ [] ∧ basCutGuard s line) := by
  constructor
  · unfold clsStep clsCutGuard boundaryBefore
    repeat' split
    all_goals simp_all
  · unfold basStep basCutGuard boundaryBefore
    repeat' split
    all_goals simp_all

/-- C3 is refuted on the code: segmenting the `.bas` unit
`"Sub A()\nxxxxx\nSub B()"` with budget 10, the third line is cut into a
new chunk while the callable-open flag from `Sub A()` is still true — a
chunk boundary inside an open body, not at end-of-input. -/
theorem C3_cex :
    (["Sub A()", "xxxxx"].foldl (basStep 10) initChunkSt).inMethod = true ∧
    boundaryBefore (["Sub A()", "xxxxx"].foldl (basStep 10) initChunkSt)
      (basStep 10 (["Sub A()", "xxxxx"].foldl (basStep 10) initChunkSt) "Sub B()")
      "Sub B()" ∧
    chunk_large_file "Sub A()\nxxxxx\nSub B()" 10 "bas" = ["Sub A()\nxxxxx", "Sub B()"] := by
  refine ⟨by decide, ⟨by decide, by decide⟩, by rfl⟩

/-- Closed instance of `C3_boundary_characterization`: at a reachable
state with the callable flag open, the `.bas` branch still cuts before a
callable-start line. -/
theorem C3_boundary_characterization_witness :
    boundaryBefore (ChunkSt.mk [] ["Sub A()", "xxxxx"] 12 true false)
      (basStep 10 (ChunkSt.mk [] ["Sub A()", "xxxxx"] 12 true false) "Sub B()")
      "Sub B()" := by
  apply (C3_boundary_characterization 10 (ChunkSt.mk [] ["Sub A()", "xxxxx"] 12 true false)
    "Sub B()").2.mpr
  refine ⟨by decide, by decide, by decide⟩


/-! ## `VB6Converter.sanitize_code` and `validate_and_fix_code` -/

/-- `re.sub(r'//.*?\n', '\n', code)` as a two-mode scanner: in comment
mode (`inComment = true`) characters are consumed through the terminating
newline; otherwise each `//` with a later newline is replaced, together
with everything up to and including that first newline, by a single
newline, and a `//` with no following newline never matches. -/
def lineCommentsGo : Bool → List Char → List Char
  | _, [] => []
  | true, c :: t => if c = '\n' then lineCommentsGo false t else lineCommentsGo true t
  | false, '/' :: '/' :: t =>
    if '\n' ∈ t then '\n' :: lineCommentsGo true t else '/' :: '/' :: t
  | false, c :: t => c :: lineCommentsGo false t

def stripLineComments (l : List Char) : List Char := lineCommentsGo false l

/-- `re.sub(r'/\*.*?\*/', '', code, flags=re.DOTALL)`: each `/*` with a
later `*/` is removed through the first such `*/`. -/
def blockCommentsGo : Bool → List Char → List Char
  | _, [] => []
  | true, '*' :: '/' :: t => blockCommentsGo false t
  | true, _ :: t => blockCommentsGo true t
  | false, '/' :: '*' :: t =>
    if containsSub t ['*', '/'] then blockCommentsGo true t else '/' :: '*' :: t
  | false, c :: t => c :: blockCommentsGo false t

def stripBlockComments (l : List Char) : List Char := blockCommentsGo false l

/-- `re.sub(r'\n\s*\n', '\n', code)`: a newline followed by a whitespace
run containing another newline is collapsed, together with that run up to
its last newline, into a single newline (`inRun` marks being inside the
matched run). -/
def collapseBlankGo : Bool → List Char → List Char
  | _, [] => []
  | true, c :: t =>
    if c = '\n' then
      if '\n' ∈ t.takeWhile isPyWs then collapseBlankGo true t else collapseBlankGo false t
    else collapseBlankGo true t
  | false, c :: t =>
    if c = '\n' ∧ '\n' ∈ t.takeWhile isPyWs then '\n' :: collapseBlankGo true t
    else c :: collapseBlankGo false t

def collapseBlank (l : List Char) : List Char := collapseBlankGo false l

def isAsciiAlpha (c : Char) : Bool :=
  ('a' ≤ c ∧ c ≤ 'z') ∨ ('A' ≤ c ∧ c ≤ 'Z')

/-- `re.sub(r'```[a-zA-Z]*\n?', '', code)` (`inTag` marks being inside a
fence's language tag, where one optional newline is also consumed). -/
def fencesGo : Bool → List Char → List Char
  | _, [] => []
  | true, '`' :: '`' :: '`' :: t2 => fencesGo true t2
  | true, c :: t =>
    if isAsciiAlpha c then fencesGo true t
    else if c = '\n' then fencesGo false t
    else c :: fencesGo false t
  | false, '`' :: '`' :: '`' :: t => fencesGo true t
  | false, c :: t => c :: fencesGo false t

def stripFences (l : List Char) : List Char := fencesGo false l

/-- Python `\w` restricted to ASCII. -/
def isWordChar (c : Char) : Bool :=
  ('a' ≤ c ∧ c ≤ 'z') ∨ ('A' ≤ c ∧ c ≤ 'Z') ∨ ('0' ≤ c ∧ c ≤ '9') ∨ c = '_'

/-- Match a literal at the head, returning the rest. -/
def dropLit (pat l : List Char) : Option (List Char) :=
  if pat.isPrefixOf l then some (l.drop pat.length) else none

/-- Regex `\s+`: at least one whitespace character. -/
def ws1 (l : List Char) : Option (List Char) :=
  match l with
  | c :: t => if isPyWs c then some (t.dropWhile isPyWs) else none
  | [] => none

/-- Regex `\w+`: a maximal nonempty word-character run. -/
def word1 (l : List Char) : Option (List Char × List Char) :=
  let w := l.takeWhile isWordChar
  if w = [] then none else some (w, l.drop w.length)

/-- One attempted match of `public\s+(class|struct|enum)\s+(\w+)` at the
head of `l`, giving the two groups and the rest. -/
def matchTypeHead (l : List Char) : Option ((String × String) × List Char) :=
  match dropLit "public".data l with
  | none => none
  | some r1 =>
    match ws1 r1 with
    | none => none
    | some r2 =>
      let kn : Option (String × List Char) :=
        match dropLit "class".data r2 with
        | some r => some ("class", r)
        | none =>
          match dropLit "struct".data r2 with
          | some r => some ("struct", r)
          | none =>
            match dropLit "enum".data r2 with
            | some r => some ("enum", r)
            | none => none
      match kn with
      | none => none
      | some (kind, r3) =>
        match ws1 r3 with
        | none => none
        | some r4 =>
          match word1 r4 with
          | none => none
          | some (w, r5) => some ((kind, ⟨w⟩), r5)

/-- `re.findall(r'public\s+(class|struct|enum)\s+(\w+)', code)`, scanning
left to right without overlap; `fuel` bounds the recursion and
`l.length` always suffices. -/
def typeNamesGo : Nat → List Char → List (String × String)
  | 0, _ => []
  | _, [] => []
  | fuel + 1, c :: t =>
    match matchTypeHead (c :: t) with
    | some (kn, rest) => kn :: typeNamesGo fuel rest
    | none => typeNamesGo fuel t

def pyFindTypeNames (l : List Char) : List (String × String) :=
  typeNamesGo l.length l

/-- One attempted match of `public\s+KIND\s+NAME\s*\{[^}]*\}` at the head
of `l`, giving the rest. -/
def matchTypeBlock (kind name : String) (l : List Char) : Option (List Char) :=
  match dropLit "public".data l with
  | none => none
  | some r1 =>
    match ws1 r1 with
    | none => none
    | some r2 =>
      match dropLit kind.data r2 with
      | none => none
      | some r3 =>
        match ws1 r3 with
        | none => none
        | some r4 =>
          match dropLit name.data r4 with
          | none => none
          | some r5 =>
            match r5.dropWhile isPyWs with
            | '{' :: r6 =>
              match r6.dropWhile (fun c => ¬(c = '}')) with
              | '}' :: r7 => some r7
              | _ => none
            | _ => none

/-- `re.sub(rf'public\s+{kind}\s+{name}\s*{{[^}}]*}}', '', code, flags=re.DOTALL)`. -/
def removeTypeBlocksGo : Nat → String → String → List Char → List Char
  | 0, _, _, l => l
  | _, _, _, [] => []
  | fuel + 1, k, n, c :: t =>
    match matchTypeBlock k n (c :: t) with
    | some rest => removeTypeBlocksGo fuel k n rest
    | none => c :: removeTypeBlocksGo fuel k n t

def removeTypeBlocks (k n : String) (l : List Char) : List Char :=
  removeTypeBlocksGo l.length k n l

/-- Python dict lookup on an insertion-ordered association list. -/
def dictGet? (d : List (String × String)) (k : String) : Option String :=
  match d with
  | [] => none
  | (k2, v) :: t => if k2 = k then some v else dictGet? t k

/-- Python dict assignment: overwrite in place or append. -/
def dictSet (d : List (String × String)) (k v : String) : List (String × String) :=
  match d with
  | [] => [(k, v)]
  | (k2, v2) :: t => if k2 = k then (k2, v) :: t else (k2, v2) :: dictSet t k v

/-- The duplicate-kind repair loop of `validate_and_fix_code`. -/
def validateGo : List (String × String) → List (String × String) → List Char → List Char
  | [], _, code => code
  | (kind, name) :: rest, seen, code =>
    match dictGet? seen name with
    | some k0 =>
      if ¬(k0 = kind) then
        if ¬(kind = "class") then
          validateGo rest (dictSet seen name kind) (removeTypeBlocks kind name code)
        else
          validateGo rest (dictSet seen name kind) (removeTypeBlocks k0 name code)
      else validateGo rest (dictSet seen name kind) code
    | none => validateGo rest (dictSet seen name kind) code

/-- `VB6Converter.validate_and_fix_code`. -/
def validate_and_fix_code (code : List Char) : List Char :=
  validateGo (pyFindTypeNames code) [] code

/-- `VB6Converter.sanitize_code`. -/
def sanitize_code (code : String) : String :=
  if code = "" then ""
  else
    ⟨pyStripChars (validate_and_fix_code (pyStripChars
      (stripFences (collapseBlank (stripBlockComments (stripLineComments code.data))))))⟩


/-! ## Claim C10: line-comment removal and the repair marker -/

/-- No `//` occurrence is followed (anywhere later) by a newline. -/
def noSlashSlashBeforeNl (l : List Char) : Prop :=
  ∀ a b, l = a ++ '/' :: '/' :: b → '\n' ∉ b

theorem noSSBN_of_no_nl (l : List Char) (h : '\n' ∉ l) : noSlashSlashBeforeNl l := by
  intro a b hab hmem
  apply h
  rw [hab]
  simp [hmem]

theorem noSSBN_cons_ne (c : Char) (X : List Char) (hc : ¬(c = '/'))
    (h : noSlashSlashBeforeNl X) : noSlashSlashBeforeNl (c :: X) := by
  intro a b hab
  cases a with
  | nil =>
    simp only [List.nil_append, List.cons.injEq] at hab
    exact absurd hab.1 hc
  | cons a0 a2 =>
    simp only [List.cons_append, List.cons.injEq] at hab
    exact h a2 b hab.2

theorem noSSBN_cons_slash (X : List Char) (h : noSlashSlashBeforeNl X)
    (hh : ¬(X.head? = some '/')) : noSlashSlashBeforeNl ('/' :: X) := by
  intro a b hab
  cases a with
  | nil =>
    simp only [List.nil_append, List.cons.injEq] at hab
    rw [hab.2] at hh
    simp at hh
  | cons a0 a2 =>
    simp only [List.cons_append, List.cons.injEq] at hab
    exact h a2 b hab.2

theorem lineCommentsGo_false_head (l : List Char) :
    (lineCommentsGo false l).head? = some '/' → l.head? = some '/' := by
  induction l using List.rec with
  | nil => simp [lineCommentsGo.eq_1]
  | cons c t ih =>
    by_cases hsh : c = '/' ∧ ∃ t2, t = '/' :: t2
    · obtain ⟨rfl, t2, rfl⟩ := hsh
      rw [lineCommentsGo.eq_3]
      by_cases hmem : '\n' ∈ t2 <;> simp [hmem]
    · rw [lineCommentsGo.eq_4 c t]
      · simp
      · intro t2 hc ht
        exact hsh ⟨hc, t2, ht⟩

theorem lineCommentsGo_noSSBN (mode : Bool) (l : List Char) :
    noSlashSlashBeforeNl (lineCommentsGo mode l) := by
  induction mode, l using lineCommentsGo.induct with
  | case1 m =>
    rw [lineCommentsGo.eq_1]
    intro a b hab
    exact absurd hab (by cases a <;> simp)
  | case2 t ih =>
    rw [lineCommentsGo.eq_2]
    simpa using ih
  | case3 c t hc ih =>
    rw [lineCommentsGo.eq_2]
    simpa [hc] using ih
  | case4 t hmem ih =>
    rw [lineCommentsGo.eq_3, if_pos hmem]
    exact noSSBN_cons_ne _ _ (by decide) ih
  | case5 t hmem =>
    rw [lineCommentsGo.eq_3, if_neg hmem]
    apply noSSBN_of_no_nl
    simpa using hmem
  | case6 c t hshape ih =>
    rw [lineCommentsGo.eq_4 c t hshape]
    by_cases hc : c = '/'
    · subst hc
      apply noSSBN_cons_slash _ ih
      intro hhead
      have hth := lineCommentsGo_false_head t hhead
      cases t with
      | nil => simp at hth
      | cons t0 t2 =>
        simp only [List.head?_cons, Option.some.injEq] at hth
        exact hshape t2 rfl (by rw [hth])
    · exact noSSBN_cons_ne _ _ hc ih

/-- C10 (amended). The first stage of `sanitize_code` removes every
newline-terminated `//` comment: no `//` remains before any newline in
the output of the line-comment pass. (A `//` comment on the final line
with no trailing newline is not matched by `//.*?\n` and survives, which
is what the counterexample exhibits.) -/
theorem C10_line_comment_stage (code : List Char) :
    noSlashSlashBeforeNl (stripLineComments code) :=
  lineCommentsGo_noSSBN false code

/-- Closed instance of `C10_line_comment_stage`: in
`stripLineComments "a//b\nc//x"`, which evaluates to `"a\nc//x"`, the
surviving `//` is followed by no newline. -/
theorem C10_line_comment_stage_witness : '\n' ∉ (['x'] : List Char) :=
  C10_line_comment_stage "a//b\nc//x".data ['a', '\n', 'c'] ['x'] (by rfl)

/-- C10 is refuted on the code: a `//` marker comment on the last line
with no trailing newline passes through `sanitize_code` untouched, so the
marker `// TODO: Implement body from original VB6` does appear in
sanitized output. -/
theorem C10_cex :
    sanitize_code "int x; // TODO: Implement body from original VB6"
      = "int x; // TODO: Implement body from original VB6" ∧
    containsSub (sanitize_code "int x; // TODO: Implement body from original VB6").data
      "// TODO: Implement body from original VB6".data = true := by
  refine ⟨by rfl, by rfl⟩


/-! ## Python `json`: values, `dumps`, `loads`

Values are modeled without floats except as verbatim number tokens
(`numF`); Python strings are Lean `String`s, so texts that decode to lone
surrogates are outside the embedding and make the parser fail. -/

inductive PyJson where
  | null
  | bool (b : Bool)
  | int (n : Int)
  | str (s : String)
  | arr (items : List PyJson)
  | obj (members : List (String × PyJson))
  | numF (tok : String)

/-- Python dict lookup on an insertion-ordered association list. -/
def pyDictGet? {α : Type} (d : List (String × α)) (k : String) : Option α :=
  match d with
  | [] => none
  | (k2, v) :: t => if k2 = k then some v else pyDictGet? t k

/-- Python dict assignment: overwrite in place or append. -/
def pyDictSet {α : Type} (d : List (String × α)) (k : String) (v : α) :
    List (String × α) :=
  match d with
  | [] => [(k, v)]
  | (k2, v2) :: t => if k2 = k then (k2, v) :: t else (k2, v2) :: pyDictSet t k v

/-- `key in d` for a Python dict. -/
def pyDictHas {α : Type} (d : List (String × α)) (k : String) : Bool :=
  (pyDictGet? d k).isSome

/-- `dict(pairs)`: first-occurrence key order, last-occurrence value. -/
def dictOfPairs {α : Type} (ps : List (String × α)) : List (String × α) :=
  ps.foldl (fun d kv => pyDictSet d kv.1 kv.2) []

def digitChar (n : Nat) : Char := Char.ofNat ('0'.toNat + n)

/-- Lowercase hex digit (`%x` formatting). -/
def hexDigit (n : Nat) : Char :=
  if n < 10 then Char.ofNat ('0'.toNat + n) else Char.ofNat ('a'.toNat + n - 10)

/-- `%04x` of a value below `0x10000`. -/
def hex4 (n : Nat) : List Char :=
  [hexDigit (n / 4096 % 16), hexDigit (n / 256 % 16), hexDigit (n / 16 % 16), hexDigit (n % 16)]

/-- Decimal digits of `n` (`fuel ≥ n` suffices; callers pass `n + 1`). -/
def natToDigits (fuel n : Nat) : List Char :=
  match fuel with
  | 0 => []
  | f + 1 => if n < 10 then [digitChar n] else natToDigits f (n / 10) ++ [digitChar (n % 10)]

/-- Python `repr` of an `int`. -/
def intRepr (i : Int) : List Char :=
  match i with
  | .ofNat n => natToDigits (n + 1) n
  | .negSucc m => '-' :: natToDigits (m + 2) (m + 1)

/-- `json.dumps` escaping of one character (`ensure_ascii=True`). -/
def escapeChar (c : Char) : List Char :=
  if c = '"' then ['\\', '"']
  else if c = '\\' then ['\\', '\\']
  else if c = '\n' then ['\\', 'n']
  else if c = '\x0d' then ['\\', 'r']
  else if c = '\t' then ['\\', 't']
  else if c = '\x08' then ['\\', 'b']
  else if c = '\x0c' then ['\\', 'f']
  else if c.toNat < 0x20 ∨ 0x7f ≤ c.toNat then
    if c.toNat ≤ 0xffff then '\\' :: 'u' :: hex4 c.toNat
    else
      let v := c.toNat - 0x10000
      ('\\' :: 'u' :: hex4 (0xd800 + v / 1024)) ++ ('\\' :: 'u' :: hex4 (0xdc00 + v % 1024))
  else [c]

/-- `json.dumps` of a string, quotes included. -/
def escapeString (s : String) : List Char :=
  '"' :: (s.data.map escapeChar).flatten ++ ['"']

mutual

/-- `json.dumps(v)` with the default separators `", "` and `": "`. -/
def serValue : PyJson → List Char
  | .null => "null".data
  | .bool true => "true".data
  | .bool false => "false".data
  | .int n => intRepr n
  | .numF tok => tok.data
  | .str s => escapeString s
  | .arr items => '[' :: (serItems items ++ [']'])
  | .obj ms => '{' :: (serMembers ms ++ ['}'])

def serItems : List PyJson → List Char
  | [] => []
  | [v] => serValue v
  | v :: w :: t => serValue v ++ ',' :: ' ' :: serItems (w :: t)

def serMembers : List (String × PyJson) → List Char
  | [] => []
  | [(k, v)] => escapeString k ++ ':' :: ' ' :: serValue v
  | (k, v) :: m :: t =>
    escapeString k ++ ':' :: ' ' :: serValue v ++ ',' :: ' ' :: serMembers (m :: t)

end

def pyJsonDumps (v : PyJson) : String := ⟨serValue v⟩

/-- JSON inter-token whitespace (`json.decoder` accepts exactly these). -/
def isJsonWs (c : Char) : Bool := c = ' ' ∨ c = '\t' ∨ c = '\n' ∨ c = '\x0d'

def skipJsonWs (l : List Char) : List Char := l.dropWhile isJsonWs

def hexVal (c : Char) : Option Nat :=
  if '0' ≤ c ∧ c ≤ '9' then some (c.toNat - '0'.toNat)
  else if 'a' ≤ c ∧ c ≤ 'f' then some (c.toNat - 'a'.toNat + 10)
  else if 'A' ≤ c ∧ c ≤ 'F' then some (c.toNat - 'A'.toNat + 10)
  else none

def hex4Val (h1 h2 h3 h4 : Char) : Option Nat :=
  match hexVal h1, hexVal h2, hexVal h3, hexVal h4 with
  | some a, some b, some c, some d => some (a * 4096 + b * 256 + c * 16 + d)
  | _, _, _, _ => none

def isHighSurrogate (n : Nat) : Bool := 0xd800 ≤ n ∧ n ≤ 0xdbff

def isLowSurrogate (n : Nat) : Bool := 0xdc00 ≤ n ∧ n ≤ 0xdfff

def simpleEscape (c : Char) : Option Char :=
  if c = '"' then some '"'
  else if c = '\\' then some '\\'
  else if c = '/' then some '/'
  else if c = 'b' then some '\x08'
  else if c = 'f' then some '\x0c'
  else if c = 'n' then some '\n'
  else if c = 'r' then some '\x0d'
  else if c = 't' then some '\t'
  else none

/-- Strict JSON string body (after the opening quote): returns the
decoded characters and the rest after the closing quote.  `pending`
carries a high surrogate read from a `\uXXXX` escape and awaiting its
low half.  Raw control characters are rejected; a lone surrogate (legal
for Python, unrepresentable as a scalar value) fails. -/
def parseStringGo : Option Nat → List Char → Option (List Char × List Char)
  | some _, [] => none
  | some hi, '\\' :: 'u' :: h1 :: h2 :: h3 :: h4 :: t =>
    match hex4Val h1 h2 h3 h4 with
    | some lo =>
      if isLowSurrogate lo then
        match parseStringGo none t with
        | some (cs, r) =>
          some (Char.ofNat (0x10000 + (hi - 0xd800) * 1024 + (lo - 0xdc00)) :: cs, r)
        | none => none
      else none
    | none => none
  | some _, _ :: _ => none
  | none, [] => none
  | none, '"' :: t => some ([], t)
  | none, '\\' :: 'u' :: h1 :: h2 :: h3 :: h4 :: t =>
    match hex4Val h1 h2 h3 h4 with
    | some n =>
      if isHighSurrogate n then parseStringGo (some n) t
      else if isLowSurrogate n then none
      else
        match parseStringGo none t with
        | some (cs, r) => some (Char.ofNat n :: cs, r)
        | none => none
    | none => none
  | none, '\\' :: e :: t =>
    match simpleEscape e with
    | some c =>
      match parseStringGo none t with
      | some (cs, r) => some (c :: cs, r)
      | none => none
    | none => none
  | none, c :: t =>
    if c.toNat < 0x20 then none
    else
      match parseStringGo none t with
      | some (cs, r) => some (c :: cs, r)
      | none => none

def parseStringBody (l : List Char) : Option (List Char × List Char) :=
  parseStringGo none l

def isDigitChar (c : Char) : Bool := '0' ≤ c ∧ c ≤ '9'

/-- The integer part `(0|[1-9]\d*)` of the number regex. -/
def numIntPart : List Char → Option (List Char × List Char)
  | '0' :: t => some (['0'], t)
  | c :: t =>
    if isDigitChar c ∧ ¬(c = '0') then
      some (c :: t.takeWhile isDigitChar, t.dropWhile isDigitChar)
    else none
  | [] => none

/-- Optional fraction `(\.\d+)?`: all-or-nothing. -/
def numFracPart (l : List Char) : List Char × List Char :=
  match l with
  | '.' :: t =>
    let ds := t.takeWhile isDigitChar
    if ds = [] then ([], l) else ('.' :: ds, t.dropWhile isDigitChar)
  | _ => ([], l)

/-- Optional exponent `([eE][-+]?\d+)?`: all-or-nothing. -/
def numExpPart (l : List Char) : List Char × List Char :=
  match l with
  | e :: t =>
    if e = 'e' ∨ e = 'E' then
      match t with
      | s :: t2 =>
        if s = '+' ∨ s = '-' then
          let ds := t2.takeWhile isDigitChar
          if ds = [] then ([], l) else (e :: s :: ds, t2.dropWhile isDigitChar)
        else
          let ds := t.takeWhile isDigitChar
          if ds = [] then ([], l) else (e :: ds, t.dropWhile isDigitChar)
      | [] => ([], l)
    else ([], l)
  | [] => ([], l)

def digitsToNat (ds : List Char) : Nat :=
  ds.foldl (fun acc c => acc * 10 + (c.toNat - '0'.toNat)) 0

/-- The number token of `json.decoder.NUMBER_RE`: an integer becomes an
`int`, any fraction or exponent makes it a float kept as its token. -/
def parseNumber (l : List Char) : Option (PyJson × List Char) :=
  match l with
  | '-' :: t =>
    match numIntPart t with
    | some (ip, r1) =>
      let (fp, r2) := numFracPart r1
      let (ep, r3) := numExpPart r2
      if fp = [] ∧ ep = [] then some (.int (-(digitsToNat ip : Int)), r3)
      else some (.numF ⟨'-' :: ip ++ fp ++ ep⟩, r3)
    | none => none
  | _ =>
    match numIntPart l with
    | some (ip, r1) =>
      let (fp, r2) := numFracPart r1
      let (ep, r3) := numExpPart r2
      if fp = [] ∧ ep = [] then some (.int (digitsToNat ip : Int), r3)
      else some (.numF ⟨ip ++ fp ++ ep⟩, r3)
    | none => none

mutual

/-- One JSON value at the head of `l` (whitespace already skipped);
`fuel` bounds nesting and `l.length + 1` always suffices. -/
def parseValue : Nat → List Char → Option (PyJson × List Char)
  | 0, _ => none
  | fuel + 1, l =>
    match l with
    | '"' :: t =>
      match parseStringBody t with
      | some (cs, r) => some (.str ⟨cs⟩, r)
      | none => none
    | '{' :: t =>
      match skipJsonWs t with
      | '}' :: r2 => some (.obj [], r2)
      | r =>
        match parseMembers fuel r with
        | some (ms, rest) => some (.obj (dictOfPairs ms), rest)
        | none => none
    | '[' :: t =>
      match skipJsonWs t with
      | ']' :: r2 => some (.arr [], r2)
      | r =>
        match parseItems fuel r with
        | some (vs, rest) => some (.arr vs, rest)
        | none => none
    | _ =>
      match dropLit "null".data l with
      | some r => some (.null, r)
      | none =>
        match dropLit "true".data l with
        | some r => some (.bool true, r)
        | none =>
          match dropLit "false".data l with
          | some r => some (.bool false, r)
          | none =>
            match dropLit "NaN".data l with
            | some r => some (.numF "NaN", r)
            | none =>
              match dropLit "Infinity".data l with
              | some r => some (.numF "Infinity", r)
              | none =>
                match dropLit "-Infinity".data l with
                | some r => some (.numF "-Infinity", r)
                | none => parseNumber l

/-- `"key" : value (, "key" : value)* }` — the nonempty members of an
object, starting just past `{` and any whitespace. -/
def parseMembers : Nat → List Char → Option (List (String × PyJson) × List Char)
  | 0, _ => none
  | fuel + 1, l =>
    match l with
    | '"' :: t =>
      match parseStringBody t with
      | some (kcs, r1) =>
        match skipJsonWs r1 with
        | ':' :: r3 =>
          match parseValue fuel (skipJsonWs r3) with
          | some (v, r4) =>
            match skipJsonWs r4 with
            | ',' :: r6 =>
              match parseMembers fuel (skipJsonWs r6) with
              | some (ms, r7) => some ((⟨kcs⟩, v) :: ms, r7)
              | none => none
            | '}' :: r6 => some ([(⟨kcs⟩, v)], r6)
            | _ => none
          | none => none
        | _ => none
      | none => none
    | _ => none

/-- `value (, value)* ]` — the nonempty items of an array, starting just
past `[` and any whitespace. -/
def parseItems : Nat → List Char → Option (List PyJson × List Char)
  | 0, _ => none
  | fuel + 1, l =>
    match parseValue fuel l with
    | some (v, r1) =>
      match skipJsonWs r1 with
      | ',' :: r3 =>
        match parseItems fuel (skipJsonWs r3) with
        | some (vs, r4) => some (v :: vs, r4)
        | none => none
      | ']' :: r3 => some ([v], r3)
      | _ => none
    | none => none

end

/-- `json.loads`: skip whitespace, one value, trailing whitespace only. -/
def pyJsonLoads (s : String) : Option PyJson :=
  match parseValue (s.data.length + 1) (skipJsonWs s.data) with
  | some (v, rest) => if skipJsonWs rest = [] then some v else none
  | none => none


/-! ## The Recoverer: `VB6Converter.extract_json_from_response` -/

/-- `re.sub(r'^```json\s*', '', text, flags=re.MULTILINE)` as a scanner.
`skipping = false`: scanning with `flag` = "at a line start"; a match
consumes the fence and enters whitespace-skipping mode.  `skipping =
true`: inside the matched `\s*` run with `flag` = "last consumed
character was a newline" (which decides whether the resume position is a
line start). -/
def fenceJsonGo : Bool → Bool → List Char → List Char
  | _, _, [] => []
  | false, flag, '`' :: '`' :: '`' :: 'j' :: 's' :: 'o' :: 'n' :: t =>
    if flag then fenceJsonGo true false t
    else '`' :: '`' :: '`' :: 'j' :: 's' :: 'o' :: 'n' :: fenceJsonGo false false t
  | false, _, c :: t => c :: fenceJsonGo false (c = '\n') t
  | true, flag, '`' :: '`' :: '`' :: 'j' :: 's' :: 'o' :: 'n' :: t =>
    if flag then fenceJsonGo true false t
    else '`' :: '`' :: '`' :: 'j' :: 's' :: 'o' :: 'n' :: fenceJsonGo false false t
  | true, _, c :: t =>
    if isPyWs c then fenceJsonGo true (c = '\n') t
    else c :: fenceJsonGo false (c = '\n') t

/-- First fence-strip of the Recoverer. -/
def sub1 (l : List Char) : List Char := fenceJsonGo false true l

def eolAt (l : List Char) : Bool := l.isEmpty ∨ l.head? = some '\n'

/-- `re.sub(r'\n?```$', '', text, flags=re.MULTILINE)` as a scanner:
a backtick fence directly before a newline or the end of the text is
removed together with one preceding newline. -/
def sub2Go : List Char → List Char
  | [] => []
  | '\n' :: '`' :: '`' :: '`' :: rest =>
    if eolAt rest then sub2Go rest
    else '\n' :: sub2Go ('`' :: '`' :: '`' :: rest)
  | '`' :: '`' :: '`' :: rest =>
    if eolAt rest then sub2Go rest
    else '`' :: sub2Go ('`' :: '`' :: rest)
  | c :: t => c :: sub2Go t

/-- Second fence-strip of the Recoverer. -/
def sub2 (l : List Char) : List Char := sub2Go l

/-- Python `str.replace(pat, rep)` (all non-overlapping occurrences,
left to right); `fuel = l.length` suffices for nonempty `pat`. -/
def replaceAllGo (pat rep : List Char) : Nat → List Char → List Char
  | 0, l => l
  | _, [] => []
  | fuel + 1, c :: t =>
    if pat.isPrefixOf (c :: t) then rep ++ replaceAllGo pat rep fuel ((c :: t).drop pat.length)
    else c :: replaceAllGo pat rep fuel t

def pyReplaceAll (l pat rep : List Char) : List Char := replaceAllGo pat rep l.length l

/-- The character-by-character brace scan of the Recoverer's second
stage: Python's `brace_count` (which may go negative) and `start_idx`,
here as the reversed span collected since the opening brace.  Returns the
first top-level balanced `{...}` span. -/
def braceScan : Int → Option (List Char) → List Char → Option (List Char)
  | _, _, [] => none
  | count, acc, c :: t =>
    if c = '{' then
      braceScan (count + 1)
        (if count = 0 ∧ acc.isNone then some [c] else acc.map (c :: ·)) t
    else if c = '}' then
      match acc with
      | some rev =>
        if count - 1 = 0 then some (c :: rev).reverse
        else braceScan (count - 1) (some (c :: rev)) t
      | none => braceScan (count - 1) none t
    else braceScan count (acc.map (c :: ·)) t

/-- `re.search(r'\{[\s\S]*\}', text)`: from the first `{` to the last
`}`, when the latter follows the former. -/
def greedyBraceSpan (l : List Char) : Option (List Char) :=
  match l.dropWhile (fun c => ¬(c = '{')) with
  | [] => none
  | c :: t =>
    match (t.reverse.dropWhile (fun d => ¬(d = '}'))).reverse with
    | [] => none
    | body => some (c :: body)

/-- Stages 3 and 4 of the Recoverer: the greedy regex span, then the
diagnostic error carrying the first 200 characters of the cleaned text. -/
def recoverStage3 (cleaned : List Char) : PyJson :=
  match greedyBraceSpan cleaned with
  | some span =>
    match pyJsonLoads ⟨span⟩ with
    | some v => v
    | none =>
      .obj [("error", .str ⟨"Invalid JSON response: ".data ++ cleaned.take 200 ++ "...".data⟩)]
  | none =>
    .obj [("error", .str ⟨"Invalid JSON response: ".data ++ cleaned.take 200 ++ "...".data⟩)]

/-- The recovery cascade applied to the cleaned text: direct parse, then
the escape-normalized brace scan (only its first span, a failure falling
through), then the greedy span, then the diagnostic error. -/
def recoverFromCleaned (cleaned : List Char) : PyJson :=
  match pyJsonLoads ⟨cleaned⟩ with
  | some v => v
  | none =>
    let fixed := pyReplaceAll (pyReplaceAll cleaned ['\\', '"'] ['"']) ['\\', '\\'] ['\\']
    match braceScan 0 none fixed with
    | some span =>
      match pyJsonLoads ⟨span⟩ with
      | some v => v
      | none => recoverStage3 cleaned
    | none => recoverStage3 cleaned

/-- `VB6Converter.extract_json_from_response`. -/
def extract_json_from_response (response : String) : PyJson :=
  if response = "" then .obj [("error", .str "Empty response from API")]
  else recoverFromCleaned (pyStripChars (sub2 (sub1 response.data)))


/-! ## Round-trip toolkit: characters, digits, hex -/

theorem char_le_iff (a b : Char) : a ≤ b ↔ a.toNat ≤ b.toNat := by
  rw [Char.le_def, UInt32.le_def]
  exact Iff.rfl

theorem char_eq_iff (a b : Char) : a = b ↔ a.toNat = b.toNat := by
  constructor
  · intro h; rw [h]
  · intro h
    have h2 := Char.ofNat_toNat a
    rw [h, Char.ofNat_toNat b] at h2
    exact h2.symm

theorem char_toNat_ofNat {n : Nat} (h : n.isValidChar) : (Char.ofNat n).toNat = n := by
  simp [Char.ofNat, Char.toNat, Char.ofNatAux, h, UInt32.toNat, UInt32.ofNatCore]

theorem validChar_of_lt {n : Nat} (h : n < 0xd800) : n.isValidChar := Or.inl h

theorem char_valid (c : Char) : c.toNat < 0xd800 ∨ (0xe000 ≤ c.toNat ∧ c.toNat < 0x110000) :=
  c.valid

theorem isDigitChar_iff (c : Char) : isDigitChar c = true ↔ 48 ≤ c.toNat ∧ c.toNat ≤ 57 := by
  unfold isDigitChar
  rw [show (48 : Nat) = '0'.toNat from rfl, show (57 : Nat) = '9'.toNat from rfl]
  simp [char_le_iff]

theorem digitChar_toNat {n : Nat} (h : n < 10) : (digitChar n).toNat = 48 + n := by
  unfold digitChar
  rw [show '0'.toNat = 48 from rfl]
  exact char_toNat_ofNat (validChar_of_lt (by omega))

theorem isDigitChar_digitChar {n : Nat} (h : n < 10) : isDigitChar (digitChar n) = true := by
  rw [isDigitChar_iff, digitChar_toNat h]
  omega

theorem hexVal_hexDigit {n : Nat} (h : n < 16) : hexVal (hexDigit n) = some n := by
  interval_cases n <;> decide

theorem hex4Val_hex4 {n : Nat} (h : n < 0x10000) :
    hex4Val (hexDigit (n / 4096 % 16)) (hexDigit (n / 256 % 16))
      (hexDigit (n / 16 % 16)) (hexDigit (n % 16)) = some n := by
  unfold hex4Val
  rw [hexVal_hexDigit (by omega), hexVal_hexDigit (by omega),
    hexVal_hexDigit (by omega), hexVal_hexDigit (by omega)]
  simp only []
  have harith : n / 4096 % 16 * 4096 + n / 256 % 16 * 256 + n / 16 % 16 * 16 + n % 16 = n := by
    omega
  simp [harith]


theorem takeWhile_append_all {p : Char → Bool} (xs ys : List Char)
    (h : ∀ x ∈ xs, p x = true) :
    (xs ++ ys).takeWhile p = xs ++ ys.takeWhile p := by
  induction xs with
  | nil => simp
  | cons a t ih =>
    have ha := h a (by simp)
    simp [List.takeWhile_cons, ha]
    exact ih (fun x hx => h x (by simp [hx]))

theorem dropWhile_append_all {p : Char → Bool} (xs ys : List Char)
    (h : ∀ x ∈ xs, p x = true) :
    (xs ++ ys).dropWhile p = ys.dropWhile p := by
  induction xs with
  | nil => simp
  | cons a t ih =>
    have ha := h a (by simp)
    simp [List.dropWhile_cons, ha]
    exact ih (fun x hx => h x (by simp [hx]))

theorem takeWhile_not_head {p : Char → Bool} (l : List Char)
    (h : ∀ c, l.head? = some c → p c = false) : l.takeWhile p = [] := by
  cases l with
  | nil => rfl
  | cons a t => simp [List.takeWhile_cons, h a rfl]

theorem dropWhile_not_head {p : Char → Bool} (l : List Char)
    (h : ∀ c, l.head? = some c → p c = false) : l.dropWhile p = l := by
  cases l with
  | nil => rfl
  | cons a t => simp [List.dropWhile_cons, h a rfl]

/-! ### Decimal digits round trip -/

theorem digitsToNat_snoc (ds : List Char) (c : Char) :
    digitsToNat (ds ++ [c]) = digitsToNat ds * 10 + (c.toNat - '0'.toNat) := by
  unfold digitsToNat
  rw [List.foldl_append]
  simp

theorem natToDigits_spec : ∀ (fuel n : Nat), n < fuel →
    natToDigits fuel n ≠ [] ∧ (∀ c ∈ natToDigits fuel n, isDigitChar c = true) ∧
    digitsToNat (natToDigits fuel n) = n ∧
    (∀ c, (natToDigits fuel n).head? = some c → (c = '0' → n = 0)) := by
  intro fuel
  induction fuel with
  | zero => intro n h; omega
  | succ f ih =>
    intro n h
    by_cases h10 : n < 10
    · rw [show natToDigits (f + 1) n = [digitChar n] from by rw [natToDigits]; rw [if_pos h10]]
      refine ⟨by simp, ?_, ?_, ?_⟩
      · intro c hc
        simp at hc
        rw [hc]
        exact isDigitChar_digitChar h10
      · unfold digitsToNat
        simp [digitChar_toNat h10]
      · intro c hc hc0
        simp at hc
        rw [← hc] at hc0
        have h3 := congrArg Char.toNat hc0
        rw [digitChar_toNat h10, show '0'.toNat = 48 from rfl] at h3
        omega
    · have hf : n / 10 < f := by omega
      obtain ⟨hne, hdig, hval, hzero⟩ := ih (n / 10) hf
      rw [show natToDigits (f + 1) n = natToDigits f (n / 10) ++ [digitChar (n % 10)] from by
        rw [natToDigits]; rw [if_neg h10]]
      refine ⟨by simp, ?_, ?_, ?_⟩
      · intro c hc
        rcases List.mem_append.mp hc with hc | hc
        · exact hdig c hc
        · simp at hc
          rw [hc]
          exact isDigitChar_digitChar (by omega)
      · rw [digitsToNat_snoc, hval, digitChar_toNat (by omega),
          show '0'.toNat = 48 from rfl]
        omega
      · intro c hc hc0
        cases hh : natToDigits f (n / 10) with
        | nil => exact absurd hh hne
        | cons d t =>
          rw [hh] at hc
          simp at hc
          rw [hh] at hzero
          have h4 := hzero c (by simp [hc]) hc0
          omega


/-! ### String escaping round trip -/

theorem parseStringGo_escape (cs : List Char) (rest : List Char) :
    parseStringGo none ((cs.map escapeChar).flatten ++ '"' :: rest) = some (cs, rest) := by
  induction cs with
  | nil => simp [parseStringGo.eq_5]
  | cons c cs ih =>
    simp only [List.map_cons, List.flatten_cons, List.append_assoc]
    by_cases h1 : c = '"'
    · subst h1
      rw [show escapeChar '"' = ['\\', '"'] from rfl]
      rw [show (['\\', '"'] : List Char) ++ ((cs.map escapeChar).flatten ++ '"' :: rest)
        = '\\' :: '"' :: ((cs.map escapeChar).flatten ++ '"' :: rest) from rfl]
      rw [parseStringGo.eq_7 _ _ (by intro _ _ _ _ _ hq _; exact absurd hq (by decide))]
      rw [show simpleEscape '"' = some '"' from rfl, ih]
    · by_cases h2 : c = '\\'
      · subst h2
        rw [show escapeChar '\\' = ['\\', '\\'] from rfl]
        rw [show (['\\', '\\'] : List Char) ++ ((cs.map escapeChar).flatten ++ '"' :: rest)
          = '\\' :: '\\' :: ((cs.map escapeChar).flatten ++ '"' :: rest) from rfl]
        rw [parseStringGo.eq_7 _ _ (by intro _ _ _ _ _ hq _; exact absurd hq (by decide))]
        rw [show simpleEscape '\\' = some '\\' from rfl, ih]
      · by_cases h3 : c = '\n'
        · subst h3
          rw [show escapeChar '\n' = ['\\', 'n'] from rfl]
          rw [show (['\\', 'n'] : List Char) ++ ((cs.map escapeChar).flatten ++ '"' :: rest)
            = '\\' :: 'n' :: ((cs.map escapeChar).flatten ++ '"' :: rest) from rfl]
          rw [parseStringGo.eq_7 _ _ (by intro _ _ _ _ _ hq _; exact absurd hq (by decide))]
          rw [show simpleEscape 'n' = some '\n' from rfl, ih]
        · by_cases h4 : c = '\x0d'
          · subst h4
            rw [show escapeChar '\x0d' = ['\\', 'r'] from rfl]
            rw [show (['\\', 'r'] : List Char) ++ ((cs.map escapeChar).flatten ++ '"' :: rest)
              = '\\' :: 'r' :: ((cs.map escapeChar).flatten ++ '"' :: rest) from rfl]
            rw [parseStringGo.eq_7 _ _ (by intro _ _ _ _ _ hq _; exact absurd hq (by decide))]
            rw [show simpleEscape 'r' = some '\x0d' from rfl, ih]
          · by_cases h5 : c = '\t'
            · subst h5
              rw [show escapeChar '\t' = ['\\', 't'] from rfl]
              rw [show (['\\', 't'] : List Char) ++ ((cs.map escapeChar).flatten ++ '"' :: rest)
                = '\\' :: 't' :: ((cs.map escapeChar).flatten ++ '"' :: rest) from rfl]
              rw [parseStringGo.eq_7 _ _ (by intro _ _ _ _ _ hq _; exact absurd hq (by decide))]
              rw [show simpleEscape 't' = some '\t' from rfl, ih]
            · by_cases h6 : c = '\x08'
              · subst h6
                rw [show escapeChar '\x08' = ['\\', 'b'] from rfl]
                rw [show (['\\', 'b'] : List Char) ++ ((cs.map escapeChar).flatten ++ '"' :: rest)
                  = '\\' :: 'b' :: ((cs.map escapeChar).flatten ++ '"' :: rest) from rfl]
                rw [parseStringGo.eq_7 _ _ (by intro _ _ _ _ _ hq _; exact absurd hq (by decide))]
                rw [show simpleEscape 'b' = some '\x08' from rfl, ih]
              · by_cases h7 : c = '\x0c'
                · subst h7
                  rw [show escapeChar '\x0c' = ['\\', 'f'] from rfl]
                  rw [show (['\\', 'f'] : List Char) ++ ((cs.map escapeChar).flatten ++ '"' :: rest)
                    = '\\' :: 'f' :: ((cs.map escapeChar).flatten ++ '"' :: rest) from rfl]
                  rw [parseStringGo.eq_7 _ _ (by intro _ _ _ _ _ hq _; exact absurd hq (by decide))]
                  rw [show simpleEscape 'f' = some '\x0c' from rfl, ih]
                · by_cases h8 : c.toNat < 0x20 ∨ 0x7f ≤ c.toNat
                  · rw [show escapeChar c
                        = (if c.toNat ≤ 0xffff then '\\' :: 'u' :: hex4 c.toNat
                           else
                             ('\\' :: 'u' :: hex4 (0xd800 + (c.toNat - 0x10000) / 1024)) ++
                               ('\\' :: 'u' :: hex4 (0xdc00 + (c.toNat - 0x10000) % 1024)))
                        from by
                      unfold escapeChar
                      rw [if_neg h1, if_neg h2, if_neg h3, if_neg h4, if_neg h5,
                        if_neg h6, if_neg h7, if_pos h8]]
                    by_cases h9 : c.toNat ≤ 0xffff
                    · rw [if_pos h9]
                      rw [show hex4 c.toNat = [hexDigit (c.toNat / 4096 % 16),
                        hexDigit (c.toNat / 256 % 16), hexDigit (c.toNat / 16 % 16),
                        hexDigit (c.toNat % 16)] from rfl]
                      simp only [List.cons_append, List.nil_append]
                      rw [parseStringGo.eq_6]
                      have hval := char_valid c
                      simp only [hex4Val_hex4 (show c.toNat < 0x10000 from by omega),
                        show isHighSurrogate c.toNat = false from by
                          simp [isHighSurrogate]; omega,
                        show isLowSurrogate c.toNat = false from by
                          simp [isLowSurrogate]; omega,
                        Bool.false_eq_true, if_false, ih, Char.ofNat_toNat]
                    · rw [if_neg h9]
                      have hval := char_valid c
                      have hv1 : 0xd800 + (c.toNat - 0x10000) / 1024 < 0x10000 := by omega
                      have hv2 : 0xdc00 + (c.toNat - 0x10000) % 1024 < 0x10000 := by
                        have := Nat.mod_lt (c.toNat - 0x10000) (show 0 < 1024 from by omega)
                        omega
                      rw [show hex4 (0xd800 + (c.toNat - 0x10000) / 1024)
                        = [hexDigit ((0xd800 + (c.toNat - 0x10000) / 1024) / 4096 % 16),
                           hexDigit ((0xd800 + (c.toNat - 0x10000) / 1024) / 256 % 16),
                           hexDigit ((0xd800 + (c.toNat - 0x10000) / 1024) / 16 % 16),
                           hexDigit ((0xd800 + (c.toNat - 0x10000) / 1024) % 16)] from rfl]
                      rw [show hex4 (0xdc00 + (c.toNat - 0x10000) % 1024)
                        = [hexDigit ((0xdc00 + (c.toNat - 0x10000) % 1024) / 4096 % 16),
                           hexDigit ((0xdc00 + (c.toNat - 0x10000) % 1024) / 256 % 16),
                           hexDigit ((0xdc00 + (c.toNat - 0x10000) % 1024) / 16 % 16),
                           hexDigit ((0xdc00 + (c.toNat - 0x10000) % 1024) % 16)] from rfl]
                      simp only [List.cons_append, List.nil_append]
                      rw [parseStringGo.eq_6]
                      simp only [hex4Val_hex4 hv1,
                        show isHighSurrogate (0xd800 + (c.toNat - 0x10000) / 1024) = true from by
                          simp [isHighSurrogate]; omega,
                        if_true]
                      rw [parseStringGo.eq_2]
                      simp only [hex4Val_hex4 hv2,
                        show isLowSurrogate (0xdc00 + (c.toNat - 0x10000) % 1024) = true from by
                          simp [isLowSurrogate]; omega,
                        if_true, ih]
                      have harith : 65536 + (0xd800 + (c.toNat - 0x10000) / 1024 - 55296) * 1024 +
                          (0xdc00 + (c.toNat - 0x10000) % 1024 - 56320) = c.toNat := by
                        have hdm := Nat.div_add_mod (c.toNat - 0x10000) 1024
                        omega
                      rw [harith, Char.ofNat_toNat]
                  · rw [show escapeChar c = [c] from by
                      unfold escapeChar
                      rw [if_neg h1, if_neg h2, if_neg h3, if_neg h4, if_neg h5,
                        if_neg h6, if_neg h7, if_neg h8]]
                    simp only [List.cons_append, List.nil_append]
                    rw [parseStringGo.eq_8 c _ (fun hq => h1 hq)
                      (by intro _ _ _ _ _ hq _; exact h2 hq)
                      (by intro _ _ hq _; exact h2 hq)]
                    rw [if_neg (by omega)]
                    rw [ih]


/-! ### Serializable values and parser fuel weights -/

theorem dropLit_self (p r : List Char) : dropLit p (p ++ r) = some r := by
  unfold dropLit
  rw [if_pos]
  · rw [List.drop_left]
  · induction p with
    | nil => simp [List.isPrefixOf]
    | cons a t ih => simpa [List.isPrefixOf_cons₂] using ih

theorem dropLit_head_ne (p0 c : Char) (pt lt : List Char) (h : ¬(p0 = c)) :
    dropLit (p0 :: pt) (c :: lt) = none := by
  unfold dropLit
  rw [if_neg]
  simp [List.isPrefixOf_cons₂]
  intro hbeq
  exact absurd hbeq h

theorem dropLit_second_ne (p0 p1 c1 : Char) (pt lt : List Char) (h : ¬(p1 = c1)) :
    dropLit (p0 :: p1 :: pt) (p0 :: c1 :: lt) = none := by
  unfold dropLit
  rw [if_neg]
  simp [List.isPrefixOf_cons₂]
  intro hbeq
  exact absurd hbeq h

/-- Characters that would extend a number token to its right. -/
def numCont (c : Char) : Bool := isDigitChar c ∨ c = '.' ∨ c = 'e' ∨ c = 'E'

/-- The rest after a serialized value must not extend a number token. -/
def restOK : List Char → Bool
  | [] => true
  | c :: _ => ¬(numCont c = true)

def keyMem (k : String) : List String → Bool
  | [] => false
  | k2 :: t => decide (k2 = k) || keyMem k t

def keysNodupB : List String → Bool
  | [] => true
  | k :: t => !(keyMem k t) && keysNodupB t

mutual

/-- Values inside the round-trip embedding: no float tokens, and every
object\u2019s keys pairwise distinct (so it denotes a Python dict). -/
def serializable : PyJson → Bool
  | .null => true
  | .bool _ => true
  | .int _ => true
  | .str _ => true
  | .numF _ => false
  | .arr items => serializableList items
  | .obj ms => keysNodupB (ms.map Prod.fst) && serializableMembers ms

def serializableList : List PyJson → Bool
  | [] => true
  | v :: t => serializable v && serializableList t

def serializableMembers : List (String × PyJson) → Bool
  | [] => true
  | (_, v) :: t => serializable v && serializableMembers t

end

mutual

/-- Fuel needed by `parseValue` on the serialization of a value. -/
def weight : PyJson → Nat
  | .arr items => 1 + weightList items
  | .obj ms => 1 + weightMembers ms
  | _ => 1

def weightList : List PyJson → Nat
  | [] => 0
  | v :: t => 1 + weight v + weightList t

def weightMembers : List (String × PyJson) → Nat
  | [] => 0
  | (_, v) :: t => 1 + weight v + weightMembers t

end

theorem keyMem_append (k : String) (a b : List String) :
    keyMem k (a ++ b) = (keyMem k a || keyMem k b) := by
  induction a with
  | nil => simp [keyMem]
  | cons x t ih => simp [keyMem, ih, Bool.or_assoc]

theorem pyDictSet_notmem {α : Type} (acc : List (String × α)) (k : String) (v : α)
    (h : keyMem k (acc.map Prod.fst) = false) :
    pyDictSet acc k v = acc ++ [(k, v)] := by
  induction acc with
  | nil => rfl
  | cons p t ih =>
    obtain ⟨k2, v2⟩ := p
    simp only [List.map_cons, keyMem, Bool.or_eq_false_iff,
      decide_eq_false_iff_not] at h
    rw [show pyDictSet ((k2, v2) :: t) k v
      = if k2 = k then (k2, v) :: t else (k2, v2) :: pyDictSet t k v from rfl]
    rw [if_neg h.1, ih h.2]
    rfl

theorem dictOfPairs_foldl {α : Type} (ms : List (String × α)) :
    ∀ (acc : List (String × α)), keysNodupB (ms.map Prod.fst) = true →
      (∀ k2, keyMem k2 (ms.map Prod.fst) = true → keyMem k2 (acc.map Prod.fst) = false) →
      ms.foldl (fun d kv => pyDictSet d kv.1 kv.2) acc = acc ++ ms := by
  induction ms with
  | nil => intro acc _ _; simp
  | cons p t ih =>
    intro acc hnd hdisj
    obtain ⟨k, v⟩ := p
    simp only [List.foldl_cons]
    simp only [List.map_cons, keysNodupB, Bool.and_eq_true, Bool.not_eq_eq_eq_not,
      Bool.not_true] at hnd
    have hkself : keyMem k ((k :: t.map Prod.fst)) = true := by simp [keyMem]
    have hknotin : keyMem k (acc.map Prod.fst) = false := by
      have := hdisj k (by simpa using hkself)
      exact this
    rw [pyDictSet_notmem acc k v hknotin]
    rw [ih (acc ++ [(k, v)]) hnd.2 ?_]
    · simp
    · intro k2 hk2
      simp only [List.map_append, List.map_cons, List.map_nil]
      rw [keyMem_append]
      have hk2a : keyMem k2 (acc.map Prod.fst) = false := by
        apply hdisj k2
        simp [keyMem, hk2]
      rw [hk2a]
      simp only [Bool.false_or, keyMem, keyMem]
      by_cases hkk : k = k2
      · subst hkk
        rw [hk2] at hnd
        exact absurd hnd.1 (by simp)
      · simp [hkk, keyMem]

theorem dictOfPairs_nodup {α : Type} (ms : List (String × α))
    (h : keysNodupB (ms.map Prod.fst) = true) : dictOfPairs ms = ms := by
  unfold dictOfPairs
  rw [dictOfPairs_foldl ms [] h (by intro k2 _; rfl)]
  rfl


/-! ### Head shape of serialized values -/

/-- Possible first characters of a serialized (float-free) value. -/
def serHeadOk (c : Char) : Prop :=
  c = '"' ∨ c = '{' ∨ c = '[' ∨ c = 'n' ∨ c = 't' ∨ c = 'f' ∨ c = '-' ∨ isDigitChar c = true

theorem intRepr_shape (n : Int) :
    ∃ c t, intRepr n = c :: t ∧ (c = '-' ∨ isDigitChar c = true) := by
  cases n with
  | ofNat m =>
    obtain ⟨hne, hdig, -, -⟩ := natToDigits_spec (m + 1) m (by omega)
    cases hh : natToDigits (m + 1) m with
    | nil => exact absurd hh hne
    | cons c t =>
      refine ⟨c, t, hh, Or.inr ?_⟩
      exact hdig c (by rw [hh]; simp)
  | negSucc m => exact ⟨'-', _, rfl, Or.inl rfl⟩

theorem serValue_shape (v : PyJson) (h : serializable v = true) :
    ∃ c t, serValue v = c :: t ∧ serHeadOk c := by
  cases v with
  | null => exact ⟨'n', _, rfl, by simp [serHeadOk]⟩
  | bool b => cases b
              · exact ⟨'f', _, rfl, by simp [serHeadOk]⟩
              · exact ⟨'t', _, rfl, by simp [serHeadOk]⟩
  | int n =>
    obtain ⟨c, t, hct, hc⟩ := intRepr_shape n
    refine ⟨c, t, ?_, ?_⟩
    · rw [show serValue (.int n) = intRepr n from rfl, hct]
    · unfold serHeadOk; tauto
  | str s => exact ⟨'"', _, rfl, by simp [serHeadOk]⟩
  | arr items => exact ⟨'[', _, rfl, by simp [serHeadOk]⟩
  | obj ms => exact ⟨'{', _, rfl, by simp [serHeadOk]⟩
  | numF tok => rw [show serializable (.numF tok) = false from rfl] at h; exact absurd h (by simp)

theorem serHeadOk_facts (c : Char) (h : serHeadOk c) :
    isJsonWs c = false ∧ ¬(c = ']') ∧ ¬(c = '}') ∧ ¬(c = ',') := by
  unfold serHeadOk at h
  rcases h with rfl | rfl | rfl | rfl | rfl | rfl | rfl | hd
  · exact ⟨by decide, by decide, by decide, by decide⟩
  · exact ⟨by decide, by decide, by decide, by decide⟩
  · exact ⟨by decide, by decide, by decide, by decide⟩
  · exact ⟨by decide, by decide, by decide, by decide⟩
  · exact ⟨by decide, by decide, by decide, by decide⟩
  · exact ⟨by decide, by decide, by decide, by decide⟩
  · exact ⟨by decide, by decide, by decide, by decide⟩
  · rw [isDigitChar_iff] at hd
    refine ⟨?_, ?_, ?_, ?_⟩
    · unfold isJsonWs
      simp only [Bool.decide_or, Bool.or_eq_false_iff, decide_eq_false_iff_not]
      and_intros <;> (intro hc; rw [hc] at hd; revert hd; decide)
    · intro hc; subst hc; revert hd; decide
    · intro hc; subst hc; revert hd; decide
    · intro hc; subst hc; revert hd; decide

theorem skipJsonWs_not_ws (l : List Char) (h : ∀ c, l.head? = some c → isJsonWs c = false) :
    skipJsonWs l = l := by
  unfold skipJsonWs
  exact dropWhile_not_head l h


/-! ### Number round trip -/

theorem restOK_head (rest : List Char) (hr : restOK rest = true) (c : Char)
    (hc : rest.head? = some c) :
    isDigitChar c = false ∧ ¬(c = '.') ∧ ¬(c = 'e') ∧ ¬(c = 'E') := by
  cases rest with
  | nil => simp at hc
  | cons d t =>
    simp only [List.head?_cons, Option.some.injEq] at hc
    subst hc
    have hnc : numCont d = false := by
      unfold restOK at hr
      simpa using hr
    unfold numCont at hnc
    simp only [Bool.or_eq_false_iff, decide_eq_false_iff_not] at hnc
    refine ⟨?_, fun h => hnc (Or.inr (Or.inl h)), fun h => hnc (Or.inr (Or.inr (Or.inl h))),
      fun h => hnc (Or.inr (Or.inr (Or.inr h)))⟩
    cases hx : isDigitChar d
    · rfl
    · exact absurd (Or.inl hx) hnc

theorem numFracPart_noDot (l : List Char) (h : ∀ c, l.head? = some c → ¬(c = '.')) :
    numFracPart l = ([], l) := by
  cases l with
  | nil => rfl
  | cons c t =>
    have hc := h c rfl
    rw [numFracPart.eq_2 _ (by intro t2 hh; cases hh; exact hc rfl)]

theorem numExpPart_noE (l : List Char) (h : ∀ c, l.head? = some c → ¬(c = 'e') ∧ ¬(c = 'E')) :
    numExpPart l = ([], l) := by
  cases l with
  | nil => rfl
  | cons c t =>
    have hc := h c rfl
    cases t with
    | nil =>
      rw [numExpPart.eq_2, ite_self]
    | cons c2 t2 =>
      rw [numExpPart.eq_1, if_neg (by tauto)]

theorem numIntPart_digits (m : Nat) (rest : List Char) (hr : restOK rest = true) :
    numIntPart (natToDigits (m + 1) m ++ rest) = some (natToDigits (m + 1) m, rest) := by
  obtain ⟨hne, hdig, hval, hzero⟩ := natToDigits_spec (m + 1) m (by omega)
  cases hh : natToDigits (m + 1) m with
  | nil => exact absurd hh hne
  | cons d ds =>
    rw [hh] at hdig hzero
    have hd := hdig d (by simp)
    by_cases hd0 : d = '0'
    · have hm0 : m = 0 := hzero d (by simp) hd0
      subst hm0
      have h01 : ('0' : Char) :: [] = d :: ds :=
        (show natToDigits (0 + 1) 0 = ['0'] from rfl).symm.trans hh
      obtain ⟨hd1, hds⟩ := List.cons.inj h01
      subst hd1
      subst hds
      simp only [List.cons_append, List.nil_append]
      rw [numIntPart.eq_1]
    · simp only [List.cons_append]
      rw [numIntPart.eq_2 _ _ (fun hq => hd0 hq)]
      rw [if_pos ⟨hd, hd0⟩]
      have htw : (ds ++ rest).takeWhile isDigitChar = ds := by
        rw [takeWhile_append_all ds rest (fun x hx => hdig x (by simp [hx]))]
        rw [takeWhile_not_head rest (fun c hc => (restOK_head rest hr c hc).1)]
        simp
      have hdw : (ds ++ rest).dropWhile isDigitChar = rest := by
        rw [dropWhile_append_all ds rest (fun x hx => hdig x (by simp [hx]))]
        exact dropWhile_not_head rest (fun c hc => (restOK_head rest hr c hc).1)
      rw [htw, hdw]

theorem parseNumber_int (n : Int) (rest : List Char) (hr : restOK rest = true) :
    parseNumber (intRepr n ++ rest) = some (.int n, rest) := by
  have hfrac : numFracPart rest = ([], rest) :=
    numFracPart_noDot rest (fun c hc => (restOK_head rest hr c hc).2.1)
  have hexp : numExpPart rest = ([], rest) :=
    numExpPart_noE rest (fun c hc =>
      ⟨(restOK_head rest hr c hc).2.2.1, (restOK_head rest hr c hc).2.2.2⟩)
  cases n with
  | ofNat m =>
    obtain ⟨hne, hdig, hval, hzero⟩ := natToDigits_spec (m + 1) m (by omega)
    have hip := numIntPart_digits m rest hr
    show parseNumber (natToDigits (m + 1) m ++ rest) = some (.int (Int.ofNat m), rest)
    rw [parseNumber.eq_2 _ ?hnm]
    case hnm =>
      intro t ht
      cases hh : natToDigits (m + 1) m with
      | nil => exact hne hh
      | cons d ds =>
        rw [hh, List.cons_append] at ht
        have hd := hdig d (by rw [hh]; simp)
        rw [(List.cons.inj ht).1] at hd
        revert hd
        decide
    rw [hip]
    simp only [hfrac, hexp]
    rw [if_pos ⟨trivial, trivial⟩, hval]
    rfl
  | negSucc m =>
    obtain ⟨hne, hdig, hval, hzero⟩ := natToDigits_spec (m + 2) (m + 1) (by omega)
    have hip := numIntPart_digits (m + 1) rest hr
    show parseNumber ('-' :: natToDigits (m + 2) (m + 1) ++ rest) = some (.int (Int.negSucc m), rest)
    rw [List.cons_append, parseNumber.eq_1, hip]
    simp only [hfrac, hexp]
    rw [if_pos ⟨trivial, trivial⟩, hval]
    rfl

theorem restOK_brace (rest : List Char) : restOK ('}' :: rest) = true := rfl

theorem restOK_bracket (rest : List Char) : restOK (']' :: rest) = true := rfl

theorem restOK_comma (rest : List Char) : restOK (',' :: rest) = true := rfl

theorem weight_pos (v : PyJson) : 1 ≤ weight v := by
  cases v <;> simp [weight]

theorem serItems_head (v : PyJson) (vs : List PyJson) (h : serializable v = true) :
    ∃ c t, serItems (v :: vs) = c :: t ∧ serHeadOk c := by
  obtain ⟨c, t, hct, hok⟩ := serValue_shape v h
  cases vs with
  | nil => exact ⟨c, t, by rw [show serItems [v] = serValue v from rfl, hct], hok⟩
  | cons w ws =>
    refine ⟨c, t ++ ',' :: ' ' :: serItems (w :: ws), ?_, hok⟩
    rw [show serItems (v :: w :: ws) = serValue v ++ ',' :: ' ' :: serItems (w :: ws) from rfl,
      hct]
    rfl

theorem serMembers_cons_head (k : String) (v : PyJson) (ms : List (String × PyJson)) :
    ∃ t, serMembers ((k, v) :: ms) = '"' :: t := by
  cases ms with
  | nil => exact ⟨_, rfl⟩
  | cons m t2 => exact ⟨_, rfl⟩

theorem skipJsonWs_serValue (v : PyJson) (h : serializable v = true) (r : List Char) :
    skipJsonWs (serValue v ++ r) = serValue v ++ r := by
  obtain ⟨c, t, hct, hok⟩ := serValue_shape v h
  rw [hct, List.cons_append]
  refine skipJsonWs_not_ws _ ?_
  intro d hd
  simp only [List.head?_cons, Option.some.injEq] at hd
  rw [← hd]
  exact (serHeadOk_facts c hok).1

theorem skipJsonWs_serItems (v : PyJson) (vs : List PyJson) (r : List Char)
    (h : serializable v = true) :
    skipJsonWs (serItems (v :: vs) ++ r) = serItems (v :: vs) ++ r := by
  obtain ⟨c, t, hct, hok⟩ := serItems_head v vs h
  rw [hct, List.cons_append]
  refine skipJsonWs_not_ws _ ?_
  intro d hd
  simp only [List.head?_cons, Option.some.injEq] at hd
  rw [← hd]
  exact (serHeadOk_facts c hok).1

theorem skipJsonWs_serMembers (k : String) (v : PyJson) (ms : List (String × PyJson))
    (r : List Char) :
    skipJsonWs (serMembers ((k, v) :: ms) ++ r) = serMembers ((k, v) :: ms) ++ r := by
  obtain ⟨t, ht⟩ := serMembers_cons_head k v ms
  rw [ht, List.cons_append]
  refine skipJsonWs_not_ws _ ?_
  intro d hd
  simp only [List.head?_cons, Option.some.injEq] at hd
  rw [← hd]
  decide

theorem cons_ne_lit (c : Char) (l : List Char) (d : Char) (h : ¬(c = d)) (t : List Char)
    (heq : c :: l = d :: t) : False := h (List.cons.inj heq).1

theorem parse_ser (fuel : Nat) :
    (∀ v rest, serializable v = true → weight v ≤ fuel → restOK rest = true →
      parseValue fuel (serValue v ++ rest) = some (v, rest)) ∧
    (∀ ms rest, ms ≠ [] → serializableMembers ms = true → weightMembers ms ≤ fuel →
      parseMembers fuel (serMembers ms ++ '}' :: rest) = some (ms, rest)) ∧
    (∀ vs rest, vs ≠ [] → serializableList vs = true → weightList vs ≤ fuel →
      parseItems fuel (serItems vs ++ ']' :: rest) = some (vs, rest)) := by
  induction fuel with
  | zero =>
    refine ⟨?_, ?_, ?_⟩
    · intro v rest _ hw _
      exact absurd hw (by have := weight_pos v; omega)
    · intro ms rest hne _ hw
      cases ms with
      | nil => exact absurd rfl hne
      | cons m t =>
        exfalso
        obtain ⟨k2, v2⟩ := m
        have hmw : weightMembers ((k2, v2) :: t) = 1 + weight v2 + weightMembers t := rfl
        omega
    · intro vs rest hne _ hw
      cases vs with
      | nil => exact absurd rfl hne
      | cons v t =>
        exfalso
        have hlw : weightList (v :: t) = 1 + weight v + weightList t := rfl
        omega
  | succ fuel ih =>
    obtain ⟨ihv, ihm, ihi⟩ := ih
    refine ⟨?_, ?_, ?_⟩
    · intro v rest hser hw hrest
      cases v with
      | null =>
        rw [show serValue .null = "null".data from rfl]
        rw [parseValue.eq_5 ("null".data ++ rest) fuel (fun t ht => cons_ne_lit 'n' _ '"' (by decide) t ht)
          (fun t ht => cons_ne_lit 'n' _ '{' (by decide) t ht)
          (fun t ht => cons_ne_lit 'n' _ '[' (by decide) t ht)]
        simp only [dropLit_self]
      | bool b =>
        cases b with
        | false =>
          rw [show serValue (.bool false) = "false".data from rfl]
          rw [parseValue.eq_5 ("false".data ++ rest) fuel (fun t ht => cons_ne_lit 'f' _ '"' (by decide) t ht)
            (fun t ht => cons_ne_lit 'f' _ '{' (by decide) t ht)
            (fun t ht => cons_ne_lit 'f' _ '[' (by decide) t ht)]
          have hn1 : dropLit "null".data ("false".data ++ rest) = none := by
            rw [show ("null".data : List Char) = 'n' :: "ull".data from rfl,
              show ("false".data ++ rest : List Char) = 'f' :: ("alse".data ++ rest) from rfl]
            exact dropLit_head_ne 'n' 'f' _ _ (by decide)
          have hn2 : dropLit "true".data ("false".data ++ rest) = none := by
            rw [show ("true".data : List Char) = 't' :: "rue".data from rfl,
              show ("false".data ++ rest : List Char) = 'f' :: ("alse".data ++ rest) from rfl]
            exact dropLit_head_ne 't' 'f' _ _ (by decide)
          simp only [hn1, hn2, dropLit_self]
        | true =>
          rw [show serValue (.bool true) = "true".data from rfl]
          rw [parseValue.eq_5 ("true".data ++ rest) fuel (fun t ht => cons_ne_lit 't' _ '"' (by decide) t ht)
            (fun t ht => cons_ne_lit 't' _ '{' (by decide) t ht)
            (fun t ht => cons_ne_lit 't' _ '[' (by decide) t ht)]
          have hn1 : dropLit "null".data ("true".data ++ rest) = none := by
            rw [show ("null".data : List Char) = 'n' :: "ull".data from rfl,
              show ("true".data ++ rest : List Char) = 't' :: ("rue".data ++ rest) from rfl]
            exact dropLit_head_ne 'n' 't' _ _ (by decide)
          simp only [hn1, dropLit_self]
      | numF tok =>
        rw [show serializable (.numF tok) = false from rfl] at hser
        exact absurd hser (by simp)
      | int n =>
        cases n with
        | ofNat m =>
          obtain ⟨hneD, hdig, hval, hzero⟩ := natToDigits_spec (m + 1) m (by omega)
          rcases hh : natToDigits (m + 1) m with _ | ⟨c, t2⟩
          · exact absurd hh hneD
          · have hcd : isDigitChar c = true := by
              refine hdig c ?_
              rw [hh]
              simp
            have hcne : ∀ d : Char, isDigitChar d = false → ¬(d = c) := by
              intro d hdf hdc
              rw [hdc, hcd] at hdf
              exact absurd hdf (by simp)
            rw [show serValue (.int (Int.ofNat m)) = natToDigits (m + 1) m from rfl, hh,
              List.cons_append]
            rw [parseValue.eq_5 (c :: (t2 ++ rest)) fuel
              (fun t ht => hcne '"' (by decide) (List.cons.inj ht).1.symm)
              (fun t ht => hcne '{' (by decide) (List.cons.inj ht).1.symm)
              (fun t ht => hcne '[' (by decide) (List.cons.inj ht).1.symm)]
            have hn1 : dropLit "null".data (c :: (t2 ++ rest)) = none := by
              rw [show ("null".data : List Char) = 'n' :: "ull".data from rfl]
              exact dropLit_head_ne 'n' c _ _ (hcne 'n' (by decide))
            have hn2 : dropLit "true".data (c :: (t2 ++ rest)) = none := by
              rw [show ("true".data : List Char) = 't' :: "rue".data from rfl]
              exact dropLit_head_ne 't' c _ _ (hcne 't' (by decide))
            have hn3 : dropLit "false".data (c :: (t2 ++ rest)) = none := by
              rw [show ("false".data : List Char) = 'f' :: "alse".data from rfl]
              exact dropLit_head_ne 'f' c _ _ (hcne 'f' (by decide))
            have hn4 : dropLit "NaN".data (c :: (t2 ++ rest)) = none := by
              rw [show ("NaN".data : List Char) = 'N' :: "aN".data from rfl]
              exact dropLit_head_ne 'N' c _ _ (hcne 'N' (by decide))
            have hn5 : dropLit "Infinity".data (c :: (t2 ++ rest)) = none := by
              rw [show ("Infinity".data : List Char) = 'I' :: "nfinity".data from rfl]
              exact dropLit_head_ne 'I' c _ _ (hcne 'I' (by decide))
            have hn6 : dropLit "-Infinity".data (c :: (t2 ++ rest)) = none := by
              rw [show ("-Infinity".data : List Char) = '-' :: "Infinity".data from rfl]
              exact dropLit_head_ne '-' c _ _ (hcne '-' (by decide))
            have hpn : parseNumber (c :: (t2 ++ rest)) = some (.int (Int.ofNat m), rest) := by
              rw [show (c :: (t2 ++ rest) : List Char) = (c :: t2) ++ rest from rfl, ← hh]
              exact parseNumber_int (Int.ofNat m) rest hrest
            simp only [hn1, hn2, hn3, hn4, hn5, hn6, hpn]
        | negSucc m =>
          obtain ⟨hneD, hdig, hval, hzero⟩ := natToDigits_spec (m + 2) (m + 1) (by omega)
          rcases hh : natToDigits (m + 2) (m + 1) with _ | ⟨d, ds⟩
          · exact absurd hh hneD
          · have hdd : isDigitChar d = true := by
              refine hdig d ?_
              rw [hh]
              simp
            rw [show serValue (.int (Int.negSucc m)) = '-' :: natToDigits (m + 2) (m + 1) from rfl,
              hh, List.cons_append]
            rw [parseValue.eq_5 ('-' :: (d :: ds ++ rest)) fuel
              (fun t ht => absurd (List.cons.inj ht).1 (by decide))
              (fun t ht => absurd (List.cons.inj ht).1 (by decide))
              (fun t ht => absurd (List.cons.inj ht).1 (by decide))]
            have hn1 : dropLit "null".data ('-' :: (d :: ds ++ rest)) = none := by
              rw [show ("null".data : List Char) = 'n' :: "ull".data from rfl]
              exact dropLit_head_ne 'n' '-' _ _ (by decide)
            have hn2 : dropLit "true".data ('-' :: (d :: ds ++ rest)) = none := by
              rw [show ("true".data : List Char) = 't' :: "rue".data from rfl]
              exact dropLit_head_ne 't' '-' _ _ (by decide)
            have hn3 : dropLit "false".data ('-' :: (d :: ds ++ rest)) = none := by
              rw [show ("false".data : List Char) = 'f' :: "alse".data from rfl]
              exact dropLit_head_ne 'f' '-' _ _ (by decide)
            have hn4 : dropLit "NaN".data ('-' :: (d :: ds ++ rest)) = none := by
              rw [show ("NaN".data : List Char) = 'N' :: "aN".data from rfl]
              exact dropLit_head_ne 'N' '-' _ _ (by decide)
            have hn5 : dropLit "Infinity".data ('-' :: (d :: ds ++ rest)) = none := by
              rw [show ("Infinity".data : List Char) = 'I' :: "nfinity".data from rfl]
              exact dropLit_head_ne 'I' '-' _ _ (by decide)
            have hn6 : dropLit "-Infinity".data ('-' :: (d :: ds ++ rest)) = none := by
              rw [show ("-Infinity".data : List Char) = '-' :: 'I' :: "nfinity".data from rfl,
                show ((d :: ds) ++ rest : List Char) = d :: (ds ++ rest) from rfl]
              refine dropLit_second_ne '-' 'I' d _ _ ?_
              intro hq
              rw [← hq] at hdd
              exact absurd hdd (by decide)
            have hpn : parseNumber ('-' :: (d :: ds ++ rest)) = some (.int (Int.negSucc m), rest) := by
              rw [show ('-' :: (d :: ds ++ rest) : List Char) = ('-' :: (d :: ds)) ++ rest from rfl,
                ← hh]
              exact parseNumber_int (Int.negSucc m) rest hrest
            simp only [hn1, hn2, hn3, hn4, hn5, hn6, hpn]
      | str s =>
        have hX : serValue (.str s) ++ rest
            = '"' :: ((s.data.map escapeChar).flatten ++ '"' :: rest) := by
          rw [show serValue (.str s) = escapeString s from rfl]
          simp [escapeString, List.append_assoc]
        rw [hX, parseValue.eq_2]
        simp only [parseStringBody, parseStringGo_escape s.data rest]
      | arr items =>
        cases items with
        | nil =>
          rw [show serValue (.arr []) ++ rest = '[' :: (']' :: rest) from rfl, parseValue.eq_4]
          rfl
        | cons v vs =>
          have hs2 : serializable v = true ∧ serializableList vs = true := by
            rw [show serializable (.arr (v :: vs))
              = (serializable v && serializableList vs) from rfl, Bool.and_eq_true] at hser
            exact hser
          have hX : serValue (.arr (v :: vs)) ++ rest
              = '[' :: (serItems (v :: vs) ++ ']' :: rest) := by
            rw [show serValue (.arr (v :: vs)) = '[' :: (serItems (v :: vs) ++ [']']) from rfl]
            simp [List.append_assoc]
          rw [hX, parseValue.eq_4, skipJsonWs_serItems v vs _ hs2.1]
          obtain ⟨c, t, hct, hok⟩ := serItems_head v vs hs2.1
          rw [hct, List.cons_append]
          split
          · rename_i r2 heq
            exact absurd (List.cons.inj heq).1 (serHeadOk_facts c hok).2.1
          · rw [← List.cons_append, ← hct]
            have hit : parseItems fuel (serItems (v :: vs) ++ ']' :: rest)
                = some (v :: vs, rest) := by
              refine ihi (v :: vs) rest (by simp) ?_ ?_
              · rw [show serializableList (v :: vs)
                  = (serializable v && serializableList vs) from rfl, Bool.and_eq_true]
                exact hs2
              · have hwa : weight (.arr (v :: vs)) = 1 + weightList (v :: vs) := rfl
                omega
            simp only [hit]
      | obj ms =>
        cases ms with
        | nil =>
          rw [show serValue (.obj []) ++ rest = '{' :: ('}' :: rest) from rfl, parseValue.eq_3]
          rfl
        | cons m ms2 =>
          obtain ⟨k0, v0⟩ := m
          have hs2 : keysNodupB (((k0, v0) :: ms2).map Prod.fst) = true
              ∧ serializableMembers ((k0, v0) :: ms2) = true := by
            rw [show serializable (.obj ((k0, v0) :: ms2))
              = (keysNodupB (((k0, v0) :: ms2).map Prod.fst)
                  && serializableMembers ((k0, v0) :: ms2)) from rfl, Bool.and_eq_true] at hser
            exact hser
          have hX : serValue (.obj ((k0, v0) :: ms2)) ++ rest
              = '{' :: (serMembers ((k0, v0) :: ms2) ++ '}' :: rest) := by
            rw [show serValue (.obj ((k0, v0) :: ms2))
              = '{' :: (serMembers ((k0, v0) :: ms2) ++ ['}']) from rfl]
            simp [List.append_assoc]
          rw [hX, parseValue.eq_3, skipJsonWs_serMembers k0 v0 ms2 _]
          obtain ⟨t, hct⟩ := serMembers_cons_head k0 v0 ms2
          rw [hct, List.cons_append]
          split
          · rename_i r2 heq
            exact absurd (List.cons.inj heq).1 (by decide)
          · rw [← List.cons_append, ← hct]
            have hmem : parseMembers fuel (serMembers ((k0, v0) :: ms2) ++ '}' :: rest)
                = some ((k0, v0) :: ms2, rest) := by
              refine ihm ((k0, v0) :: ms2) rest (by simp) hs2.2 ?_
              have hwo : weight (.obj ((k0, v0) :: ms2))
                  = 1 + weightMembers ((k0, v0) :: ms2) := rfl
              omega
            simp only [hmem, dictOfPairs_nodup _ hs2.1]
    · intro ms rest hne hser hw
      cases ms with
      | nil => exact absurd rfl hne
      | cons m ms2 =>
        obtain ⟨k, v⟩ := m
        have hs2 : serializable v = true ∧ serializableMembers ms2 = true := by
          rw [show serializableMembers ((k, v) :: ms2)
            = (serializable v && serializableMembers ms2) from rfl, Bool.and_eq_true] at hser
          exact hser
        have hwv : weight v ≤ fuel ∧ weightMembers ms2 ≤ fuel := by
          have hmw : weightMembers ((k, v) :: ms2) = 1 + weight v + weightMembers ms2 := rfl
          omega
        cases ms2 with
        | nil =>
          have hX : serMembers [(k, v)] ++ '}' :: rest
              = '"' :: ((k.data.map escapeChar).flatten
                  ++ '"' :: (':' :: ' ' :: (serValue v ++ '}' :: rest))) := by
            rw [show serMembers [(k, v)] = escapeString k ++ ':' :: ' ' :: serValue v from rfl]
            simp [escapeString, List.append_assoc]
          rw [hX, parseMembers.eq_2]
          have h1 : parseStringBody ((k.data.map escapeChar).flatten
                ++ '"' :: (':' :: ' ' :: (serValue v ++ '}' :: rest)))
              = some (k.data, ':' :: ' ' :: (serValue v ++ '}' :: rest)) :=
            parseStringGo_escape k.data _
          have h2 : skipJsonWs (':' :: ' ' :: (serValue v ++ '}' :: rest))
              = ':' :: (' ' :: (serValue v ++ '}' :: rest)) := rfl
          have h3 : skipJsonWs (' ' :: (serValue v ++ '}' :: rest))
              = serValue v ++ '}' :: rest := by
            rw [show skipJsonWs (' ' :: (serValue v ++ '}' :: rest))
              = skipJsonWs (serValue v ++ '}' :: rest) from rfl]
            exact skipJsonWs_serValue v hs2.1 _
          have h4 : parseValue fuel (serValue v ++ '}' :: rest) = some (v, '}' :: rest) :=
            ihv v _ hs2.1 hwv.1 rfl
          have h5 : skipJsonWs ('}' :: rest) = '}' :: rest := rfl
          simp only [h1, h2, h3, h4, h5]
        | cons m2 ms3 =>
          obtain ⟨k2, v2⟩ := m2
          have hX : serMembers ((k, v) :: (k2, v2) :: ms3) ++ '}' :: rest
              = '"' :: ((k.data.map escapeChar).flatten
                  ++ '"' :: (':' :: ' ' :: (serValue v
                    ++ ',' :: ' ' :: (serMembers ((k2, v2) :: ms3) ++ '}' :: rest)))) := by
            rw [show serMembers ((k, v) :: (k2, v2) :: ms3)
              = escapeString k ++ ':' :: ' ' :: serValue v
                  ++ ',' :: ' ' :: serMembers ((k2, v2) :: ms3) from rfl]
            simp [escapeString, List.append_assoc]
          rw [hX, parseMembers.eq_2]
          have h1 : parseStringBody ((k.data.map escapeChar).flatten
                ++ '"' :: (':' :: ' ' :: (serValue v
                  ++ ',' :: ' ' :: (serMembers ((k2, v2) :: ms3) ++ '}' :: rest))))
              = some (k.data, ':' :: ' ' :: (serValue v
                  ++ ',' :: ' ' :: (serMembers ((k2, v2) :: ms3) ++ '}' :: rest))) :=
            parseStringGo_escape k.data _
          have h2 : skipJsonWs (':' :: ' ' :: (serValue v
                ++ ',' :: ' ' :: (serMembers ((k2, v2) :: ms3) ++ '}' :: rest)))
              = ':' :: (' ' :: (serValue v
                  ++ ',' :: ' ' :: (serMembers ((k2, v2) :: ms3) ++ '}' :: rest))) := rfl
          have h3 : skipJsonWs (' ' :: (serValue v
                ++ ',' :: ' ' :: (serMembers ((k2, v2) :: ms3) ++ '}' :: rest)))
              = serValue v ++ ',' :: ' ' :: (serMembers ((k2, v2) :: ms3) ++ '}' :: rest) := by
            rw [show skipJsonWs (' ' :: (serValue v
                ++ ',' :: ' ' :: (serMembers ((k2, v2) :: ms3) ++ '}' :: rest)))
              = skipJsonWs (serValue v
                  ++ ',' :: ' ' :: (serMembers ((k2, v2) :: ms3) ++ '}' :: rest)) from rfl]
            exact skipJsonWs_serValue v hs2.1 _
          have h4 : parseValue fuel (serValue v
                ++ ',' :: ' ' :: (serMembers ((k2, v2) :: ms3) ++ '}' :: rest))
              = some (v, ',' :: ' ' :: (serMembers ((k2, v2) :: ms3) ++ '}' :: rest)) :=
            ihv v _ hs2.1 hwv.1 rfl
          have h5 : skipJsonWs (',' :: ' ' :: (serMembers ((k2, v2) :: ms3) ++ '}' :: rest))
              = ',' :: (' ' :: (serMembers ((k2, v2) :: ms3) ++ '}' :: rest)) := rfl
          have h6 : skipJsonWs (' ' :: (serMembers ((k2, v2) :: ms3) ++ '}' :: rest))
              = serMembers ((k2, v2) :: ms3) ++ '}' :: rest := by
            rw [show skipJsonWs (' ' :: (serMembers ((k2, v2) :: ms3) ++ '}' :: rest))
              = skipJsonWs (serMembers ((k2, v2) :: ms3) ++ '}' :: rest) from rfl]
            exact skipJsonWs_serMembers k2 v2 ms3 _
          have h7 : parseMembers fuel (serMembers ((k2, v2) :: ms3) ++ '}' :: rest)
              = some ((k2, v2) :: ms3, rest) :=
            ihm _ rest (by simp) hs2.2 hwv.2
          simp only [h1, h2, h3, h4, h5, h6, h7]
    · intro vs rest hne hser hw
      cases vs with
      | nil => exact absurd rfl hne
      | cons v vs2 =>
        have hs2 : serializable v = true ∧ serializableList vs2 = true := by
          rw [show serializableList (v :: vs2)
            = (serializable v && serializableList vs2) from rfl, Bool.and_eq_true] at hser
          exact hser
        have hwv : weight v ≤ fuel ∧ weightList vs2 ≤ fuel := by
          have hlw : weightList (v :: vs2) = 1 + weight v + weightList vs2 := rfl
          omega
        cases vs2 with
        | nil =>
          rw [show serItems [v] ++ ']' :: rest = serValue v ++ ']' :: rest from rfl,
            parseItems.eq_2]
          have h4 : parseValue fuel (serValue v ++ ']' :: rest) = some (v, ']' :: rest) :=
            ihv v _ hs2.1 hwv.1 rfl
          have h5 : skipJsonWs (']' :: rest) = ']' :: rest := rfl
          simp only [h4, h5]
        | cons v2 vs3 =>
          have hv2 : serializable v2 = true := by
            have h := hs2.2
            rw [show serializableList (v2 :: vs3)
              = (serializable v2 && serializableList vs3) from rfl, Bool.and_eq_true] at h
            exact h.1
          have hX : serItems (v :: v2 :: vs3) ++ ']' :: rest
              = serValue v ++ ',' :: ' ' :: (serItems (v2 :: vs3) ++ ']' :: rest) := by
            rw [show serItems (v :: v2 :: vs3)
              = serValue v ++ ',' :: ' ' :: serItems (v2 :: vs3) from rfl]
            simp [List.append_assoc]
          rw [hX, parseItems.eq_2]
          have h4 : parseValue fuel (serValue v
                ++ ',' :: ' ' :: (serItems (v2 :: vs3) ++ ']' :: rest))
              = some (v, ',' :: ' ' :: (serItems (v2 :: vs3) ++ ']' :: rest)) :=
            ihv v _ hs2.1 hwv.1 rfl
          have h5 : skipJsonWs (',' :: ' ' :: (serItems (v2 :: vs3) ++ ']' :: rest))
              = ',' :: (' ' :: (serItems (v2 :: vs3) ++ ']' :: rest)) := rfl
          have h6 : skipJsonWs (' ' :: (serItems (v2 :: vs3) ++ ']' :: rest))
              = serItems (v2 :: vs3) ++ ']' :: rest := by
            rw [show skipJsonWs (' ' :: (serItems (v2 :: vs3) ++ ']' :: rest))
              = skipJsonWs (serItems (v2 :: vs3) ++ ']' :: rest) from rfl]
            exact skipJsonWs_serItems v2 vs3 _ hv2
          have h7 : parseItems fuel (serItems (v2 :: vs3) ++ ']' :: rest)
              = some (v2 :: vs3, rest) :=
            ihi _ rest (by simp) hs2.2 hwv.2
          simp only [h4, h5, h6, h7]

/-! ### No newline in serialized output; fence and strip stages are no-ops on it -/

theorem hexDigit_ne_nl (n : Nat) (h : n ≤ 15) : ¬(hexDigit n = '\n') := by
  interval_cases n <;> decide

theorem isDigitChar_ne_nl (c : Char) (h : isDigitChar c = true) : ¬(c = '\n') := by
  intro hc
  rw [hc] at h
  exact absurd h (by decide)

theorem hex4_no_nl (n : Nat) : '\n' ∉ hex4 n := by
  intro hmem
  simp only [hex4, List.mem_cons, List.not_mem_nil, or_false] at hmem
  rcases hmem with h | h | h | h <;> exact hexDigit_ne_nl _ (by omega) h.symm

theorem escapeChar_no_nl (c : Char) : '\n' ∉ escapeChar c := by
  unfold escapeChar
  split_ifs with h1 h2 h3 h4 h5 h6 h7 h8 h9
  · decide
  · decide
  · decide
  · decide
  · decide
  · decide
  · decide
  · intro hmem
    rcases List.mem_cons.mp hmem with h | hmem2
    · exact absurd h (by decide)
    rcases List.mem_cons.mp hmem2 with h | hmem3
    · exact absurd h (by decide)
    exact hex4_no_nl _ hmem3
  · intro hmem
    simp only [List.mem_append, List.mem_cons] at hmem
    rcases hmem with (h | h | hmem3) | (h | h | hmem3)
    · exact absurd h (by decide)
    · exact absurd h (by decide)
    · exact hex4_no_nl _ hmem3
    · exact absurd h (by decide)
    · exact absurd h (by decide)
    · exact hex4_no_nl _ hmem3
  · intro hmem
    rcases List.mem_singleton.mp hmem with h
    exact h3 h.symm

theorem escapeString_no_nl (s : String) : '\n' ∉ escapeString s := by
  intro hmem
  rw [show escapeString s = '"' :: ((s.data.map escapeChar).flatten ++ ['"']) from rfl] at hmem
  simp only [List.mem_cons, List.mem_append, List.mem_singleton, List.mem_flatten,
    List.mem_map] at hmem
  rcases hmem with h | ⟨l2, ⟨c, _, hcl⟩, hin⟩ | h
  · exact absurd h (by decide)
  · rw [← hcl] at hin
    exact escapeChar_no_nl c hin
  · exact absurd h (by decide)

theorem intRepr_no_nl (n : Int) : '\n' ∉ intRepr n := by
  cases n with
  | ofNat m =>
    obtain ⟨-, hdig, -, -⟩ := natToDigits_spec (m + 1) m (by omega)
    intro hmem
    exact isDigitChar_ne_nl '\n' (hdig '\n' hmem) rfl
  | negSucc m =>
    obtain ⟨-, hdig, -, -⟩ := natToDigits_spec (m + 2) (m + 1) (by omega)
    intro hmem
    rw [show intRepr (Int.negSucc m) = '-' :: natToDigits (m + 2) (m + 1) from rfl] at hmem
    rcases List.mem_cons.mp hmem with h | h
    · exact absurd h (by decide)
    · exact isDigitChar_ne_nl '\n' (hdig '\n' h) rfl

theorem serValue_no_nl (v : PyJson) (h : serializable v = true) : '\n' ∉ serValue v := by
  refine weight.induct (fun v => serializable v = true → '\n' ∉ serValue v)
    (fun ms => serializableMembers ms = true → '\n' ∉ serMembers ms)
    (fun vs => serializableList vs = true → '\n' ∉ serItems vs)
    ?_ ?_ ?_ ?_ ?_ ?_ ?_ v h
  · intro items ih hs
    rw [show serializable (.arr items) = serializableList items from rfl] at hs
    rw [show serValue (.arr items) = '[' :: (serItems items ++ [']']) from rfl]
    intro hmem
    simp only [List.mem_cons, List.mem_append, List.mem_singleton] at hmem
    rcases hmem with h2 | h2 | h2
    · exact absurd h2 (by decide)
    · exact ih hs h2
    · exact absurd h2 (by decide)
  · intro ms ih hs
    rw [show serializable (.obj ms)
      = (keysNodupB (ms.map Prod.fst) && serializableMembers ms) from rfl,
      Bool.and_eq_true] at hs
    rw [show serValue (.obj ms) = '{' :: (serMembers ms ++ ['}']) from rfl]
    intro hmem
    simp only [List.mem_cons, List.mem_append, List.mem_singleton] at hmem
    rcases hmem with h2 | h2 | h2
    · exact absurd h2 (by decide)
    · exact ih hs.2 h2
    · exact absurd h2 (by decide)
  · intro t hna hno hs
    cases t with
    | arr items => exact absurd rfl (hna items)
    | obj ms => exact absurd rfl (hno ms)
    | null => decide
    | bool b => cases b <;> decide
    | int n => exact intRepr_no_nl n
    | str s => exact escapeString_no_nl s
    | numF tok =>
      rw [show serializable (.numF tok) = false from rfl] at hs
      exact absurd hs (by simp)
  · intro _
    rw [show serItems ([] : List PyJson) = [] from rfl]
    simp
  · intro v2 t ih1 ih2 hs
    rw [show serializableList (v2 :: t) = (serializable v2 && serializableList t) from rfl,
      Bool.and_eq_true] at hs
    cases t with
    | nil => exact ih1 hs.1
    | cons w ws =>
      rw [show serItems (v2 :: w :: ws) = serValue v2 ++ ',' :: ' ' :: serItems (w :: ws) from rfl]
      intro hmem
      simp only [List.mem_append, List.mem_cons] at hmem
      rcases hmem with h2 | h2 | h2 | h2
      · exact ih1 hs.1 h2
      · exact absurd h2 (by decide)
      · exact absurd h2 (by decide)
      · exact ih2 hs.2 h2
  · intro _
    rw [show serMembers ([] : List (String × PyJson)) = [] from rfl]
    simp
  · intro k v2 t ih1 ih2 hs
    rw [show serializableMembers ((k, v2) :: t)
      = (serializable v2 && serializableMembers t) from rfl, Bool.and_eq_true] at hs
    cases t with
    | nil =>
      rw [show serMembers [(k, v2)] = escapeString k ++ ':' :: ' ' :: serValue v2 from rfl]
      intro hmem
      simp only [List.mem_append, List.mem_cons] at hmem
      rcases hmem with h2 | h2 | h2 | h2
      · exact escapeString_no_nl k h2
      · exact absurd h2 (by decide)
      · exact absurd h2 (by decide)
      · exact ih1 hs.1 h2
    | cons m t2 =>
      rw [show serMembers ((k, v2) :: m :: t2)
        = escapeString k ++ ':' :: ' ' :: serValue v2
            ++ ',' :: ' ' :: serMembers (m :: t2) from rfl]
      intro hmem
      simp only [List.mem_append, List.mem_cons] at hmem
      rcases hmem with (h2 | h2 | h2 | h2) | h2 | h2 | h2
      · exact escapeString_no_nl k h2
      · exact absurd h2 (by decide)
      · exact absurd h2 (by decide)
      · exact ih1 hs.1 h2
      · exact absurd h2 (by decide)
      · exact absurd h2 (by decide)
      · exact ih2 hs.2 h2

theorem weight_le (v : PyJson) (h : serializable v = true) : weight v ≤ (serValue v).length := by
  refine weight.induct (fun v => serializable v = true → weight v ≤ (serValue v).length)
    (fun ms => serializableMembers ms = true → weightMembers ms ≤ (serMembers ms).length + 1)
    (fun vs => serializableList vs = true → weightList vs ≤ (serItems vs).length + 1)
    ?_ ?_ ?_ ?_ ?_ ?_ ?_ v h
  · intro items ih hs
    rw [show serializable (.arr items) = serializableList items from rfl] at hs
    have h1 : weight (.arr items) = 1 + weightList items := rfl
    have h2 : (serValue (.arr items)).length = (serItems items).length + 2 := by
      rw [show serValue (.arr items) = '[' :: (serItems items ++ [']']) from rfl]
      simp
    have h3 := ih hs
    omega
  · intro ms ih hs
    rw [show serializable (.obj ms)
      = (keysNodupB (ms.map Prod.fst) && serializableMembers ms) from rfl,
      Bool.and_eq_true] at hs
    have h1 : weight (.obj ms) = 1 + weightMembers ms := rfl
    have h2 : (serValue (.obj ms)).length = (serMembers ms).length + 2 := by
      rw [show serValue (.obj ms) = '{' :: (serMembers ms ++ ['}']) from rfl]
      simp
    have h3 := ih hs.2
    omega
  · intro t hna hno hs
    cases t with
    | arr items => exact absurd rfl (hna items)
    | obj ms => exact absurd rfl (hno ms)
    | null => decide
    | bool b => cases b <;> decide
    | int n =>
      obtain ⟨c, t2, hct, -⟩ := intRepr_shape n
      rw [show weight (.int n) = 1 from rfl, show serValue (.int n) = intRepr n from rfl, hct]
      simp
    | str s =>
      rw [show weight (.str s) = 1 from rfl,
        show serValue (.str s) = '"' :: ((s.data.map escapeChar).flatten ++ ['"']) from rfl]
      simp
    | numF tok =>
      rw [show serializable (.numF tok) = false from rfl] at hs
      exact absurd hs (by simp)
  · intro _
    decide
  · intro v2 t ih1 ih2 hs
    rw [show serializableList (v2 :: t) = (serializable v2 && serializableList t) from rfl,
      Bool.and_eq_true] at hs
    have hv := ih1 hs.1
    have ht := ih2 hs.2
    have hw : weightList (v2 :: t) = 1 + weight v2 + weightList t := rfl
    cases t with
    | nil =>
      have hz : weightList ([] : List PyJson) = 0 := rfl
      have hs2 : serItems [v2] = serValue v2 := rfl
      rw [hs2]
      omega
    | cons w ws =>
      have hs2 : (serItems (v2 :: w :: ws)).length
          = (serValue v2).length + 2 + (serItems (w :: ws)).length := by
        rw [show serItems (v2 :: w :: ws)
          = serValue v2 ++ ',' :: ' ' :: serItems (w :: ws) from rfl]
        simp
        omega
      omega
  · intro _
    decide
  · intro k v2 t ih1 ih2 hs
    rw [show serializableMembers ((k, v2) :: t)
      = (serializable v2 && serializableMembers t) from rfl, Bool.and_eq_true] at hs
    have hv := ih1 hs.1
    have ht := ih2 hs.2
    have hw : weightMembers ((k, v2) :: t) = 1 + weight v2 + weightMembers t := rfl
    cases t with
    | nil =>
      have hz : weightMembers ([] : List (String × PyJson)) = 0 := rfl
      have hs2 : (serMembers [(k, v2)]).length
          = (escapeString k).length + 2 + (serValue v2).length := by
        rw [show serMembers [(k, v2)] = escapeString k ++ ':' :: ' ' :: serValue v2 from rfl]
        simp
        omega
      omega
    | cons m t2 =>
      have hs2 : (serMembers ((k, v2) :: m :: t2)).length
          = (escapeString k).length + 2 + (serValue v2).length + 2
            + (serMembers (m :: t2)).length := by
        rw [show serMembers ((k, v2) :: m :: t2)
          = escapeString k ++ ':' :: ' ' :: serValue v2
              ++ ',' :: ' ' :: serMembers (m :: t2) from rfl]
        simp
        omega
      omega

theorem fenceJsonGo_no_nl (sk flag : Bool) (l : List Char) :
    sk = false → flag = false → '\n' ∉ l → fenceJsonGo sk flag l = l := by
  induction sk, flag, l using fenceJsonGo.induct with
  | case1 x x1 => intro _ _ _; exact fenceJsonGo.eq_1 x x1
  | case2 t ih => intro _ hf _; exact absurd hf (by decide)
  | case3 flag t hflag ih =>
    intro _ _ hnl
    rw [fenceJsonGo.eq_2, if_neg hflag]
    have hnt : '\n' ∉ t := fun h2 => hnl (by simp [h2])
    rw [ih rfl rfl hnt]
  | case4 x c t hex ih =>
    intro _ _ hnl
    have hc : ¬(c = '\n') := by
      intro h2
      exact hnl (by rw [h2]; exact List.mem_cons_self _ _)
    have hnt : '\n' ∉ t := fun h2 => hnl (List.mem_cons_of_mem c h2)
    rw [fenceJsonGo.eq_3 x c t hex, ih rfl (by simp [hc]) hnt]
  | case5 t ih => intro hsk _ _; exact absurd hsk (by decide)
  | case6 flag t hflag ih => intro hsk _ _; exact absurd hsk (by decide)
  | case7 x c t hex hws ih => intro hsk _ _; exact absurd hsk (by decide)
  | case8 x c t hex hws ih => intro hsk _ _; exact absurd hsk (by decide)

theorem sub1_brace (t : List Char) (hnl : '\n' ∉ '{' :: t) : sub1 ('{' :: t) = '{' :: t := by
  unfold sub1
  rw [fenceJsonGo.eq_3 true '{' t (by intro t1 hq _; exact absurd hq (by decide))]
  have hnt : '\n' ∉ t := fun h2 => hnl (List.mem_cons_of_mem _ h2)
  rw [show (decide ('{' = '\n')) = false from by decide]
  rw [fenceJsonGo_no_nl false false t rfl rfl hnt]

theorem sub2Go_inv (l : List Char) :
    '\n' ∉ l → l.getLast? ≠ some '`' → sub2Go l = l := by
  induction l using sub2Go.induct with
  | case1 => intro _ _; rfl
  | case2 rest he ih => intro hnl _; exact absurd (List.mem_cons_self _ _) hnl
  | case3 rest he ih => intro hnl _; exact absurd (List.mem_cons_self _ _) hnl
  | case4 rest he ih =>
    intro hnl hlast
    exfalso
    unfold eolAt at he
    simp only [Bool.decide_or, Bool.or_eq_true, decide_eq_true_eq] at he
    rcases he with h2 | h2
    · rw [List.isEmpty_iff] at h2
      subst h2
      exact hlast rfl
    · cases rest with
      | nil => simp at h2
      | cons r rs =>
        simp only [List.head?_cons, Option.some.injEq] at h2
        subst h2
        exact hnl (by simp)
  | case5 rest he ih =>
    intro hnl hlast
    have hrne : rest ≠ [] := by
      intro h2
      subst h2
      exact he (by decide)
    rw [sub2Go.eq_3, if_neg he]
    cases rest with
    | nil => exact absurd rfl hrne
    | cons r rs =>
      have hnt : '\n' ∉ '`' :: '`' :: r :: rs := fun h2 => hnl (List.mem_cons_of_mem _ h2)
      have hlt : ('`' :: '`' :: r :: rs).getLast? ≠ some '`' := by
        rw [List.getLast?_cons_cons, List.getLast?_cons_cons]
        rw [List.getLast?_cons_cons, List.getLast?_cons_cons, List.getLast?_cons_cons] at hlast
        exact hlast
      rw [ih hnt hlt]
  | case6 c t h1 h2 ih =>
    intro hnl hlast
    rw [sub2Go.eq_4 c t h1 h2]
    cases t with
    | nil => rw [sub2Go.eq_1]
    | cons d ds =>
      have hnt : '\n' ∉ d :: ds := fun h3 => hnl (List.mem_cons_of_mem c h3)
      have hlt : (d :: ds).getLast? ≠ some '`' := by
        rwa [List.getLast?_cons_cons] at hlast
      rw [ih hnt hlt]

theorem pyStripChars_id (l : List Char) (h1 : ∀ c, l.head? = some c → isPyWs c = false)
    (h2 : ∀ c, l.getLast? = some c → isPyWs c = false) : pyStripChars l = l := by
  unfold pyStripChars
  rw [dropWhile_not_head l h1]
  rw [dropWhile_not_head l.reverse (by
    intro c hc
    rw [List.head?_reverse] at hc
    exact h2 c hc)]
  exact List.reverse_reverse l

theorem pyJsonLoads_dumps (v : PyJson) (h : serializable v = true) :
    pyJsonLoads (pyJsonDumps v) = some v := by
  unfold pyJsonLoads pyJsonDumps
  rw [show (⟨serValue v⟩ : String).data = serValue v from rfl]
  have hskip : skipJsonWs (serValue v) = serValue v := by
    have h2 := skipJsonWs_serValue v h []
    rwa [List.append_nil] at h2
  rw [hskip]
  have hp : parseValue ((serValue v).length + 1) (serValue v ++ []) = some (v, []) :=
    (parse_ser ((serValue v).length + 1)).1 v [] h (by have := weight_le v h; omega) rfl
  rw [List.append_nil] at hp
  rw [hp]
  rfl

theorem dumps_obj_ne_empty (ms : List (String × PyJson)) : ¬(pyJsonDumps (.obj ms) = "") := by
  intro heq
  have h2 : (pyJsonDumps (.obj ms)).data = ("" : String).data := by rw [heq]
  rw [show (pyJsonDumps (.obj ms)).data = '{' :: (serMembers ms ++ ['}']) from rfl,
    show (("" : String).data : List Char) = [] from rfl] at h2
  exact absurd h2 (by simp)

/-- C7: the structured-output Recoverer is idempotent on clean structured text:
for every float-free JSON mapping X with distinct keys,
extract_json_from_response(json.dumps(X)) recovers exactly X. -/
theorem C7_recover_serialize_roundtrip (ms : List (String × PyJson))
    (h : serializable (PyJson.obj ms) = true) :
    extract_json_from_response (pyJsonDumps (.obj ms)) = .obj ms := by
  have hnl : '\n' ∉ serValue (.obj ms) := serValue_no_nl _ h
  have hshape : serValue (.obj ms) = '{' :: (serMembers ms ++ ['}']) := rfl
  have hlast : (serValue (.obj ms)).getLast? = some '}' := by
    rw [hshape, show ('{' :: (serMembers ms ++ ['}']) : List Char)
      = ('{' :: serMembers ms) ++ ['}'] from rfl]
    exact List.getLast?_concat _
  unfold extract_json_from_response
  rw [if_neg (dumps_obj_ne_empty ms)]
  rw [show (pyJsonDumps (.obj ms)).data = serValue (.obj ms) from rfl]
  have hsub1 : sub1 (serValue (.obj ms)) = serValue (.obj ms) := by
    rw [hshape]
    exact sub1_brace _ (hshape ▸ hnl)
  rw [hsub1]
  have hsub2 : sub2 (serValue (.obj ms)) = serValue (.obj ms) := by
    refine sub2Go_inv _ hnl ?_
    rw [hlast]
    decide
  rw [hsub2]
  have hstrip : pyStripChars (serValue (.obj ms)) = serValue (.obj ms) := by
    refine pyStripChars_id _ ?_ ?_
    · intro c hc
      rw [hshape] at hc
      simp only [List.head?_cons, Option.some.injEq] at hc
      rw [← hc]
      decide
    · intro c hc
      rw [hlast] at hc
      simp only [Option.some.injEq] at hc
      rw [← hc]
      decide
  rw [hstrip]
  unfold recoverFromCleaned
  have hload : pyJsonLoads ⟨serValue (.obj ms)⟩ = some (.obj ms) := pyJsonLoads_dumps _ h
  simp only [hload]

/-- Witness: the round trip at the concrete mapping [("Class.cs", "int x;")]. -/
theorem C7_recover_serialize_roundtrip_witness :
    serializable (PyJson.obj [("Class.cs", .str "int x;")]) = true ∧
    extract_json_from_response (pyJsonDumps (.obj [("Class.cs", .str "int x;")]))
      = .obj [("Class.cs", .str "int x;")] :=
  ⟨by decide, C7_recover_serialize_roundtrip _ (by decide)⟩

/-! ### Fence-wrapped input: the two regex passes remove exactly the fences -/

theorem fence_bt3 (b : Bool) :
    fenceJsonGo false b ('`' :: '`' :: '`' :: []) = '`' :: '`' :: '`' :: [] := by
  cases b <;> decide

theorem fenceJsonGo_T_tail (tt : List Char) (hnl : '\n' ∉ tt) (hbt : '`' ∉ tt) :
    fenceJsonGo false false (tt ++ '\n' :: '`' :: '`' :: '`' :: [])
      = tt ++ '\n' :: '`' :: '`' :: '`' :: [] := by
  induction tt with
  | nil =>
    simp only [List.nil_append]
    rw [fenceJsonGo.eq_3 false '\n' _ (by intro t1 hq _; exact absurd hq (by decide))]
    rw [show (decide ('\n' = '\n')) = true from by decide, fence_bt3]
  | cons c tt2 ih =>
    have hc1 : ¬(c = '\n') := by
      intro hq
      exact hnl (by rw [hq]; exact List.mem_cons_self _ _)
    have hc2 : ¬(c = '`') := by
      intro hq
      exact hbt (by rw [hq]; exact List.mem_cons_self _ _)
    simp only [List.cons_append]
    rw [fenceJsonGo.eq_3 false c _ (by intro t1 hq _; exact absurd hq hc2)]
    rw [show (decide (c = '\n')) = false from by simp [hc1]]
    rw [ih (fun h => hnl (List.mem_cons_of_mem _ h)) (fun h => hbt (List.mem_cons_of_mem _ h))]

theorem sub1_wrapped (tt : List Char) (hnl : '\n' ∉ '{' :: tt) (hbt : '`' ∉ '{' :: tt) :
    sub1 ("```json\n".data ++ ('{' :: tt) ++ "\n```".data)
      = ('{' :: tt) ++ '\n' :: '`' :: '`' :: '`' :: [] := by
  unfold sub1
  rw [show ("```json\n".data ++ ('{' :: tt) ++ "\n```".data : List Char)
    = '`' :: '`' :: '`' :: 'j' :: 's' :: 'o' :: 'n'
        :: ('\n' :: '{' :: (tt ++ '\n' :: '`' :: '`' :: '`' :: [])) from by simp]
  rw [fenceJsonGo.eq_2, if_pos rfl]
  rw [fenceJsonGo.eq_5 false '\n' _ (by intro t1 hq _; exact absurd hq (by decide))]
  rw [if_pos (by decide), show (decide ('\n' = '\n')) = true from by decide]
  rw [fenceJsonGo.eq_5 true '{' _ (by intro t1 hq _; exact absurd hq (by decide))]
  rw [if_neg (by decide), show (decide ('{' = '\n')) = false from by decide]
  rw [fenceJsonGo_T_tail tt (fun h => hnl (List.mem_cons_of_mem _ h))
    (fun h => hbt (List.mem_cons_of_mem _ h))]
  rfl

theorem sub2Go_strip_tail (tt : List Char) (hnl : '\n' ∉ tt) (hbt : '`' ∉ tt) :
    sub2Go (tt ++ '\n' :: '`' :: '`' :: '`' :: []) = tt := by
  induction tt with
  | nil =>
    rw [List.nil_append, sub2Go.eq_2, if_pos (by decide), sub2Go.eq_1]
  | cons c tt2 ih =>
    have hc1 : ¬(c = '\n') := by
      intro hq
      exact hnl (by rw [hq]; exact List.mem_cons_self _ _)
    have hc2 : ¬(c = '`') := by
      intro hq
      exact hbt (by rw [hq]; exact List.mem_cons_self _ _)
    rw [List.cons_append, sub2Go.eq_4 c _ (fun rest hq _ => absurd hq hc1)
      (fun rest hq _ => absurd hq hc2)]
    rw [ih (fun h => hnl (List.mem_cons_of_mem _ h)) (fun h => hbt (List.mem_cons_of_mem _ h))]

/-! ## The Request Driver: `VB6Converter.call_azure_openai`

The backend (Azure client) is abstracted as a function from the attempt
index to either a raised exception (its message) or a response content
string; the driver itself is translated from the source.  The loop also
reports how many backend attempts were made. -/

inductive BackendResp
  | raises (msg : String)
  | returns (content : String)

/-- `key.endswith(".cs")`. -/
def endsWithCs (k : String) : Bool :=
  decide (k.data.drop (k.data.length - 3) = '.' :: 'c' :: 's' :: [])

/-- One attempt of the regex `\w+\s*\([^)]*\)\s*\{\s*\}` anchored at the
head of `l`: the character classes of consecutive pieces are disjoint, so
the backtracking match is the run-based scan.  Returns the matched span
and the rest. -/
def emptyCallableAt (l : List Char) : Option (List Char × List Char) :=
  match l with
  | [] => none
  | c :: t =>
    if isWordChar c then
      match (t.dropWhile isWordChar).dropWhile isPyWs with
      | '(' :: r2 =>
        match r2.dropWhile (fun d => ¬(d = ')')) with
        | ')' :: r3 =>
          match r3.dropWhile isPyWs with
          | '{' :: r4 =>
            match r4.dropWhile isPyWs with
            | '}' :: r5 =>
              some (c :: (t.takeWhile isWordChar
                ++ (t.dropWhile isWordChar).takeWhile isPyWs
                ++ '(' :: (r2.takeWhile (fun d => ¬(d = ')'))
                  ++ ')' :: (r3.takeWhile isPyWs
                    ++ '{' :: (r4.takeWhile isPyWs ++ ['}'])))), r5)
            | _ => none
          | _ => none
        | _ => none
      | _ => none
    else none

/-- `re.search(r'\w+\s*\([^)]*\)\s*\{\s*\}', code) is not None`. -/
def hasEmptyCallable : List Char → Bool
  | [] => false
  | c :: t => (emptyCallableAt (c :: t)).isSome || hasEmptyCallable t

/-- The `re.sub` of the empty-body annotation: every match is replaced by
itself followed by the marker comment. -/
def annotGo : Nat → List Char → List Char
  | 0, l => l
  | _, [] => []
  | fuel + 1, c :: t =>
    match emptyCallableAt (c :: t) with
    | some (m, rest) => m ++ " // TODO: Implement body from original VB6".data ++ annotGo fuel rest
    | none => c :: annotGo fuel t

def annotateEmpty (code : String) : String := ⟨annotGo code.data.length code.data⟩

/-- Python `"k" in v`.  Dict: key membership; str: substring; list:
element equality with the string.  Other values raise `TypeError` (the
runtime message is abstracted). -/
def pyInE (k : String) : PyJson → Except String Bool
  | .obj ms => .ok (pyDictHas ms k)
  | .str s => .ok (containsSub s.data k.data)
  | .arr items => .ok (items.any (fun v => match v with | .str s2 => decide (s2 = k) | _ => false))
  | _ => .error "TypeError"

/-- `any(key in parsed_response for key in expected_keys)` with the lazy
left-to-right evaluation of `any`. -/
def anyKeyE : List String → PyJson → Except String Bool
  | [], _ => .ok false
  | k :: t, p =>
    match pyInE k p with
    | .error e => .error e
    | .ok true => .ok true
    | .ok false => anyKeyE t p

def expectedKeys : List String :=
  ["Class.cs", "Constants.cs", "ModuleService.cs", "IModuleService.cs", "Chunk.cs", "ClassChunk.cs"]

/-- `.items()` — only a dict has it. -/
def pyItemsE : PyJson → Except String (List (String × PyJson))
  | .obj ms => .ok ms
  | _ => .error "AttributeError"

/-- `list(d.keys())` — only a dict has it. -/
def pyKeysJ : PyJson → Except String (List String)
  | .obj ms => .ok (ms.map Prod.fst)
  | _ => .error "AttributeError"

/-- Python `repr` of a list of strings, as interpolated by the f-string. -/
def pyReprStrList (ks : List String) : String :=
  "[" ++ pyJoin ", " (ks.map (fun k => "\x27" ++ k ++ "\x27")) ++ "]"

/-- `key.endswith(".cs") and re.search(...)` for one dict entry; a
non-string value makes `re.search` raise. -/
def scanEntryMatches (k : String) (v : PyJson) : Except String Bool :=
  if endsWithCs k then
    match v with
    | .str code => .ok (hasEmptyCallable code.data)
    | _ => .error "TypeError"
  else .ok false

/-- The empty-body scan when attempts remain: the `continue` binds to the
inner `for key` loop, so the loop only evaluates the checks (which may
raise) and changes nothing. -/
def scanRetryCheck : List (String × PyJson) → Except String Unit
  | [] => .ok ()
  | (k, v) :: t =>
    match scanEntryMatches k v with
    | .error e => .error e
    | .ok _ => scanRetryCheck t

/-- The empty-body scan on the final attempt: every matching entry is
annotated in place. -/
def scanNoRetry : List (String × PyJson) → Except String (List (String × PyJson))
  | [] => .ok []
  | (k, v) :: t =>
    match scanEntryMatches k v with
    | .error e => .error e
    | .ok m =>
      match scanNoRetry t with
      | .error e => .error e
      | .ok rest =>
        .ok ((k, if m then (match v with | .str code => .str (annotateEmpty code) | _ => v)
          else v) :: rest)

/-- The body of one `try:` block of the driver loop, given the response
content.  `.ok none` is a `continue`; `.ok (some r)` is a `return r`; an
`.error` is an exception reaching the `except` clause. -/
def attemptBody (content : String) (canRetry : Bool) : Except String (Option PyJson) :=
  if content = "" then
    .ok (if canRetry then none
      else some (.obj [("error", .str "Empty response from Azure OpenAI API")]))
  else
    let parsed := extract_json_from_response content
    match pyInE "error" parsed with
    | .error e => .error e
    | .ok true => .ok (if canRetry then none else some parsed)
    | .ok false =>
      match anyKeyE expectedKeys parsed with
      | .error e => .error e
      | .ok false =>
        if canRetry then .ok none
        else
          match pyKeysJ parsed with
          | .error e => .error e
          | .ok ks => .ok (some (.obj [("error",
              .str ("Missing expected keys. Found: " ++ pyReprStrList ks))]))
      | .ok true =>
        match pyItemsE parsed with
        | .error e => .error e
        | .ok ms =>
          if canRetry then
            match scanRetryCheck ms with
            | .error e => .error e
            | .ok _ => .ok (some parsed)
          else
            match scanNoRetry ms with
            | .error e => .error e
            | .ok ms2 => .ok (some (.obj ms2))

/-- One iteration of `for attempt in range(retries + 1)`: `none` means
`continue`. -/
def attemptOutcome (backend : Nat → BackendResp) (retries attempt : Nat) : Option PyJson :=
  match backend attempt with
  | .raises msg =>
    if attempt < retries then none
    else some (.obj [("error", .str ("API call failed: " ++ msg))])
  | .returns content =>
    match attemptBody content (decide (attempt < retries)) with
    | .ok r => r
    | .error msg =>
      if attempt < retries then none
      else some (.obj [("error", .str ("API call failed: " ++ msg))])

/-- The driver loop over the remaining attempts, also counting the
attempts made (the second component). -/
def callLoop (backend : Nat → BackendResp) (retries : Nat) : Nat → Nat → PyJson × Nat
  | attempt, 0 => (.obj [("error", .str "Exhausted all retry attempts")], attempt)
  | attempt, rem + 1 =>
    match attemptOutcome backend retries attempt with
    | some res => (res, attempt + 1)
    | none => callLoop backend retries (attempt + 1) rem

/-- `VB6Converter.call_azure_openai`, instrumented with the attempt count. -/
def call_azure_openai (backend : Nat → BackendResp) (retries : Nat) : PyJson × Nat :=
  callLoop backend retries 0 (retries + 1)

theorem callLoop_att_le (backend : Nat → BackendResp) (r : Nat) :
    ∀ rem attempt, (callLoop backend r attempt rem).2 ≤ attempt + rem := by
  intro rem
  induction rem with
  | zero =>
    intro attempt
    simp [callLoop]
  | succ rem ih =>
    intro attempt
    rw [show callLoop backend r attempt (rem + 1)
      = (match attemptOutcome backend r attempt with
         | some res => (res, attempt + 1)
         | none => callLoop backend r (attempt + 1) rem) from rfl]
    cases attemptOutcome backend r attempt with
    | some res => simp
    | none =>
      simp only []
      have := ih (attempt + 1)
      omega

theorem callLoop_raise (backend : Nat → BackendResp) (r : Nat) (msgs : Nat → String)
    (hraise : ∀ i, backend i = .raises (msgs i)) :
    ∀ rem attempt, attempt + rem = r + 1 → 1 ≤ rem →
      callLoop backend r attempt rem
        = (.obj [("error", .str ("API call failed: " ++ msgs r))], r + 1) := by
  intro rem
  induction rem with
  | zero =>
    intro attempt _ h1
    exact absurd h1 (by omega)
  | succ rem ih =>
    intro attempt heq _
    rw [show callLoop backend r attempt (rem + 1)
      = (match attemptOutcome backend r attempt with
         | some res => (res, attempt + 1)
         | none => callLoop backend r (attempt + 1) rem) from rfl]
    have hout : attemptOutcome backend r attempt
        = (if attempt < r then none
           else some (.obj [("error", .str ("API call failed: " ++ msgs attempt))])) := by
      unfold attemptOutcome
      rw [hraise attempt]
    rw [hout]
    by_cases hlt : attempt < r
    · rw [if_pos hlt]
      simp only []
      exact ih (attempt + 1) (by omega) (by omega)
    · rw [if_neg hlt]
      have hat : attempt = r := by omega
      subst hat
      simp only []

/-- C6: the driver makes at most retries+1 backend attempts; if the
backend raises on every attempt, the budget is exhausted (exactly r+1
attempts) and the returned value is an error dict carrying the most
recent failure reason, not a raised exception. -/
theorem C6_retry_budget (backend : Nat → BackendResp) (r : Nat) :
    (call_azure_openai backend r).2 ≤ r + 1 ∧
    (∀ msgs : Nat → String, (∀ i, backend i = .raises (msgs i)) →
      call_azure_openai backend r
        = (.obj [("error", .str ("API call failed: " ++ msgs r))], r + 1)) := by
  constructor
  · have := callLoop_att_le backend r (r + 1) 0
    unfold call_azure_openai
    omega
  · intro msgs hraise
    unfold call_azure_openai
    exact callLoop_raise backend r msgs hraise (r + 1) 0 (by omega) (by omega)

/-- Witness: an always-raising backend with a 3-retry budget makes 4
attempts and returns the error dict. -/
theorem C6_retry_budget_witness :
    (call_azure_openai (fun _ => .raises "boom") 3).2 ≤ 4 ∧
    call_azure_openai (fun _ => .raises "boom") 3
      = (.obj [("error", .str ("API call failed: " ++ "boom"))], 4) :=
  ⟨(C6_retry_budget (fun _ => .raises "boom") 3).1,
    (C6_retry_budget (fun _ => .raises "boom") 3).2 (fun _ => "boom") (fun _ => rfl)⟩

/-- C4 (code bug): a structurally valid result whose only value matches
the empty-bodied callable pattern is returned after a single attempt,
unmodified and without any retry, although three retries remained: the
`continue` under the empty-method check binds to the inner `for key`
loop, not to the attempt loop. -/
theorem C4_empty_body_returned_unmodified :
    call_azure_openai
        (fun _ => .returns "\x7b\x22Class.cs\x22: \x22void Foo() \x7b \x7d\x22\x7d") 3
      = (.obj [("Class.cs", .str "void Foo() \x7b \x7d")], 1) ∧
    hasEmptyCallable ("void Foo() \x7b \x7d" : String).data = true := by
  exact ⟨rfl, rfl⟩

/-! ## The Orchestrator: `VB6Converter.convert_chunks_sequential` -/

/-- Python `"error" in response` for the values the driver can return
(dict, str, or list; the driver never returns a bare int/bool/None to
the orchestrator, so their raising behaviour is irrelevant here). -/
def pyInB (k : String) : PyJson → Bool
  | .obj ms => pyDictHas ms k
  | .str s => containsSub s.data k.data
  | .arr items => items.any (fun v => match v with | .str s2 => decide (s2 = k) | _ => false)
  | _ => false

/-- `response.get(key, "")`, the value being a string whenever present
(the context summaries produced by the pipeline are strings). -/
def pyGetStrD (p : PyJson) (k dflt : String) : String :=
  match p with
  | .obj ms =>
    match pyDictGet? ms k with
    | some (.str s) => s
    | some _ => dflt
    | none => dflt
  | _ => dflt

/-- Python `template.format(**vars)` for `\x7bname\x7d` placeholders and
the `\x7b\x7b`/`\x7d\x7d` escapes (no format specs occur in the
templates; a missing key cannot occur on the calls made). -/
def pyFormatGo (vars : List (String × String)) : Nat → List Char → List Char
  | 0, l => l
  | _, [] => []
  | fuel + 1, '{' :: '{' :: t => '{' :: pyFormatGo vars fuel t
  | fuel + 1, '}' :: '}' :: t => '}' :: pyFormatGo vars fuel t
  | fuel + 1, '{' :: t =>
    (match dictGet? vars ⟨t.takeWhile (fun c => ¬(c = '}'))⟩ with
     | some v => v.data
     | none => []) ++
    pyFormatGo vars fuel ((t.dropWhile (fun c => ¬(c = '}'))).drop 1)
  | fuel + 1, c :: t => c :: pyFormatGo vars fuel t

def pyFormat (template : String) (vars : List (String × String)) : String :=
  ⟨pyFormatGo vars template.data.length template.data⟩

/-- The loop of `convert_chunks_sequential`: `api` is
`self.call_azure_openai` applied to the formatted prompt.  A failed chunk
leaves `previous_context` unchanged; a successful chunk replaces it with
the response ContextSummary (default empty). -/
def convert_chunks_sequentialGo (api : String → PyJson) (template : String)
    (varsFn : Nat → List (String × String)) : Nat → List String → String → List PyJson
  | _, [], _ => []
  | i, _ :: rest, ctx =>
    let r := api (pyFormat template (dictSet (varsFn i) "previous_context" ctx))
    r :: convert_chunks_sequentialGo api template varsFn (i + 1) rest
      (if pyInB "error" r then ctx else pyGetStrD r "ContextSummary" "")

/-- `VB6Converter.convert_chunks_sequential`. -/
def convert_chunks_sequential (api : String → PyJson) (template : String)
    (varsFn : Nat → List (String × String)) (chunks : List String) : List PyJson :=
  convert_chunks_sequentialGo api template varsFn 0 chunks ""

/-- The same loop, also recording the `previous_context` handed to each
chunk's prompt. -/
def ccsTrace (api : String → PyJson) (template : String)
    (varsFn : Nat → List (String × String)) : Nat → List String → String → List (String × PyJson)
  | _, [], _ => []
  | i, _ :: rest, ctx =>
    let r := api (pyFormat template (dictSet (varsFn i) "previous_context" ctx))
    (ctx, r) :: ccsTrace api template varsFn (i + 1) rest
      (if pyInB "error" r then ctx else pyGetStrD r "ContextSummary" "")

theorem ccsTrace_len (api : String → PyJson) (template : String)
    (varsFn : Nat → List (String × String)) :
    ∀ chunks i ctx, (ccsTrace api template varsFn i chunks ctx).length = chunks.length := by
  intro chunks
  induction chunks with
  | nil => intro i ctx; rfl
  | cons c rest ih =>
    intro i ctx
    rw [show ccsTrace api template varsFn i (c :: rest) ctx
      = (ctx, api (pyFormat template (dictSet (varsFn i) "previous_context" ctx)))
        :: ccsTrace api template varsFn (i + 1) rest
          (if pyInB "error" (api (pyFormat template (dictSet (varsFn i) "previous_context" ctx)))
           then ctx
           else pyGetStrD (api (pyFormat template (dictSet (varsFn i) "previous_context" ctx)))
             "ContextSummary" "") from rfl]
    simp [ih]

theorem ccsTrace_snd (api : String → PyJson) (template : String)
    (varsFn : Nat → List (String × String)) :
    ∀ chunks i ctx, convert_chunks_sequentialGo api template varsFn i chunks ctx
      = (ccsTrace api template varsFn i chunks ctx).map Prod.snd := by
  intro chunks
  induction chunks with
  | nil => intro i ctx; rfl
  | cons c rest ih =>
    intro i ctx
    simp only [convert_chunks_sequentialGo, ccsTrace, List.map_cons]
    rw [ih]

theorem ccsTrace_head (api : String → PyJson) (template : String)
    (varsFn : Nat → List (String × String)) :
    ∀ chunks i ctx c r, (ccsTrace api template varsFn i chunks ctx).get? 0 = some (c, r) →
      c = ctx := by
  intro chunks
  cases chunks with
  | nil => intro i ctx c r h; simp [ccsTrace] at h
  | cons ch rest =>
    intro i ctx c r h
    simp only [ccsTrace, List.get?] at h
    exact (Prod.mk.inj (Option.some.inj h)).1.symm

theorem ccsTrace_chain (api : String → PyJson) (template : String)
    (varsFn : Nat → List (String × String)) :
    ∀ chunks i ctx j c r c2 r2,
      (ccsTrace api template varsFn i chunks ctx).get? j = some (c, r) →
      (ccsTrace api template varsFn i chunks ctx).get? (j + 1) = some (c2, r2) →
      c2 = (if pyInB "error" r = true then c else pyGetStrD r "ContextSummary" "") := by
  intro chunks
  induction chunks with
  | nil => intro i ctx j c r c2 r2 h _; simp [ccsTrace] at h
  | cons ch rest ih =>
    intro i ctx j c r c2 r2 h h2
    cases j with
    | zero =>
      simp only [ccsTrace, List.get?] at h h2
      obtain ⟨hc, hr⟩ := Prod.mk.inj (Option.some.inj h)
      have hc2 := ccsTrace_head api template varsFn rest _ _ c2 r2 h2
      rw [hc2, ← hc, ← hr]
    | succ j2 =>
      simp only [ccsTrace, List.get?] at h h2
      exact ih (i + 1) _ j2 c r c2 r2 h h2

/-- C5 (amended): the unit is never aborted by a failed chunk — one
result per chunk — and the previous_context handed to chunk j+1 is the
context of chunk j unchanged when chunk j failed (stale, not reset to
empty), and the ContextSummary of chunk j when it succeeded. -/
theorem C5_context_chain (api : String → PyJson) (template : String)
    (varsFn : Nat → List (String × String)) (chunks : List String) :
    (convert_chunks_sequential api template varsFn chunks).length = chunks.length ∧
    convert_chunks_sequential api template varsFn chunks
      = (ccsTrace api template varsFn 0 chunks "").map Prod.snd ∧
    (∀ j c r c2 r2,
      (ccsTrace api template varsFn 0 chunks "").get? j = some (c, r) →
      (ccsTrace api template varsFn 0 chunks "").get? (j + 1) = some (c2, r2) →
      c2 = (if pyInB "error" r = true then c else pyGetStrD r "ContextSummary" "")) := by
  refine ⟨?_, ccsTrace_snd api template varsFn chunks 0 "", ?_⟩
  · rw [show convert_chunks_sequential api template varsFn chunks
      = convert_chunks_sequentialGo api template varsFn 0 chunks "" from rfl,
      ccsTrace_snd api template varsFn chunks 0 ""]
    simp [ccsTrace_len]
  · intro j c r c2 r2 h h2
    exact ccsTrace_chain api template varsFn chunks 0 "" j c r c2 r2 h h2

def ccsCexTemplate : String := "\x7bprevious_context\x7d|\x7bvb6_code\x7d"

def ccsCexVars (i : Nat) : List (String × String) :=
  [("vb6_code", if i = 0 then "A" else if i = 1 then "B" else "C")]

def ccsCexApi (p : String) : PyJson :=
  if p = "|A" then .obj [("Class.cs", .str "x"), ("ContextSummary", .str "CTX1")]
  else if p = "CTX1|B" then .obj [("error", .str "boom")]
  else .obj [("Echo", .str p)]

/-- Counterexample to the claim as stated: chunk 0 succeeds with context
summary CTX1, chunk 1 fails, and chunk 2's prompt receives the stale
context CTX1 — not an empty previous_context. -/
theorem C5_cex :
    ccsTrace ccsCexApi ccsCexTemplate ccsCexVars 0 ["a", "b", "c"] ""
      = [("", .obj [("Class.cs", .str "x"), ("ContextSummary", .str "CTX1")]),
         ("CTX1", .obj [("error", .str "boom")]),
         ("CTX1", .obj [("Echo", .str "CTX1|C")])] ∧
    ¬(("CTX1" : String) = "") := by
  exact ⟨rfl, by decide⟩

/-- Witness: the amended theorem applied at the counterexample trace. -/
theorem C5_context_chain_witness :
    (convert_chunks_sequential ccsCexApi ccsCexTemplate ccsCexVars ["a", "b", "c"]).length = 3 ∧
    ("CTX1" : String)
      = (if pyInB "error" (.obj [("error", .str "boom")]) = true then "CTX1"
         else pyGetStrD (.obj [("error", .str "boom")]) "ContextSummary" "") :=
  ⟨(C5_context_chain ccsCexApi ccsCexTemplate ccsCexVars ["a", "b", "c"]).1,
    (C5_context_chain ccsCexApi ccsCexTemplate ccsCexVars ["a", "b", "c"]).2.2 1
      "CTX1" (.obj [("error", .str "boom")]) "CTX1" (.obj [("Echo", .str "CTX1|C")]) rfl rfl⟩

/-! ## The Local Recombiner: `VB6Converter.merge_class_chunks_locally` -/

/-- `chunk.get("ClassChunk.cs", "")` (the pipeline stores string code
under this key). -/
def chunkGetJ (p : PyJson) : String :=
  match p with
  | .obj ms =>
    match pyDictGet? ms "ClassChunk.cs" with
    | some (.str s) => s
    | some _ => ""
    | none => ""
  | _ => ""

/-- `str.strip(chars)` for an arbitrary character class. -/
def stripCharsOf (p : Char → Bool) (l : List Char) : List Char :=
  ((l.dropWhile p).reverse.dropWhile p).reverse

/-- Index of the last `;` in `line`, if any. -/
def lastSemi (line : List Char) : Option Nat :=
  match line.reverse.findIdx? (fun d => decide (d = ';')) with
  | some rj => some (line.length - 1 - rj)
  | none => none

/-- The tail of `^using\s+[^\n]+;\n?` after the literal: `\s+` takes the
longest run (`k` descends from the run length) that still lets `[^\n]+;`
reach a `;` preceded by at least one character; the optional newline is
consumed.  Returns the rest and whether the span ended with a newline. -/
def usingSearchK (u : List Char) : Nat → Option (List Char × Bool)
  | 0 => none
  | k + 1 =>
    match lastSemi ((u.drop (k + 1)).takeWhile (fun d => ¬(d = '\n'))) with
    | some j =>
      if 1 ≤ j then
        match (u.drop (k + 1)).drop (j + 1) with
        | '\n' :: a2 => some (a2, true)
        | after => some (after, false)
      else usingSearchK u k
    | none => usingSearchK u k

def usingMatchAt (l : List Char) : Option (List Char × Bool) :=
  match dropLit "using".data l with
  | some u => usingSearchK u (u.takeWhile isPyWs).length
  | none => none

/-- The tail `\s+[^\x7b]+\x7b\s*` shared by the namespace and class
header patterns: `[^\x7b]+` runs to the first brace, and the trailing
`\s*` is consumed greedily. -/
def braceHeadK (u : List Char) : Nat → Option (List Char × Bool)
  | 0 => none
  | k + 1 =>
    match (u.drop (k + 1)).dropWhile (fun d => ¬(d = '{')) with
    | '{' :: after =>
      if 1 ≤ ((u.drop (k + 1)).takeWhile (fun d => ¬(d = '{'))).length then
        some (after.dropWhile isPyWs,
          decide ((after.takeWhile isPyWs).getLast? = some '\n'))
      else braceHeadK u k
    | _ => none

def namespaceMatchAt (l : List Char) : Option (List Char × Bool) :=
  match dropLit "namespace".data l with
  | some u => braceHeadK u (u.takeWhile isPyWs).length
  | none => none

def pubClassMatchAt (l : List Char) : Option (List Char × Bool) :=
  match dropLit "public".data l with
  | some u =>
    if 1 ≤ (u.takeWhile isPyWs).length then
      match dropLit "class".data (u.dropWhile isPyWs) with
      | some u2 => braceHeadK u2 (u2.takeWhile isPyWs).length
      | none => none
    else none
  | none => none

/-- `re.sub(pattern, '', text, flags=re.MULTILINE)`: scan left to right,
trying the anchored match at every line start. -/
def mlSubGo (matchAt : List Char → Option (List Char × Bool)) :
    Nat → Bool → List Char → List Char
  | 0, _, l => l
  | _, _, [] => []
  | fuel + 1, atStart, c :: t =>
    if atStart then
      match matchAt (c :: t) with
      | some (rest, endNl) => mlSubGo matchAt fuel endNl rest
      | none => c :: mlSubGo matchAt fuel (decide (c = '\n')) t
    else c :: mlSubGo matchAt fuel (decide (c = '\n')) t

def mlSub (matchAt : List Char → Option (List Char × Bool)) (l : List Char) : List Char :=
  mlSubGo matchAt l.length true l

/-- One anchored attempt of
`(public\s+(enum|struct|class)\s+\w+\s*\x7b[^\x7d]*\x7d)`: all adjacent
pieces draw from disjoint character classes, so each run is forced.
Returns ((whole match, keyword group), rest). -/
def typeDeclAt (l : List Char) : Option ((List Char × List Char) × List Char) :=
  match dropLit "public".data l with
  | some u =>
    if 1 ≤ (u.takeWhile isPyWs).length then
      match (match dropLit "enum".data (u.dropWhile isPyWs) with
             | some r => some ("enum".data, r)
             | none =>
               match dropLit "struct".data (u.dropWhile isPyWs) with
               | some r => some ("struct".data, r)
               | none =>
                 match dropLit "class".data (u.dropWhile isPyWs) with
                 | some r => some ("class".data, r)
                 | none => none) with
      | some (kind, u3) =>
        if 1 ≤ (u3.takeWhile isPyWs).length then
          if 1 ≤ ((u3.dropWhile isPyWs).takeWhile isWordChar).length then
            match ((u3.dropWhile isPyWs).dropWhile isWordChar).dropWhile isPyWs with
            | '{' :: u6 =>
              match u6.dropWhile (fun d => ¬(d = '}')) with
              | '}' :: u7 =>
                some (("public".data ++ u.takeWhile isPyWs ++ kind
                  ++ u3.takeWhile isPyWs ++ (u3.dropWhile isPyWs).takeWhile isWordChar
                  ++ ((u3.dropWhile isPyWs).dropWhile isWordChar).takeWhile isPyWs
                  ++ '{' :: (u6.takeWhile (fun d => ¬(d = '}')) ++ ['}']), kind), u7)
              | _ => none
            | _ => none
          else none
        else none
      | none => none
    else none
  | none => none

/-- `re.findall` of the type-declaration pattern (two groups: whole
match and keyword). -/
def findTypesGo : Nat → List Char → List (List Char × List Char)
  | 0, _ => []
  | _, [] => []
  | fuel + 1, c :: t =>
    match typeDeclAt (c :: t) with
    | some (pair, rest) => pair :: findTypesGo fuel rest
    | none => findTypesGo fuel t

def countEq (x : List Char × List Char) : List (List Char × List Char) → Nat
  | [] => 0
  | y :: t => (if y = x then 1 else 0) + countEq x t

/-- Python `str.replace(pat, rep, count)`. -/
def replaceCountGo (pat rep : List Char) : Nat → Nat → List Char → List Char
  | 0, _, l => l
  | _, _, [] => []
  | fuel + 1, cnt, c :: t =>
    if cnt = 0 then c :: t
    else if pat.isPrefixOf (c :: t) then
      rep ++ replaceCountGo pat rep fuel (cnt - 1) ((c :: t).drop pat.length)
    else c :: replaceCountGo pat rep fuel cnt t

def pyReplaceCount (l pat rep : List Char) (cnt : Nat) : List Char :=
  replaceCountGo pat rep l.length cnt l

/-- The dedup loop: `for dup in types: if types.count(dup) > 1:
merged_body = merged_body.replace(dup[0], '', types.count(dup) - 1)` —
the count is always taken over the unchanged `types` list. -/
def dedupFold (allTypes : List (List Char × List Char)) :
    List (List Char × List Char) → List Char → List Char
  | [], body => body
  | d :: t, body =>
    dedupFold allTypes t
      (if 1 < countEq d allTypes then pyReplaceCount body d.1 [] (countEq d allTypes - 1)
       else body)

/-- One unanchored attempt of `using\s+([^;]+);`, returning group 1 and
the rest after the match. -/
def usingGrpK (u : List Char) : Nat → Option (List Char × List Char)
  | 0 => none
  | k + 1 =>
    match (u.drop (k + 1)).dropWhile (fun d => ¬(d = ';')) with
    | ';' :: after =>
      if 1 ≤ ((u.drop (k + 1)).takeWhile (fun d => ¬(d = ';'))).length then
        some ((u.drop (k + 1)).takeWhile (fun d => ¬(d = ';')), after)
      else usingGrpK u k
    | _ => none

def usingFindAt (l : List Char) : Option (List Char × List Char) :=
  match dropLit "using".data l with
  | some u => usingGrpK u (u.takeWhile isPyWs).length
  | none => none

def findUsingsGo : Nat → List Char → List (List Char)
  | 0, _ => []
  | _, [] => []
  | fuel + 1, c :: t =>
    match usingFindAt (c :: t) with
    | some (grp, rest) => grp :: findUsingsGo fuel rest
    | none => findUsingsGo fuel t

/-- `set.update`: keep first occurrences (the final `sorted` makes the
set's iteration order irrelevant). -/
def insertUnique (x : String) : List String → List String
  | [] => [x]
  | y :: t => if y = x then y :: t else y :: insertUnique x t

def insSorted (x : String) : List String → List String
  | [] => [x]
  | y :: t => if y < x then y :: insSorted x t else x :: y :: t

def sortStrs : List String → List String
  | [] => []
  | x :: t => insSorted x (sortStrs t)

/-- `VB6Converter._indent_code`. -/
def indentCode (code : String) (spaces : Nat) : String :=
  pyJoin "\n" ((pySplitlines code).map
    (fun line => if pyStrip line = "" then "" else (⟨List.replicate spaces ' '⟩ : String) ++ line))

/-- `VB6Converter.merge_class_chunks_locally`. -/
def merge_class_chunks_locally (chunks : List PyJson)
    (filename class_name namespace2 : String) : List (String × String) :=
  let has_disposable := chunks.any (fun ch => containsSub (chunkGetJ ch).data "IDisposable".data)
  let chunk_bodies := chunks.filterMap (fun ch =>
    if pyStrip (chunkGetJ ch) = "" then none
    else some (pyStripChars (stripCharsOf (fun c => c = '}' ∨ c = ' ' ∨ c = '\n')
      (mlSub pubClassMatchAt (mlSub namespaceMatchAt (mlSub usingMatchAt (chunkGetJ ch).data))))))
  let merged0 := joinSep "\n\n".data chunk_bodies
  let types := findTypesGo merged0.length merged0
  let merged1 := dedupFold types types merged0
  let merged2 := annotGo merged1.length merged1
  let usings := chunks.foldl (fun acc ch =>
    (findUsingsGo (chunkGetJ ch).data.length (chunkGetJ ch).data).foldl
      (fun a g => insertUnique (⟨g⟩ : String) a) acc) []
  let using_str := pyJoin "\n" (sortStrs ((usings.filter (fun u => ¬(u = ""))).map
    (fun u => "using " ++ u ++ ";")))
  let inheritance := if has_disposable then ": IDisposable" else ""
  [("Class.cs", using_str ++ "\n\nnamespace " ++ namespace2 ++ "\n\x7b\n    public class "
    ++ class_name ++ " " ++ inheritance ++ "\n    \x7b\n"
    ++ indentCode ⟨merged2⟩ 8 ++ "\n    \x7d\n\x7d\n")]

def countOccurGo (pat : List Char) : Nat → List Char → Nat
  | 0, _ => 0
  | _, [] => 0
  | fuel + 1, c :: t =>
    if pat.isPrefixOf (c :: t) then 1 + countOccurGo pat fuel ((c :: t).drop pat.length)
    else countOccurGo pat fuel t

def countOccur (pat l : List Char) : Nat := countOccurGo pat l.length l

/-- C2 (code bug): two chunks whose bodies both contain the verbatim
declaration `public struct Foo \x7b int A; \x7d` are merged to an output
containing ZERO occurrences of the declaration, not one: every pass of
the dedup loop recounts the duplicate over the original `types` list and
removes count-1 copies again, so the second pass deletes the survivor.
For contrast, merging a single chunk keeps exactly one occurrence. -/
theorem C2_duplicate_declaration_lost :
    (dictGet? (merge_class_chunks_locally
        [.obj [("ClassChunk.cs", .str "public struct Foo \x7b int A; \x7d\nint x;")],
         .obj [("ClassChunk.cs", .str "public struct Foo \x7b int A; \x7d\nint x;")]]
        "Module1.cls" "Module1" "NS") "Class.cs").map
      (fun code => countOccur "public struct Foo \x7b int A; \x7d".data code.data)
      = some 0 ∧
    (dictGet? (merge_class_chunks_locally
        [.obj [("ClassChunk.cs", .str "public struct Foo \x7b int A; \x7d\nint x;")]]
        "Module1.cls" "Module1" "NS") "Class.cs").map
      (fun code => countOccur "public struct Foo \x7b int A; \x7d".data code.data)
      = some 1 := by
  exact ⟨rfl, rfl⟩

/-! ## The prompt templates (`self.conversion_prompts`) -/

/-- `conversion_prompts[\x27module_bas\x27]`. -/
def promptModuleBas : String :=
  "\nConvert the following VB6 Module (.bas) file to C# for .NET 9 Worker Service.\nIMPORTANT: Return ONLY a valid JSON object. No markdown, no \x60\x60\x60json, no comments, no explanations outside the JSON.\nUse namespace: \x7bnamespace\x7d\nFocus on:\n1. Convert global variables to static properties in a Constants/GlobalVariables class\n2. Convert functions/subroutines to static methods in service classes\n3. Convert VB6-specific data types to C# equivalents (e.g., Long to uint, Byte to byte)\n4. Convert error handling to try-catch only where the original VB6 code actually contains error handling (e.g., On Error GoTo, On Error Resume Next, Err.Number, Err.Description, or Err.Raise).Do NOT wrap every method or block in a try-catch unnecessarily.For methods without explicit error handling in VB6, do not add try-catch \u2014 preserve normal flow.In converted try-catch blocks:Do not rethrow exceptions unless the original VB6 uses Err.Raise.If not rethrowing, log the error (optional) and return an appropriate default value (\"\" for string functions, null for objects, false for bools, or return for void).Ensure that try-catch placement matches the original scope of error handling (e.g., around specific risky calls, not the whole method unless VB6 had method-wide error handling).\n5. Update file I/O to modern .NET (System.IO)\n6. Convert COM objects to .NET equivalents or P/Invoke for Windows API\n7. Handle J2534 API calls with proper [DllImport] attributes\n8. Convert \x27Select Case\x27 to \x27switch\x27 in C#, handling ranges with multiple cases or if-else if needed.\n9. Remove any extra code, duplicate types, or unused methods that weren\x27t in the original VB6 code.\n10. Ensure all methods have full definitions; if body is missing, add a TODO comment or infer from context.\n11. For third-party libraries like Chilkat, add appropriate \x27using Chilkat;\x27 and ensure references are noted (e.g., NuGet: ChilkatDnCore).\n12. Strictly convert ONLY types explicitly defined in the VB6 code (e.g., \x27Type\x27 to struct, \x27Class\x27 to class, \x27Enum\x27 to enum). DO NOT add new enums, structs, classes, or duplicates (e.g., no extra EcuGroup enum if only a class exists).\n13. If a name conflict is detected (e.g., same name for class and struct), rename the secondary type (e.g., EcuGroup_Struct) and comment: \x27// Renamed to avoid conflict with original class\x27.\n14. In the output JSON, ensure no duplicate type definitions across files.\n15. ALWAYS generate FULL method bodies based on VB6 code; do not leave empty or use placeholders unless the original VB6 has no body. Infer logic if truncated.\n16. Define all fields, constants, and variables referenced or used in initialization, switch/case logic, method bodies, file-level assignments, or any control logic. Ensure that any symbol (global variable, constant, etc.) used is declared as a property or field in the appropriate output class (such as Constants/GlobalVariables), and all referenced values are explicitly defined.\n17. Only implement IDisposable and Dispose() in service classes if resource management is explicitly required by the original VB6 code. Otherwise, OMIT IDisposable and Dispose() from output.\n18. DO NOT generate any class, struct, or enum if the same type name already exists in another file in the same namespace/folder. \n    - If the type is needed but already defined, refer to it directly: DO NOT redeclare it (even as a stub).\n    - This avoids compiler errors and redundant code. Only generate new types that are unique to this VB6 file.\n    - If a method or property relies on an external class, assume that class exists in the namespace\u2014DO NOT generate it here.\n    - Do not add \x27using\x27 directives for types already within the same namespace/folder\u2014they are automatically in scope.\n19. Scan the VB6 code for global/module-level variables and ensure they are converted to appropriate static properties or fields in a dedicated C# class (e.g., Constants, Globals, or the main service class). If a variable is referenced both inside and outside a method (or if its lifetime in VB6 is beyond a single method), ensure it is declared at the class/static level in C#. This prevents loss of global/module-level state in conversion.\n\n\n\nVB6 Code:\n\x7bvb6_code\x7d\n\nReturn JSON structure:\n\x7b\x7b\n  \"Constants.cs\": \"C# code for constants class\",\n  \"ModuleService.cs\": \"C# code for service class\",\n  \"IModuleService.cs\": \"C# code for service interface\"\n\x7d\x7d\n"

/-- `conversion_prompts[\x27class_cls\x27]`. -/
def promptClassCls : String :=
  "\nConvert the following VB6 Class (.cls) file to C# for .NET 9.\nIMPORTANT: Return ONLY a valid JSON object. No markdown, no \x60\x60\x60json\nUse namespace: \x7bnamespace\x7d\nFocus on:\n1. Convert properties to C# properties with get/set\n2. Convert methods to C# methods\n3. Convert events to C# events or delegates\n4. Convert VB6 data types to C# equivalents (e.g., Long to uint, Byte to byte)\n5. If VB6 Class_Initialize or setup code exists, handle initialization in a C# constructor. If no custom initialization is needed, omit the constructor.\n6. Convert error handling to try-catch only where the original VB6 code actually contains error handling (e.g., On Error GoTo, On Error Resume Next, Err.Number, Err.Description, or Err.Raise).Do NOT wrap every method or block in a try-catch unnecessarily.For methods without explicit error handling in VB6, do not add try-catch \u2014 preserve normal flow.In converted try-catch blocks:Do not rethrow exceptions unless the original VB6 uses Err.Raise.If not rethrowing, log the error (optional) and return an appropriate default value (\"\" for string functions, null for objects, false for bools, or return for void).Ensure that try-catch placement matches the original scope of error handling (e.g., around specific risky calls, not the whole method unless VB6 had method-wide error handling).\n7. Only implement IDisposable and Dispose() if resource management is required by the original VB6 class. Otherwise, OMIT IDisposable and Dispose().\n8. Handle J2534 API calls with proper [DllImport] attributes and structs (e.g., RX_structure, vciSCONFIG)\n9. Convert \x27Select Case\x27 to \x27switch\x27 in C#, handling ranges with multiple cases or if-else if needed.\n10. Remove any extra code, duplicate types, or unused methods that weren\x27t in the original VB6 code.\n11. Ensure all methods have full definitions; if body is missing, add a TODO comment or infer from context.\n12. For third-party libraries like Chilkat, add appropriate \x27using Chilkat;\x27 and ensure references are noted (e.g., NuGet: ChilkatDnCore).\n13. Strictly convert ONLY types explicitly defined in the VB6 code (e.g., \x27Type\x27 to struct, \x27Class\x27 to class, \x27Enum\x27 to enum). DO NOT add new enums, structs, classes, or duplicates (e.g., no extra EcuGroup enum if only a class exists).\n14. If a name conflict is detected (e.g., same name for class and struct), rename the secondary type (e.g., EcuGroup_Struct) and comment: \x27// Renamed to avoid conflict with original class\x27.\n15. In the output JSON, ensure no duplicate type definitions across files.\n16. ALWAYS generate FULL method bodies based on VB6 code; do not leave empty or use placeholders unless the original VB6 has no body. Infer logic if truncated.\n17. DO NOT generate any class, struct, or enum if the same type name already exists in another file in the same namespace/folder. \n    - If the type is needed but already defined, refer to it directly: DO NOT redeclare it (even as a stub).\n    - This avoids compiler errors and redundant code. Only generate new types that are unique to this VB6 file.\n    - If a method or property relies on an external class, assume that class exists in the namespace\u2014DO NOT generate it here.\n    - Do not add \x27using\x27 directives for types already within the same namespace/folder\u2014they are automatically in scope.\n18. Scan the VB6 code for global/module-level variables and ensure they are converted to appropriate static properties or fields in a dedicated C# class (e.g., Constants, Globals, or the main service class). If a variable is referenced both inside and outside a method (or if its lifetime in VB6 is beyond a single method), ensure it is declared at the class/static level in C#. This prevents loss of global/module-level state in conversion.\n\nVB6 Code:\n\x7bvb6_code\x7d\n\nReturn JSON structure:\n\x7b\x7b\n  \"Class.cs\": \"C# code for the converted class\"\n\x7d\x7d\n"

/-- `conversion_prompts[\x27class_chunk_converter\x27]`. -/
def promptClassChunkConverter : String :=
  "\nConvert this chunk of a VB6 .cls file (part \x7bchunk_number\x7d of \x7btotal_chunks\x7d) to C# for .NET 9.\nIMPORTANT: Return ONLY a valid JSON object. No markdown, no \x60\x60\x60json, no comments, no explanations outside the JSON.\nUse namespace: \x7bnamespace\x7d\nClass name: \x7bclass_name\x7d\nFocus on:\n1. Maintain class structure and inheritance\n2. Convert properties to C# properties with get/set\n3. Convert methods to C# methods with proper signatures\n4. Convert VB6 data types to C# equivalents (e.g., Long to uint, Byte to byte)\n5. Handle J2534 API calls with [DllImport] and structs (e.g., RX_structure, vciSCONFIG)\n6. Use [StructLayout] and [MarshalAs] for P/Invoke structs\n7. Convert error handling to try-catch only where the original VB6 code actually contains error handling (e.g., On Error GoTo, On Error Resume Next, Err.Number, Err.Description, or Err.Raise).Do NOT wrap every method or block in a try-catch unnecessarily.For methods without explicit error handling in VB6, do not add try-catch \u2014 preserve normal flow.In converted try-catch blocks:Do not rethrow exceptions unless the original VB6 uses Err.Raise.If not rethrowing, log the error (optional) and return an appropriate default value (\"\" for string functions, null for objects, false for bools, or return for void).Ensure that try-catch placement matches the original scope of error handling (e.g., around specific risky calls, not the whole method unless VB6 had method-wide error handling).\n8. Preserve method boundaries and context\n9. Handle arrays and memory management for P/Invoke (e.g., Marshal.AllocHGlobal, Marshal.FreeHGlobal)\n10. Convert \x27Select Case\x27 to \x27switch\x27 in C#, handling ranges with multiple cases or if-else if needed.\n11. Remove any extra code, duplicate types, or unused methods that weren\x27t in the original VB6 code.\n12. Ensure all methods have full definitions; if body is missing, add a TODO comment or infer from context.\n13. For third-party libraries like Chilkat, add appropriate \x27using Chilkat;\x27 and ensure references are noted (e.g., NuGet: ChilkatDnCore).\n14. Strictly convert ONLY types explicitly defined in the VB6 code (e.g., \x27Type\x27 to struct, \x27Class\x27 to class, \x27Enum\x27 to enum). DO NOT add new enums, structs, classes, or duplicates (e.g., no extra EcuGroup enum if only a class exists).\n15. If a name conflict is detected (e.g., same name for class and struct), rename the secondary type (e.g., EcuGroup_Struct) and comment: \x27// Renamed to avoid conflict with original class\x27.\n16. In the output JSON, ensure no duplicate type definitions across files.\n17. ALWAYS generate FULL method bodies based on VB6 code; do not leave empty or use placeholders unless the original VB6 has no body. Infer logic if truncated.\n18. Define all fields, constants, and variables used in initialization logic, switch/case statements, constructors, and any assignment blocks. Ensure that any symbol referenced in control logic (such as in Select Case or switch) is declared as a field or included as a constructor parameter, and that all referenced constants are explicitly defined.\n19. Only implement IDisposable and Dispose() if resource management is explicitly required by the original VB6 definition. Otherwise, OMIT IDisposable and Dispose() from the output.\n20. DO NOT generate any class, struct, or enum if the same type name already exists in another file in the same namespace/folder. \n    - If the type is needed but already defined, refer to it directly: DO NOT redeclare it (even as a stub).\n    - This avoids compiler errors and redundant code. Only generate new types that are unique to this VB6 file.\n    - If a method or property relies on an external class, assume that class exists in the namespace\u2014DO NOT generate it here.\n    - Do not add \x27using\x27 directives for types already within the same namespace/folder\u2014they are automatically in scope.\n21. Scan the VB6 code for global/module-level variables and ensure they are converted to appropriate static properties or fields in a dedicated C# class (e.g., Constants, Globals, or the main service class). If a variable is referenced both inside and outside a method (or if its lifetime in VB6 is beyond a single method), ensure it is declared at the class/static level in C#. This prevents loss of global/module-level state in conversion.\n\nPrevious context summary: \x7bprevious_context\x7d\nVB6 Code Chunk:\n\x7bvb6_code\x7d\n\nReturn JSON structure:\n\x7b\x7b\n  \"ClassChunk.cs\": \"converted C# code chunk\",\n  \"ContextSummary\": \"brief context for next chunk including class structure, defined methods, structs, and J2534 API calls\"\n\x7d\x7d\n"

/-- `conversion_prompts[\x27chunk_converter\x27]`. -/
def promptChunkConverter : String :=
  "\nConvert this chunk of a VB6 .bas file (part \x7bchunk_number\x7d of \x7btotal_chunks\x7d) to C# for .NET 9.\nIMPORTANT: Return ONLY a valid JSON object. No markdown, no \x60\x60\x60json\nUse namespace: \x7bnamespace\x7d\nFocus on:\n1. Maintain variable scope and naming\n2. Convert functions/subs to C# methods\n3. Convert VB6 data types to C# equivalents (e.g., Long to uint, Byte to byte)\n4. Handle J2534 API calls with proper [DllImport] attributes\n5. Convert error handling to try-catch, but DO NOT re-throw exceptions in catch blocks. Instead, log the error (optional) and return an appropriate default value (e.g., \"\" for string functions, null for objects, false for bools, or just return for void). Only re-throw if the original VB6 code uses Err.Raise.\n6. Modern .NET patterns (e.g., async/await where applicable)\n7. Convert \x27Select Case\x27 to \x27switch\x27 in C#, handling ranges with multiple cases or if-else if needed.\n8. Remove any extra code, duplicate types, or unused methods that weren\x27t in the original VB6 code.\n9. Ensure all methods have full definitions; if body is missing, add a TODO comment or infer from context.\n10. For third-party libraries like Chilkat, add appropriate \x27using Chilkat;\x27 and ensure references are noted (e.g., NuGet: ChilkatDnCore).\n11. Strictly convert ONLY types explicitly defined in the VB6 code (e.g., \x27Type\x27 to struct, \x27Class\x27 to class, \x27Enum\x27 to enum). DO NOT add new enums, structs, classes, or duplicates (e.g., no extra EcuGroup enum if only a class exists).\n12. If a name conflict is detected (e.g., same name for class and struct), rename the secondary type (e.g., EcuGroup_Struct) and comment: \x27// Renamed to avoid conflict with original class\x27.\n13. In the output JSON, ensure no duplicate type definitions across files.\n14. ALWAYS generate FULL method bodies based on VB6 code; do not leave empty or use placeholders unless the original VB6 has no body. Infer logic if truncated.\n15. DO NOT generate any class, struct, or enum if the same type name already exists in another file in the same namespace/folder. \n    - If the type is needed but already defined, refer to it directly: DO NOT redeclare it (even as a stub).\n    - This avoids compiler errors and redundant code. Only generate new types that are unique to this VB6 file.\n    - If a method or property relies on an external class, assume that class exists in the namespace\u2014DO NOT generate it here.\n    - Do not add \x27using\x27 directives for types already within the same namespace/folder\u2014they are automatically in scope.\nPrevious context summary: \x7bprevious_context\x7d\nVB6 Code Chunk:\n\x7bvb6_code\x7d\n\nReturn JSON structure:\n\x7b\x7b\n  \"Chunk.cs\": \"converted C# code\",\n  \"ContextSummary\": \"brief context for next chunk including defined methods and variables\"\n\x7d\x7d\n"

/-! ## The Recombiner prompt and `combine_converted_chunks` -/

/-- `json.dumps(v, indent=2)`: the pretty serializer used in the combine
prompt. -/
def indentI (lvl : Nat) : List Char := List.replicate (2 * lvl) ' '

mutual

def serValueI : Nat → PyJson → List Char
  | _, .null => "null".data
  | _, .bool true => "true".data
  | _, .bool false => "false".data
  | _, .int n => intRepr n
  | _, .numF tok => tok.data
  | _, .str s => escapeString s
  | _, .arr [] => "[]".data
  | lvl, .arr (v :: t) =>
    '[' :: '\n' :: (serItemsI (lvl + 1) (v :: t) ++ '\n' :: (indentI lvl ++ [']']))
  | _, .obj [] => "\x7b\x7d".data
  | lvl, .obj (m :: t) =>
    '\x7b' :: '\n' :: (serMembersI (lvl + 1) (m :: t) ++ '\n' :: (indentI lvl ++ ['\x7d']))

def serItemsI : Nat → List PyJson → List Char
  | _, [] => []
  | lvl, [v] => indentI lvl ++ serValueI lvl v
  | lvl, v :: w :: t =>
    indentI lvl ++ serValueI lvl v ++ ',' :: '\n' :: serItemsI lvl (w :: t)

def serMembersI : Nat → List (String × PyJson) → List Char
  | _, [] => []
  | lvl, [(k, v)] => indentI lvl ++ escapeString k ++ ':' :: ' ' :: serValueI lvl v
  | lvl, (k, v) :: m :: t =>
    indentI lvl ++ escapeString k ++ ':' :: ' ' :: serValueI lvl v
      ++ ',' :: '\n' :: serMembersI lvl (m :: t)

end

def pyJsonDumpsI2 (v : PyJson) : String := ⟨serValueI 0 v⟩

def natRepr (n : Nat) : String := ⟨natToDigits (n + 1) n⟩

/-- The chunk listing inside the combine prompt:
`chr(10).join of "--- Chunk i+1 ---" and json.dumps(chunk, indent=2)`. -/
def combineChunksList (chunks : List PyJson) : String :=
  pyJoin "\n" ((List.range chunks.length).zip chunks |>.map
    (fun p => "--- Chunk " ++ natRepr (p.1 + 1) ++ " ---\n" ++ pyJsonDumpsI2 p.2))

def combinePromptOf (chunks : List PyJson) (filename namespace2 : String) : String :=
  "\nCombine the following C# code chunks from VB6 file \x27"
    ++ filename
    ++ "\x27 into cohesive service files.\nIMPORTANT: Return ONLY a valid JSON object. No markdown, no \x60\x60\x60json, no comments, no explanations outside the JSON.\nUse namespace: "
    ++ namespace2
    ++ "\nEnsure:\n1. No duplicate method names\n2. Proper class structure with static methods\n3. Consistent naming and formatting\n4. All necessary using statements (e.g., System.Runtime.InteropServices for J2534)\n5. Proper J2534 API integration with [DllImport] and structs\n6. Convert \x27Select Case\x27 to \x27switch\x27 in C#, handling ranges with multiple cases or if-else if needed.\n7. Remove any extra code, duplicate types, or unused methods that weren\x27t in the original VB6 code.\n8. Ensure all methods have full definitions; if body is missing, add a TODO comment or infer from context.\n9. For third-party libraries like Chilkat, add appropriate \x27using Chilkat;\x27 and ensure references are noted (e.g., NuGet: ChilkatDnCore).\n10. Scan for and remove any duplicate or extraneous types (e.g., enums/structs not in original VB6 code, like duplicate EcuGroup or DataElement).\n11. If conflicts remain (e.g., class and enum with same name), remove the inferred one (prefer original class) or rename as \x27_Struct\x27/\x27_Enum\x27.\n12. Ensure every method in ModuleService.cs has a full body; if empty, add \x27// TODO: Implement based on VB6 logic\x27 but prefer inferring from chunks.\n13. Scan all chunks for method bodies and ensure they are included in the final service class.\n14. Scan the VB6 code for global/module-level variables and ensure they are converted to appropriate static properties or fields in a dedicated C# class (e.g., Constants, Globals, or the main service class). If a variable is referenced both inside and outside a method (or if its lifetime in VB6 is beyond a single method), ensure it is declared at the class/static level in C#. This prevents loss of global/module-level state in conversion.\nChunks:\n"
    ++ combineChunksList chunks
    ++ "\n\nReturn JSON structure:\n\x7b\n  \"Constants.cs\": \"C# code for constants class\",\n  \"ModuleService.cs\": \"C# code for service class\",\n  \"IModuleService.cs\": \"C# code for service interface\"\n\x7d\n"

/-- `VB6Converter.combine_converted_chunks` (`api` is
`self.call_azure_openai` at 16000 max tokens). -/
def combine_converted_chunks (api : String → PyJson) (chunks : List PyJson)
    (filename namespace2 : String) : PyJson :=
  api (combinePromptOf chunks filename namespace2)

/-! ## Unit conversion: `convert_bas_file` and `convert_cls_file` -/

/-- `content.split(chr(10))` (plain split, keeping empty pieces). -/
def splitNlGo : List Char → List (List Char)
  | [] => [[]]
  | '\n' :: t => [] :: splitNlGo t
  | c :: t =>
    match splitNlGo t with
    | h :: r => (c :: h) :: r
    | [] => [[c]]

def pySplitNl (s : String) : List String := (splitNlGo s.data).map (fun l => ⟨l⟩)

/-- One anchored attempt of `Attribute VB_Name = "([^"]+)"`. -/
def attrNameAt (l : List Char) : Option (List Char) :=
  match dropLit "Attribute VB_Name = \"".data l with
  | some u =>
    if 1 ≤ (u.takeWhile (fun d => ¬(d = '"'))).length then
      match u.dropWhile (fun d => ¬(d = '"')) with
      | '"' :: _ => some (u.takeWhile (fun d => ¬(d = '"')))
      | _ => none
    else none
  | none => none

def attrNameSearch : List Char → Option (List Char)
  | [] => none
  | c :: t =>
    match attrNameAt (c :: t) with
    | some g => some g
    | none => attrNameSearch t

def scanAttrLines : List String → Option String
  | [] => none
  | line :: rest =>
    if "Attribute VB_Name =".data.isPrefixOf (pyStripChars line.data) then
      match attrNameSearch line.data with
      | some g => some ⟨g⟩
      | none => scanAttrLines rest
    else scanAttrLines rest

/-- `line.split()` (whitespace split, no empty words). -/
def pySplitWsGo : Nat → List Char → List (List Char)
  | 0, _ => []
  | _, [] => []
  | fuel + 1, c :: t =>
    if isPyWs c then pySplitWsGo fuel t
    else (c :: t.takeWhile (fun d => ¬(isPyWs d = true)))
      :: pySplitWsGo fuel (t.dropWhile (fun d => ¬(isPyWs d = true)))

def pySplitWs (s : String) : List (List Char) := pySplitWsGo s.data.length s.data

def findClassWord : List (List Char) → Option (List Char)
  | [] => none
  | w :: rest =>
    if w = "Class".data then
      match rest with
      | n :: _ => some n
      | [] => none
    else findClassWord rest

def scanClassLines : List String → Option String
  | [] => none
  | line :: rest =>
    if containsSub line.data "Class".data
        && (containsSub line.data "Public".data || containsSub line.data "Private".data) then
      match findClassWord (pySplitWs line) with
      | some w => some ⟨w⟩
      | none => scanClassLines rest
    else scanClassLines rest

/-- `VB6Converter.extract_class_name`. -/
def extract_class_name (content : String) : String :=
  match scanAttrLines ((pySplitNl content).take 20) with
  | some n => n
  | none =>
    match scanClassLines ((pySplitNl content).take 50) with
    | some n => n
    | none => "UnknownClass"

/-- `VB6Converter.classify_cls_purpose` (computed by `convert_cls_file`
but only logged). -/
def classify_cls_purpose (content : String) : String :=
  let counts := (pySplitlines content).foldl (fun (acc : Nat × Nat × Bool) line =>
    if ["Public Sub", "Private Sub", "Public Function", "Private Function"].any
        (fun kw => containsSub (pyStrip line).data kw.data) then
      (acc.1 + 1, acc.2.1, acc.2.2)
    else if ["Property Get", "Property Let", "Property Set"].any
        (fun kw => containsSub (pyStrip line).data kw.data) then
      (acc.1, acc.2.1 + 1, acc.2.2)
    else if containsSub (pyStrip line).data "Declare".data
        && (containsSub (pyStrip line).data "Function".data
          || containsSub (pyStrip line).data "Sub".data) then
      (acc.1, acc.2.1, true)
    else acc) (0, 0, false)
  if counts.2.2 || 2 < counts.1 then "service"
  else if counts.1 < counts.2.1 then "model"
  else "model"

/-- Python truthiness of a JSON value (`if part and ...`). -/
def pyTruthy : PyJson → Bool
  | .null => false
  | .bool b => b
  | .int n => ¬(n = 0)
  | .numF _ => true
  | .str s => ¬(s = "")
  | .arr [] => false
  | .arr (_ :: _) => true
  | .obj [] => false
  | .obj (_ :: _) => true

/-- `re.search(r'\x7b\s*[^\x7d]+\s*\x7d', code) is not None`: some brace
pair with at least one character between. -/
def hasBraceContent : List Char → Bool
  | [] => false
  | '{' :: t =>
    (match t.dropWhile (fun d => ¬(d = '}')) with
     | '}' :: _ =>
       if 1 ≤ (t.takeWhile (fun d => ¬(d = '}'))).length then true else hasBraceContent t
     | _ => hasBraceContent t)
  | _ :: t => hasBraceContent t

/-- The recombination outputs carry string code under each key. -/
def strOfJ : PyJson → String
  | .str s => s
  | _ => ""

/-- The shared tail of both unit converters: skip the incompleteness
scan when the combined result carries an error; otherwise re-request the
whole unit with the fallback prompt when any .cs value has no
non-trivially braced block. -/
def incompleteAfter (api : String → PyJson) (combined : PyJson) (fallbackPrompt : String) :
    PyJson :=
  if pyInB "error" combined then combined
  else
    match combined with
    | .obj ms =>
      if ms.any (fun kv => endsWithCs kv.1 && !(hasBraceContent (strOfJ kv.2).data)) then
        api fallbackPrompt
      else combined
    | _ => combined

/-- `[part for part in parts if part and "error" not in part]`. -/
def goodParts (parts : List PyJson) : List PyJson :=
  parts.filter (fun p => pyTruthy p && !(pyInB "error" p))

def basVarsFn (chunks : List String) (namespace2 : String) (i : Nat) :
    List (String × String) :=
  [("chunk_number", natRepr (i + 1)), ("total_chunks", natRepr chunks.length),
   ("previous_context", ""), ("vb6_code", chunks.getD i ""), ("namespace", namespace2)]

def clsVarsFn (chunks : List String) (namespace2 class_name : String) (i : Nat) :
    List (String × String) :=
  [("chunk_number", natRepr (i + 1)), ("total_chunks", natRepr chunks.length),
   ("previous_context", ""), ("vb6_code", chunks.getD i ""), ("namespace", namespace2),
   ("class_name", class_name)]

def basParts (api : String → PyJson) (content namespace2 : String) : List PyJson :=
  convert_chunks_sequential api promptChunkConverter
    (basVarsFn (chunk_large_file content 6000 "bas") namespace2)
    (chunk_large_file content 6000 "bas")

def clsParts (api : String → PyJson) (content namespace2 class_name : String) : List PyJson :=
  convert_chunks_sequential api promptClassChunkConverter
    (clsVarsFn (chunk_large_file content 6000 "cls") namespace2 class_name)
    (chunk_large_file content 6000 "cls")

/-- `VB6Converter.convert_bas_file` over the abstracted driver `api`. -/
def convert_bas_file (api : String → PyJson) (content filename namespace2 : String) : PyJson :=
  if content = "" ∨ pyStrip content = "" then
    .obj [("error", .str ("Empty content in " ++ filename))]
  else if 15000 < content.data.length then
    match goodParts (basParts api content namespace2) with
    | [] => .obj [("error", .str ("All chunks failed for " ++ filename))]
    | g :: gs =>
      incompleteAfter api
        (combine_converted_chunks api (g :: gs) filename namespace2)
        (pyFormat promptModuleBas [("vb6_code", content), ("namespace", namespace2)])
  else
    incompleteAfter api
      (api (pyFormat promptModuleBas [("vb6_code", content), ("namespace", namespace2)]))
      (pyFormat promptModuleBas [("vb6_code", content), ("namespace", namespace2)])

def objOfStrs (d : List (String × String)) : PyJson :=
  .obj (d.map (fun kv => (kv.1, .str kv.2)))

/-- `VB6Converter.convert_cls_file` over the abstracted driver `api`. -/
def convert_cls_file (api : String → PyJson) (content filename namespace2 : String) : PyJson :=
  if content = "" ∨ pyStrip content = "" then
    .obj [("error", .str ("Empty content in " ++ filename))]
  else if 12000 < content.data.length then
    match goodParts (clsParts api content namespace2 (extract_class_name content)) with
    | [] => .obj [("error", .str ("All chunks failed for " ++ filename))]
    | g :: gs =>
      incompleteAfter api
        (objOfStrs (merge_class_chunks_locally (g :: gs)
          filename (extract_class_name content) namespace2))
        (pyFormat promptClassCls [("vb6_code", content), ("namespace", namespace2)])
  else
    incompleteAfter api
      (api (pyFormat promptClassCls [("vb6_code", content), ("namespace", namespace2)]))
      (pyFormat promptClassCls [("vb6_code", content), ("namespace", namespace2)])

theorem goodParts_nil_iff (parts : List PyJson) :
    goodParts parts = []
      ↔ ∀ p ∈ parts, ¬(pyTruthy p = true ∧ pyInB "error" p = false) := by
  unfold goodParts
  rw [List.filter_eq_nil]
  constructor
  · intro h p hp hc
    exact h p hp (by simp [hc.1, hc.2])
  · intro h p hp hb
    simp only [Bool.and_eq_true, Bool.not_eq_true'] at hb
    exact h p hp hb

/-- C9: on the chunked path of both unit converters, the unit-level
result is the all-chunks-failed marker exactly when every chunk result
is falsy or carries the error marker; when at least one chunk survives
the filter, the unit proceeds to recombination (remote combine for .bas,
local merge for .cls) followed by the incompleteness check, rather than
failing. -/
theorem C9_unit_failure_policy (api : String → PyJson) (content filename namespace2 : String)
    (h1 : ¬(content = "")) (h2 : ¬(pyStrip content = "")) :
    ((goodParts (basParts api content namespace2) = []
        ↔ ∀ p ∈ basParts api content namespace2,
            ¬(pyTruthy p = true ∧ pyInB "error" p = false)) ∧
      (15000 < content.data.length →
        (goodParts (basParts api content namespace2) = [] →
          convert_bas_file api content filename namespace2
            = .obj [("error", .str ("All chunks failed for " ++ filename))]) ∧
        (¬(goodParts (basParts api content namespace2) = []) →
          convert_bas_file api content filename namespace2
            = incompleteAfter api
                (combine_converted_chunks api (goodParts (basParts api content namespace2))
                  filename namespace2)
                (pyFormat promptModuleBas [("vb6_code", content), ("namespace", namespace2)])))) ∧
    ((goodParts (clsParts api content namespace2 (extract_class_name content)) = []
        ↔ ∀ p ∈ clsParts api content namespace2 (extract_class_name content),
            ¬(pyTruthy p = true ∧ pyInB "error" p = false)) ∧
      (12000 < content.data.length →
        (goodParts (clsParts api content namespace2 (extract_class_name content)) = [] →
          convert_cls_file api content filename namespace2
            = .obj [("error", .str ("All chunks failed for " ++ filename))]) ∧
        (¬(goodParts (clsParts api content namespace2 (extract_class_name content)) = []) →
          convert_cls_file api content filename namespace2
            = incompleteAfter api
                (objOfStrs (merge_class_chunks_locally
                  (goodParts (clsParts api content namespace2 (extract_class_name content)))
                  filename (extract_class_name content) namespace2))
                (pyFormat promptClassCls [("vb6_code", content), ("namespace", namespace2)])))) := by
  have hguard : ¬(content = "" ∨ pyStrip content = "") := by
    intro h
    rcases h with h | h
    · exact h1 h
    · exact h2 h
  constructor
  · refine ⟨goodParts_nil_iff _, ?_⟩
    intro hlen
    constructor
    · intro hg
      unfold convert_bas_file
      rw [if_neg hguard, if_pos hlen, hg]
    · intro hg
      rcases hgp : goodParts (basParts api content namespace2) with _ | ⟨g, gs⟩
      · exact absurd hgp hg
      · unfold convert_bas_file
        rw [if_neg hguard, if_pos hlen, hgp]
  · refine ⟨goodParts_nil_iff _, ?_⟩
    intro hlen
    constructor
    · intro hg
      unfold convert_cls_file
      rw [if_neg hguard, if_pos hlen, hg]
    · intro hg
      rcases hgp : goodParts (clsParts api content namespace2 (extract_class_name content))
        with _ | ⟨g, gs⟩
      · exact absurd hgp hg
      · unfold convert_cls_file
        rw [if_neg hguard, if_pos hlen, hgp]

theorem splitlinesGo_noterm : ∀ (l acc : List Char), (∀ c ∈ l, isLineTerm c = false) →
    (¬(l = []) ∨ ¬(acc = [])) → splitlinesGo acc l = [acc.reverse ++ l] := by
  intro l
  induction l with
  | nil =>
    intro acc _ h2
    rcases h2 with h2 | h2
    · exact absurd rfl h2
    · rw [splitlinesGo.eq_1, if_neg (by simpa using h2)]
      simp
  | cons c t ih =>
    intro acc h1 _
    have hct : isLineTerm c = false := h1 c (by simp)
    have hcr : ¬(c = '\x0d') := by
      intro hq
      rw [hq] at hct
      exact absurd hct (by decide)
    rw [splitlinesGo.eq_2, if_neg hcr, if_neg (by simp [hct])]
    rw [ih (c :: acc) (fun d hd => h1 d (by simp [hd])) (Or.inr (by simp))]
    simp

theorem flatten_singleton {α : Type} (CL : List (List α)) (x : α)
    (h : CL.flatten = [x]) (hne : ∀ c ∈ CL, c ≠ []) : CL = [[x]] := by
  cases CL with
  | nil => simp at h
  | cons c rest =>
    cases c with
    | nil => exact absurd rfl (hne [] (by simp))
    | cons y ys =>
      rw [List.flatten_cons, List.cons_append] at h
      obtain ⟨hy, htail⟩ := List.cons.inj h
      obtain ⟨hys, hfl⟩ := List.append_eq_nil.mp htail
      have hrest : rest = [] := by
        cases rest with
        | nil => rfl
        | cons c2 r2 =>
          exfalso
          rcases hc2 : c2 with _ | ⟨z, zs⟩
          · exact absurd hc2 (hne c2 (by simp))
          · rw [hc2, List.flatten_cons, List.cons_append] at hfl
            exact absurd hfl (by simp)
      rw [hy, hys, hrest]

/-- Witness: a 15001-character unit whose every chunk fails is marked
all-chunks-failed by both converters. -/
theorem C9_unit_failure_policy_witness :
    ¬((⟨List.replicate 15001 'a'⟩ : String) = "") ∧
    ¬(pyStrip ⟨List.replicate 15001 'a'⟩ = "") ∧
    15000 < (⟨List.replicate 15001 'a'⟩ : String).data.length ∧
    12000 < (⟨List.replicate 15001 'a'⟩ : String).data.length ∧
    goodParts (basParts (fun _ => .obj [("error", .str "x")]) ⟨List.replicate 15001 'a'⟩ "NS")
      = [] ∧
    convert_bas_file (fun _ => .obj [("error", .str "x")]) ⟨List.replicate 15001 'a'⟩
        "M.bas" "NS"
      = .obj [("error", .str ("All chunks failed for " ++ "M.bas"))] ∧
    convert_cls_file (fun _ => .obj [("error", .str "x")]) ⟨List.replicate 15001 'a'⟩
        "C.cls" "NS"
      = .obj [("error", .str ("All chunks failed for " ++ "C.cls"))] := by
  have hdata : ((⟨List.replicate 15001 'a'⟩ : String).data : List Char)
      = List.replicate 15001 'a' := rfl
  have hrep : List.replicate 15001 'a' = 'a' :: List.replicate 15000 'a' := by
    rw [show (15001 : Nat) = 15000 + 1 from rfl, List.replicate_succ]
  have hrep2 : List.replicate 15001 'a' = List.replicate 15000 'a' ++ ['a'] := by
    rw [show (15001 : Nat) = 15000 + 1 from rfl, List.replicate_succ']
  have hne : ¬((⟨List.replicate 15001 'a'⟩ : String) = "") := by
    intro h
    have h3 := congrArg String.data h
    rw [hdata, show (("" : String).data : List Char) = [] from rfl, hrep] at h3
    exact absurd h3 (List.cons_ne_nil _ _)
  have hhead : ∀ c, (List.replicate 15001 'a').head? = some c → isPyWs c = false := by
    intro c hc
    rw [hrep] at hc
    simp only [List.head?_cons, Option.some.injEq] at hc
    rw [← hc]
    decide
  have hlast : ∀ c, (List.replicate 15001 'a').getLast? = some c → isPyWs c = false := by
    intro c hc
    rw [hrep2, List.getLast?_concat] at hc
    simp only [Option.some.injEq] at hc
    rw [← hc]
    decide
  have hstrip : pyStrip (⟨List.replicate 15001 'a'⟩ : String) = ⟨List.replicate 15001 'a'⟩ := by
    unfold pyStrip
    rw [hdata, pyStripChars_id _ hhead hlast]
  have hstripne : ¬(pyStrip (⟨List.replicate 15001 'a'⟩ : String) = "") := by
    rw [hstrip]
    exact hne
  have hlen : 15000 < (⟨List.replicate 15001 'a'⟩ : String).data.length := by
    rw [hdata, List.length_replicate]
    omega
  have hlen12 : 12000 < (⟨List.replicate 15001 'a'⟩ : String).data.length := by
    rw [hdata, List.length_replicate]
    omega
  have hterm : ∀ c ∈ List.replicate 15001 'a', isLineTerm c = false := by
    intro c hc
    rw [List.eq_of_mem_replicate hc]
    decide
  have hsplit : pySplitlines ⟨List.replicate 15001 'a'⟩ = [⟨List.replicate 15001 'a'⟩] := by
    unfold pySplitlines
    rw [hdata, splitlinesGo_noterm (List.replicate 15001 'a') [] hterm
      (Or.inl (by rw [hrep]; exact List.cons_ne_nil _ _))]
    rfl
  have hchunk : ∀ ft : String, chunk_large_file ⟨List.replicate 15001 'a'⟩ 6000 ft
      = [⟨List.replicate 15001 'a'⟩] := by
    intro ft
    have hfl := chunkLargeFileLists_flatten ⟨List.replicate 15001 'a'⟩ 6000 ft
    have hsingle : chunkLargeFileLists ⟨List.replicate 15001 'a'⟩ 6000 ft
        = [[⟨List.replicate 15001 'a'⟩]] := by
      refine flatten_singleton _ _ ?_ hfl.2
      rw [hfl.1, hsplit]
    unfold chunk_large_file
    rw [hsingle]
    rfl
  have hbas : basParts (fun _ => .obj [("error", .str "x")]) ⟨List.replicate 15001 'a'⟩ "NS"
      = [.obj [("error", .str "x")]] := by
    unfold basParts
    rw [hchunk "bas"]
    rfl
  have hcls : clsParts (fun _ => .obj [("error", .str "x")]) ⟨List.replicate 15001 'a'⟩ "NS"
      (extract_class_name ⟨List.replicate 15001 'a'⟩) = [.obj [("error", .str "x")]] := by
    unfold clsParts
    rw [hchunk "cls"]
    rfl
  have hgb : goodParts (basParts (fun _ => .obj [("error", .str "x")])
      ⟨List.replicate 15001 'a'⟩ "NS") = [] := by
    rw [hbas]
    rfl
  have hgc : goodParts (clsParts (fun _ => .obj [("error", .str "x")])
      ⟨List.replicate 15001 'a'⟩ "NS" (extract_class_name ⟨List.replicate 15001 'a'⟩)) = [] := by
    rw [hcls]
    rfl
  refine ⟨hne, hstripne, hlen, hlen12, hgb, ?_, ?_⟩
  · exact ((C9_unit_failure_policy (fun _ => .obj [("error", .str "x")])
      ⟨List.replicate 15001 'a'⟩ "M.bas" "NS" hne hstripne).1.2 hlen).1 hgb
  · exact ((C9_unit_failure_policy (fun _ => .obj [("error", .str "x")])
      ⟨List.replicate 15001 'a'⟩ "C.cls" "NS" hne hstripne).2.2 hlen12).1 hgc

/-! ### Fence safety: in text accepted by the JSON parser no backtick is
adjacent to a newline, so neither fence-strip regex can fire inside it -/

/-- The adjacent pair `a, b` cannot take part in a fence match: it is not
a newline followed by a backtick nor a backtick followed by a newline. -/
def okPair (a b : Char) : Bool :=
  ¬((a = '\n' ∧ b = '`') ∨ (a = '`' ∧ b = '\n'))

/-- Every adjacent pair of the list satisfies `okPair`. -/
def pairsOK : List Char → Bool
  | [] => true
  | [_] => true
  | a :: b :: t => okPair a b && pairsOK (b :: t)

/-- A well-behaved span of parsed text: fence-safe adjacent pairs and no
backtick at either end. -/
def spanOK (l : List Char) : Prop :=
  pairsOK l = true ∧ (∀ c, l.head? = some c → ¬(c = '`')) ∧
    (∀ c, l.getLast? = some c → ¬(c = '`'))

theorem getLast?_cons_ne_nil (c : Char) (l : List Char) (h : l ≠ []) :
    (c :: l).getLast? = l.getLast? := by
  cases l with
  | nil => exact absurd rfl h
  | cons d ds => exact List.getLast?_cons_cons

theorem okPair_of_no_bt (a b : Char) (ha : ¬(a = '`')) (hb : ¬(b = '`')) :
    okPair a b = true := by
  unfold okPair
  simp [ha, hb]

theorem okPair_of_no_nl (a b : Char) (ha : ¬(a = '\n')) (hb : ¬(b = '\n')) :
    okPair a b = true := by
  unfold okPair
  simp [ha, hb]

theorem pairsOK_cons (a b : Char) (t : List Char) (h : pairsOK (a :: b :: t) = true) :
    okPair a b = true ∧ pairsOK (b :: t) = true := by
  rw [pairsOK] at h
  exact And.intro (Bool.and_elim_left h) (Bool.and_elim_right h)

theorem pairsOK_tail (c : Char) (t : List Char) (h : pairsOK (c :: t) = true) :
    pairsOK t = true := by
  cases t with
  | nil => rfl
  | cons b t2 => exact (pairsOK_cons c b t2 h).2

theorem pairsOK_append_right (a b : List Char) (h : pairsOK (a ++ b) = true) :
    pairsOK b = true := by
  induction a with
  | nil => exact h
  | cons x t ih =>
    rw [List.cons_append] at h
    exact ih (pairsOK_tail x (t ++ b) h)

theorem pairsOK_append (a b : List Char) (ha : pairsOK a = true) (hb : pairsOK b = true)
    (hj : ∀ x y, a.getLast? = some x → b.head? = some y → okPair x y = true) :
    pairsOK (a ++ b) = true := by
  induction a with
  | nil => exact hb
  | cons x t ih =>
    cases t with
    | nil =>
      cases b with
      | nil => rfl
      | cons y b2 =>
        rw [List.singleton_append, pairsOK]
        rw [hj x y rfl rfl, hb]
        rfl
    | cons z t2 =>
      rw [List.cons_append, List.cons_append, pairsOK]
      have hok : okPair x z = true := (pairsOK_cons x z t2 ha).1
      have hrest : pairsOK ((z :: t2) ++ b) = true := by
        refine ih (pairsOK_tail x (z :: t2) ha) ?_
        intro u v hu hv
        refine hj u v ?_ hv
        rw [getLast?_cons_ne_nil x (z :: t2) (by simp)]
        exact hu
      rw [List.cons_append] at hrest
      rw [hok, hrest]
      rfl

theorem pairsOK_of_no_bt (l : List Char) (h : '`' ∉ l) : pairsOK l = true := by
  induction l with
  | nil => rfl
  | cons a t ih =>
    cases t with
    | nil => rfl
    | cons b t2 =>
      rw [pairsOK]
      rw [okPair_of_no_bt a b (fun hq => h (by rw [hq]; simp))
        (fun hq => h (by rw [hq]; simp)), ih (fun hq => h (List.mem_cons_of_mem a hq))]
      rfl

theorem pairsOK_of_no_nl (l : List Char) (h : '\n' ∉ l) : pairsOK l = true := by
  induction l with
  | nil => rfl
  | cons a t ih =>
    cases t with
    | nil => rfl
    | cons b t2 =>
      rw [pairsOK]
      rw [okPair_of_no_nl a b (fun hq => h (by rw [hq]; simp))
        (fun hq => h (by rw [hq]; simp)), ih (fun hq => h (List.mem_cons_of_mem a hq))]
      rfl

theorem spanOK_nil : spanOK [] := by
  refine ⟨rfl, ?_, ?_⟩ <;> intro c hc <;> simp at hc

theorem spanOK_single (c : Char) (h : ¬(c = '`')) : spanOK [c] := by
  refine ⟨rfl, ?_, ?_⟩ <;> intro d hd <;> simp at hd <;> exact hd ▸ h

theorem spanOK_of_no_bt (l : List Char) (h : '`' ∉ l) : spanOK l := by
  refine ⟨pairsOK_of_no_bt l h, ?_, ?_⟩
  · intro c hc hq
    rw [hq] at hc
    exact h (List.mem_of_mem_head? hc)
  · intro c hc hq
    rw [hq] at hc
    have : '`' ∈ l := by
      have h2 := List.getLast?_isSome.mp (by rw [hc]; rfl)
      rcases List.exists_cons_of_ne_nil h2 with ⟨d, t, hd⟩
      subst hd
      rw [List.getLast?_eq_getLast _ (by simp), Option.some.injEq] at hc
      rw [← hc]
      exact List.getLast_mem _
    exact h this

theorem spanOK_of_no_nl (l : List Char) (hnl : '\n' ∉ l)
    (hh : ∀ c, l.head? = some c → ¬(c = '`'))
    (hl : ∀ c, l.getLast? = some c → ¬(c = '`')) : spanOK l :=
  ⟨pairsOK_of_no_nl l hnl, hh, hl⟩

theorem spanOK_append (a b : List Char) (ha : spanOK a) (hb : spanOK b) :
    spanOK (a ++ b) := by
  obtain ⟨ha1, ha2, ha3⟩ := ha
  obtain ⟨hb1, hb2, hb3⟩ := hb
  refine ⟨pairsOK_append a b ha1 hb1 ?_, ?_, ?_⟩
  · intro x y hx hy
    exact okPair_of_no_bt x y (ha3 x hx) (hb2 y hy)
  · intro c hc
    cases a with
    | nil => exact hb2 c (by simpa using hc)
    | cons x t =>
      rw [List.cons_append, List.head?_cons] at hc
      exact ha2 c (by rw [List.head?_cons]; exact hc)
  · intro c hc
    cases b with
    | nil =>
      rw [List.append_nil] at hc
      exact ha3 c hc
    | cons y t =>
      rw [List.getLast?_append_cons] at hc
      exact hb3 c (by rw [← hc])

/-! ### Spans consumed by the JSON parser are fence-safe -/

theorem hexVal_ne_nl (c : Char) (n : Nat) (h : hexVal c = some n) : ¬(c = '\n') := by
  intro hc
  rw [hc, show hexVal '\n' = none from by decide] at h
  cases h

theorem hex4Val_ne_nl (h1 h2 h3 h4 : Char) (n : Nat) (h : hex4Val h1 h2 h3 h4 = some n) :
    ¬(h1 = '\n') ∧ ¬(h2 = '\n') ∧ ¬(h3 = '\n') ∧ ¬(h4 = '\n') := by
  unfold hex4Val at h
  rcases e1 : hexVal h1 with _ | n1 <;> rw [e1] at h
  · cases h
  rcases e2 : hexVal h2 with _ | n2 <;> rw [e2] at h
  · cases h
  rcases e3 : hexVal h3 with _ | n3 <;> rw [e3] at h
  · cases h
  rcases e4 : hexVal h4 with _ | n4 <;> rw [e4] at h
  · cases h
  exact ⟨hexVal_ne_nl h1 n1 e1, hexVal_ne_nl h2 n2 e2,
    hexVal_ne_nl h3 n3 e3, hexVal_ne_nl h4 n4 e4⟩

theorem simpleEscape_ne_nl (e c : Char) (h : simpleEscape e = some c) : ¬(e = '\n') := by
  intro he
  rw [he, show simpleEscape '\n' = none from by decide] at h
  cases h

theorem dropLit_some (pat l r : List Char) (h : dropLit pat l = some r) : l = pat ++ r := by
  unfold dropLit at h
  by_cases hp : pat.isPrefixOf l = true
  · rw [if_pos hp] at h
    obtain ⟨u, hu⟩ := List.isPrefixOf_iff_prefix.mp hp
    rw [Option.some.injEq] at h
    rw [← hu, List.drop_left] at h
    rw [← hu, h]
  · rw [if_neg hp] at h
    cases h

/-- The span a successful string-body parse consumes: it contains no raw
newline and ends with the closing quote. -/
theorem parseStringGo_span : ∀ (pend : Option Nat) (l : List Char), ∀ cs rest : List Char,
    parseStringGo pend l = some (cs, rest) →
    ∃ pre, l = pre ++ rest ∧ '\n' ∉ pre ∧ pre.getLast? = some '"' := by
  intro pend l
  induction pend, l using parseStringGo.induct with
  | case1 val =>
    intro cs rest h
    rw [parseStringGo.eq_1] at h
    cases h
  | case2 hi h1 h2 h3 h4 t lo hhex hlow cs0 r0 hrec ih =>
    intro cs rest h
    rw [parseStringGo.eq_2] at h
    simp only [hhex, hlow, if_true, hrec, Option.some.injEq, Prod.mk.injEq] at h
    obtain ⟨pre, hpre, hnl, hlast⟩ := ih cs0 r0 hrec
    obtain ⟨hn1, hn2, hn3, hn4⟩ := hex4Val_ne_nl h1 h2 h3 h4 lo hhex
    refine ⟨'\\' :: 'u' :: h1 :: h2 :: h3 :: h4 :: pre, ?_, ?_, ?_⟩
    · rw [← h.2]
      simp [hpre]
    · simp only [List.mem_cons]
      intro hq
      rcases hq with hq | hq | hq | hq | hq | hq | hq
      · exact absurd hq.symm (by decide)
      · exact absurd hq.symm (by decide)
      · exact hn1 hq.symm
      · exact hn2 hq.symm
      · exact hn3 hq.symm
      · exact hn4 hq.symm
      · exact hnl hq
    · have hne : pre ≠ [] := by
        intro hq
        rw [hq] at hlast
        cases hlast
      rw [getLast?_cons_ne_nil _ _ (by simp), getLast?_cons_ne_nil _ _ (by simp),
        getLast?_cons_ne_nil _ _ (by simp), getLast?_cons_ne_nil _ _ (by simp),
        getLast?_cons_ne_nil _ _ (by simp), getLast?_cons_ne_nil _ _ hne]
      exact hlast
  | case3 hi h1 h2 h3 h4 t lo hhex hlow hrec ih =>
    intro cs rest h
    rw [parseStringGo.eq_2] at h
    simp only [hhex, hlow, if_true, hrec] at h
    exact Option.noConfusion h
  | case4 hi h1 h2 h3 h4 t lo hhex hlow =>
    intro cs rest h
    rw [parseStringGo.eq_2] at h
    simp only [hhex, hlow, Bool.false_eq_true, if_false] at h
    exact Option.noConfusion h
  | case5 hi h1 h2 h3 h4 t hhex =>
    intro cs rest h
    rw [parseStringGo.eq_2] at h
    simp only [hhex] at h
    exact Option.noConfusion h
  | case6 val hd tl hex =>
    intro cs rest h
    rw [parseStringGo.eq_3 val hd tl hex] at h
    cases h
  | case7 =>
    intro cs rest h
    rw [parseStringGo.eq_4] at h
    cases h
  | case8 t =>
    intro cs rest h
    rw [parseStringGo.eq_5, Option.some.injEq, Prod.mk.injEq] at h
    refine ⟨['"'], ?_, by decide, rfl⟩
    rw [← h.2]
    rfl
  | case9 h1 h2 h3 h4 t lo hhex hhi ih =>
    intro cs rest h
    rw [parseStringGo.eq_6] at h
    simp only [hhex, hhi, if_true] at h
    obtain ⟨pre, hpre, hnl, hlast⟩ := ih cs rest h
    obtain ⟨hn1, hn2, hn3, hn4⟩ := hex4Val_ne_nl h1 h2 h3 h4 lo hhex
    refine ⟨'\\' :: 'u' :: h1 :: h2 :: h3 :: h4 :: pre, ?_, ?_, ?_⟩
    · simp [hpre]
    · simp only [List.mem_cons]
      intro hq
      rcases hq with hq | hq | hq | hq | hq | hq | hq
      · exact absurd hq.symm (by decide)
      · exact absurd hq.symm (by decide)
      · exact hn1 hq.symm
      · exact hn2 hq.symm
      · exact hn3 hq.symm
      · exact hn4 hq.symm
      · exact hnl hq
    · have hne : pre ≠ [] := by
        intro hq
        rw [hq] at hlast
        cases hlast
      rw [getLast?_cons_ne_nil _ _ (by simp), getLast?_cons_ne_nil _ _ (by simp),
        getLast?_cons_ne_nil _ _ (by simp), getLast?_cons_ne_nil _ _ (by simp),
        getLast?_cons_ne_nil _ _ (by simp), getLast?_cons_ne_nil _ _ hne]
      exact hlast
  | case10 h1 h2 h3 h4 t lo hhex hhi hlow =>
    intro cs rest h
    rw [parseStringGo.eq_6] at h
    simp only [hhex, hhi, hlow, Bool.false_eq_true, if_true, if_false] at h
    exact Option.noConfusion h
  | case11 h1 h2 h3 h4 t lo hhex hhi hlow cs0 r0 hrec ih =>
    intro cs rest h
    rw [parseStringGo.eq_6] at h
    simp only [hhex, hhi, hlow, Bool.false_eq_true, if_false, hrec, Option.some.injEq, Prod.mk.injEq] at h
    obtain ⟨pre, hpre, hnl, hlast⟩ := ih cs0 r0 hrec
    obtain ⟨hn1, hn2, hn3, hn4⟩ := hex4Val_ne_nl h1 h2 h3 h4 lo hhex
    refine ⟨'\\' :: 'u' :: h1 :: h2 :: h3 :: h4 :: pre, ?_, ?_, ?_⟩
    · rw [← h.2]
      simp [hpre]
    · simp only [List.mem_cons]
      intro hq
      rcases hq with hq | hq | hq | hq | hq | hq | hq
      · exact absurd hq.symm (by decide)
      · exact absurd hq.symm (by decide)
      · exact hn1 hq.symm
      · exact hn2 hq.symm
      · exact hn3 hq.symm
      · exact hn4 hq.symm
      · exact hnl hq
    · have hne : pre ≠ [] := by
        intro hq
        rw [hq] at hlast
        cases hlast
      rw [getLast?_cons_ne_nil _ _ (by simp), getLast?_cons_ne_nil _ _ (by simp),
        getLast?_cons_ne_nil _ _ (by simp), getLast?_cons_ne_nil _ _ (by simp),
        getLast?_cons_ne_nil _ _ (by simp), getLast?_cons_ne_nil _ _ hne]
      exact hlast
  | case12 h1 h2 h3 h4 t lo hhex hhi hlow hrec ih =>
    intro cs rest h
    rw [parseStringGo.eq_6] at h
    simp only [hhex, hhi, hlow, Bool.false_eq_true, if_false, hrec] at h
    exact Option.noConfusion h
  | case13 h1 h2 h3 h4 t hhex =>
    intro cs rest h
    rw [parseStringGo.eq_6] at h
    simp only [hhex] at h
    exact Option.noConfusion h
  | case14 e t hex c0 hesc cs0 r0 hrec ih =>
    intro cs rest h
    rw [parseStringGo.eq_7 e t hex] at h
    simp only [hesc, hrec, Option.some.injEq, Prod.mk.injEq] at h
    obtain ⟨pre, hpre, hnl, hlast⟩ := ih cs0 r0 hrec
    refine ⟨'\\' :: e :: pre, ?_, ?_, ?_⟩
    · rw [← h.2]
      simp [hpre]
    · simp only [List.mem_cons]
      intro hq
      rcases hq with hq | hq | hq
      · exact absurd hq.symm (by decide)
      · exact simpleEscape_ne_nl e c0 hesc hq.symm
      · exact hnl hq
    · have hne : pre ≠ [] := by
        intro hq
        rw [hq] at hlast
        cases hlast
      rw [getLast?_cons_ne_nil _ _ (by simp), getLast?_cons_ne_nil _ _ hne]
      exact hlast
  | case15 e t hex c0 hesc hrec ih =>
    intro cs rest h
    rw [parseStringGo.eq_7 e t hex] at h
    simp only [hesc, hrec] at h
    exact Option.noConfusion h
  | case16 e t hex hesc =>
    intro cs rest h
    rw [parseStringGo.eq_7 e t hex] at h
    simp only [hesc] at h
    exact Option.noConfusion h
  | case17 c0 t hq hu he hlt =>
    intro cs rest h
    rw [parseStringGo.eq_8 c0 t hq hu he] at h
    simp only [hlt, if_true] at h
    exact Option.noConfusion h
  | case18 c0 t hq hu he hlt cs0 r0 hrec ih =>
    intro cs rest h
    rw [parseStringGo.eq_8 c0 t hq hu he] at h
    simp only [hlt, if_false, hrec, Option.some.injEq, Prod.mk.injEq] at h
    obtain ⟨pre, hpre, hnl, hlast⟩ := ih cs0 r0 hrec
    have hcnl : ¬(c0 = '\n') := by
      intro hc
      rw [hc] at hlt
      exact hlt (by decide)
    refine ⟨c0 :: pre, ?_, ?_, ?_⟩
    · rw [← h.2]
      simp [hpre]
    · simp only [List.mem_cons]
      intro hmem
      rcases hmem with hmem | hmem
      · exact hcnl hmem.symm
      · exact hnl hmem
    · have hne : pre ≠ [] := by
        intro hq2
        rw [hq2] at hlast
        cases hlast
      rw [getLast?_cons_ne_nil _ _ hne]
      exact hlast
  | case19 c0 t hq hu he hlt hrec ih =>
    intro cs rest h
    rw [parseStringGo.eq_8 c0 t hq hu he] at h
    simp only [hlt, if_false, hrec] at h
    exact Option.noConfusion h

theorem isDigitChar_ne_bt (c : Char) (h : isDigitChar c = true) : ¬(c = '`') := by
  intro hc
  rw [hc] at h
  exact absurd h (by decide)

theorem numIntPart_span (l ip r : List Char) (h : numIntPart l = some (ip, r)) :
    l = ip ++ r ∧ ip ≠ [] ∧ ∀ c ∈ ip, isDigitChar c = true := by
  cases l with
  | nil =>
    rw [numIntPart.eq_3] at h
    exact Option.noConfusion h
  | cons c t =>
    by_cases hc : c = '0'
    · subst hc
      rw [numIntPart.eq_1, Option.some.injEq, Prod.mk.injEq] at h
      rw [← h.1, ← h.2]
      exact ⟨rfl, by simp, by intro d hd; simp at hd; rw [hd]; decide⟩
    · rw [numIntPart.eq_2 c t (fun hq => hc hq)] at h
      by_cases hd : isDigitChar c = true ∧ ¬c = '0'
      · rw [if_pos hd, Option.some.injEq, Prod.mk.injEq] at h
        rw [← h.1, ← h.2]
        refine ⟨by rw [List.cons_append, List.takeWhile_append_dropWhile], by simp, ?_⟩
        intro d hdm
        rcases List.mem_cons.mp hdm with hdm | hdm
        · rw [hdm]
          exact hd.1
        · exact List.mem_takeWhile_imp hdm
      · rw [if_neg hd] at h
        exact Option.noConfusion h

theorem numFracPart_span (l : List Char) :
    l = (numFracPart l).1 ++ (numFracPart l).2 ∧
      ∀ c ∈ (numFracPart l).1, ¬(c = '\n') ∧ ¬(c = '`') := by
  cases l with
  | nil =>
    exact ⟨rfl, by
      intro c hc
      rw [numFracPart.eq_2 [] (fun t hq => List.noConfusion hq)] at hc
      simp at hc⟩
  | cons c t =>
    by_cases hc : c = '.'
    · subst hc
      rw [numFracPart]
      by_cases hds : t.takeWhile isDigitChar = []
      · rw [if_pos hds]
        exact ⟨rfl, by intro d hd; simp at hd⟩
      · rw [if_neg hds]
        refine ⟨by rw [List.cons_append, List.takeWhile_append_dropWhile], ?_⟩
        intro d hd
        rcases List.mem_cons.mp hd with hd | hd
        · rw [hd]
          exact ⟨by decide, by decide⟩
        · have hdig := List.mem_takeWhile_imp hd
          exact ⟨isDigitChar_ne_nl d hdig, isDigitChar_ne_bt d hdig⟩
    · rw [numFracPart.eq_2 (c :: t)
        (fun t2 hq => hc (List.cons.inj hq).1)]
      exact ⟨rfl, by intro d hd; simp at hd⟩

theorem numExpPart_span (l : List Char) :
    l = (numExpPart l).1 ++ (numExpPart l).2 ∧
      ∀ c ∈ (numExpPart l).1, ¬(c = '\n') ∧ ¬(c = '`') := by
  cases l with
  | nil =>
    rw [numExpPart.eq_3]
    exact ⟨rfl, by intro d hd; simp at hd⟩
  | cons c t =>
    cases t with
    | nil =>
      rw [numExpPart.eq_2, ite_self]
      exact ⟨rfl, by intro d hd; simp at hd⟩
    | cons c1 t1 =>
      rw [numExpPart.eq_1]
      by_cases he : c = 'e' ∨ c = 'E'
      · rw [if_pos he]
        by_cases hs : c1 = '+' ∨ c1 = '-'
        · rw [if_pos hs]
          by_cases hds : t1.takeWhile isDigitChar = []
          · rw [if_pos hds]
            exact ⟨rfl, by intro d hd; simp at hd⟩
          · rw [if_neg hds]
            refine ⟨by
              rw [List.cons_append, List.cons_append, List.takeWhile_append_dropWhile], ?_⟩
            intro d hd
            rcases List.mem_cons.mp hd with hd | hd
            · rcases he with he | he <;> rw [hd, he] <;> exact ⟨by decide, by decide⟩
            rcases List.mem_cons.mp hd with hd | hd
            · rcases hs with hs | hs <;> rw [hd, hs] <;> exact ⟨by decide, by decide⟩
            · have hdig := List.mem_takeWhile_imp hd
              exact ⟨isDigitChar_ne_nl d hdig, isDigitChar_ne_bt d hdig⟩
        · rw [if_neg hs]
          by_cases hds : (c1 :: t1).takeWhile isDigitChar = []
          · rw [if_pos hds]
            exact ⟨rfl, by intro d hd; simp at hd⟩
          · rw [if_neg hds]
            refine ⟨by rw [List.cons_append, List.takeWhile_append_dropWhile], ?_⟩
            intro d hd
            rcases List.mem_cons.mp hd with hd | hd
            · rcases he with he | he <;> rw [hd, he] <;> exact ⟨by decide, by decide⟩
            · have hdig := List.mem_takeWhile_imp hd
              exact ⟨isDigitChar_ne_nl d hdig, isDigitChar_ne_bt d hdig⟩
      · rw [if_neg he]
        exact ⟨rfl, by intro d hd; simp at hd⟩


theorem num_tail_span (t ip r1 : List Char) (hip : numIntPart t = some (ip, r1))
    (fp r2 ep r3 : List Char) (hfp : numFracPart r1 = (fp, r2))
    (hep : numExpPart r2 = (ep, r3)) :
    t = (ip ++ fp ++ ep) ++ r3 ∧ ip ++ fp ++ ep ≠ [] ∧
      '\n' ∉ ip ++ fp ++ ep ∧ '`' ∉ ip ++ fp ++ ep := by
  obtain ⟨hsplit, hne, hdig⟩ := numIntPart_span t ip r1 hip
  obtain ⟨hfs, hfc⟩ := numFracPart_span r1
  obtain ⟨hes, hec⟩ := numExpPart_span r2
  rw [hfp] at hfs hfc
  rw [hep] at hes hec
  dsimp only at hfs hfc hes hec
  refine ⟨?_, ?_, ?_, ?_⟩
  · rw [hsplit, hfs, hes]
    simp [List.append_assoc]
  · intro hq
    rcases List.append_eq_nil.mp hq with ⟨hq1, _⟩
    rcases List.append_eq_nil.mp hq1 with ⟨hq2, _⟩
    exact hne hq2
  · intro hmem
    rcases List.mem_append.mp hmem with hmem | hmem
    · rcases List.mem_append.mp hmem with hmem | hmem
      · exact isDigitChar_ne_nl _ (hdig _ hmem) rfl
      · exact (hfc _ hmem).1 rfl
    · exact (hec _ hmem).1 rfl
  · intro hmem
    rcases List.mem_append.mp hmem with hmem | hmem
    · rcases List.mem_append.mp hmem with hmem | hmem
      · exact isDigitChar_ne_bt _ (hdig _ hmem) rfl
      · exact (hfc _ hmem).2 rfl
    · exact (hec _ hmem).2 rfl

/-- The span a successful number parse consumes: nonempty, no newline, no
backtick. -/
theorem parseNumber_span (l : List Char) (v : PyJson) (rest : List Char)
    (h : parseNumber l = some (v, rest)) :
    ∃ pre, l = pre ++ rest ∧ pre ≠ [] ∧ '\n' ∉ pre ∧ '`' ∉ pre := by
  cases l with
  | nil =>
    rw [parseNumber.eq_2 [] (fun t hq => List.noConfusion hq),
      numIntPart.eq_3] at h
    exact Option.noConfusion h
  | cons c t =>
    by_cases hc : c = '-'
    · subst hc
      rw [parseNumber.eq_1] at h
      rcases hip : numIntPart t with _ | ⟨ip, r1⟩
      · rw [hip] at h
        exact Option.noConfusion h
      rcases hfp : numFracPart r1 with ⟨fp, r2⟩
      rcases hep : numExpPart r2 with ⟨ep, r3⟩
      simp only [hip, hfp, hep] at h
      obtain ⟨hsplit, hne, hnl, hbt⟩ := num_tail_span t ip r1 hip fp r2 ep r3 hfp hep
      have hrest : rest = r3 := by
        by_cases hif : fp = [] ∧ ep = []
        · rw [if_pos hif, Option.some.injEq, Prod.mk.injEq] at h
          exact h.2.symm
        · rw [if_neg hif, Option.some.injEq, Prod.mk.injEq] at h
          exact h.2.symm
      subst hrest
      refine ⟨'-' :: (ip ++ fp ++ ep), by rw [List.cons_append, ← hsplit], by simp, ?_, ?_⟩
      · intro hmem
        rcases List.mem_cons.mp hmem with hmem | hmem
        · exact absurd hmem.symm (by decide)
        · exact hnl hmem
      · intro hmem
        rcases List.mem_cons.mp hmem with hmem | hmem
        · exact absurd hmem.symm (by decide)
        · exact hbt hmem
    · rw [parseNumber.eq_2 (c :: t) (fun t2 hq => hc (List.cons.inj hq).1)] at h
      rcases hip : numIntPart (c :: t) with _ | ⟨ip, r1⟩
      · rw [hip] at h
        exact Option.noConfusion h
      rcases hfp : numFracPart r1 with ⟨fp, r2⟩
      rcases hep : numExpPart r2 with ⟨ep, r3⟩
      simp only [hip, hfp, hep] at h
      obtain ⟨hsplit, hne, hnl, hbt⟩ := num_tail_span (c :: t) ip r1 hip fp r2 ep r3 hfp hep
      have hrest : rest = r3 := by
        by_cases hif : fp = [] ∧ ep = []
        · rw [if_pos hif, Option.some.injEq, Prod.mk.injEq] at h
          exact h.2.symm
        · rw [if_neg hif, Option.some.injEq, Prod.mk.injEq] at h
          exact h.2.symm
      subst hrest
      exact ⟨ip ++ fp ++ ep, hsplit, hne, hnl, hbt⟩

theorem getLast?_append_ne_nil (a b : List Char) (hb : b ≠ []) :
    (a ++ b).getLast? = b.getLast? := by
  cases b with
  | nil => exact absurd rfl hb
  | cons y t => exact List.getLast?_append_cons a y t

theorem pv_nil (f : Nat) : parseValue f [] = none := by
  cases f with
  | zero => exact parseValue.eq_1 []
  | succ f => rfl

theorem pm_nil (f : Nat) : parseMembers f [] = none := by
  cases f with
  | zero => exact parseMembers.eq_1 []
  | succ f => exact parseMembers.eq_3 [] f (fun t hq => List.noConfusion hq)

theorem pi_nil (f : Nat) : parseItems f [] = none := by
  cases f with
  | zero => exact parseItems.eq_1 []
  | succ f =>
    rw [parseItems.eq_2]
    simp only [pv_nil]

theorem skip_decomp (x : List Char) : x = x.takeWhile isJsonWs ++ skipJsonWs x :=
  (List.takeWhile_append_dropWhile isJsonWs x).symm

theorem spanOK_take_ws (x : List Char) : spanOK (x.takeWhile isJsonWs) :=
  spanOK_of_no_bt _ (fun hmem => absurd (List.mem_takeWhile_imp hmem) (by decide))

/-- A successful string parse including its opening quote is a fence-safe
span ending in the closing quote. -/
theorem string_span (t cs r : List Char) (h : parseStringBody t = some (cs, r)) :
    ∃ pre, t = pre ++ r ∧ spanOK ('"' :: pre) ∧ ('"' :: pre).getLast? = some '"' := by
  obtain ⟨pre, hpre, hnl, hlast⟩ := parseStringGo_span none t cs r h
  have hne : pre ≠ [] := by
    intro hq
    rw [hq] at hlast
    cases hlast
  have hlast2 : ('"' :: pre).getLast? = some '"' := by
    rw [getLast?_cons_ne_nil _ _ hne]
    exact hlast
  refine ⟨pre, hpre, ?_, hlast2⟩
  refine spanOK_of_no_nl _ ?_ ?_ ?_
  · intro hmem
    rcases List.mem_cons.mp hmem with hmem | hmem
    · exact absurd hmem.symm (by decide)
    · exact hnl hmem
  · intro c hc
    rw [List.head?_cons, Option.some.injEq] at hc
    rw [← hc]
    decide
  · intro c hc
    rw [hlast2, Option.some.injEq] at hc
    rw [← hc]
    decide

theorem parseNumber_shape (l : List Char) (v : PyJson) (rest : List Char)
    (h : parseNumber l = some (v, rest)) :
    (∃ n, v = PyJson.int n) ∨ (∃ s, v = PyJson.numF s) := by
  cases l with
  | nil =>
    rw [parseNumber.eq_2 [] (fun t hq => List.noConfusion hq), numIntPart.eq_3] at h
    exact Option.noConfusion h
  | cons c t =>
    by_cases hc : c = '-'
    · subst hc
      rw [parseNumber.eq_1] at h
      rcases hip : numIntPart t with _ | ⟨ip, r1⟩
      · rw [hip] at h
        exact Option.noConfusion h
      rcases hfp : numFracPart r1 with ⟨fp, r2⟩
      rcases hep : numExpPart r2 with ⟨ep, r3⟩
      simp only [hip, hfp, hep] at h
      by_cases hif : fp = [] ∧ ep = []
      · rw [if_pos hif, Option.some.injEq, Prod.mk.injEq] at h
        exact Or.inl ⟨_, h.1.symm⟩
      · rw [if_neg hif, Option.some.injEq, Prod.mk.injEq] at h
        exact Or.inr ⟨_, h.1.symm⟩
    · rw [parseNumber.eq_2 (c :: t) (fun t2 hq => hc (List.cons.inj hq).1)] at h
      rcases hip : numIntPart (c :: t) with _ | ⟨ip, r1⟩
      · rw [hip] at h
        exact Option.noConfusion h
      rcases hfp : numFracPart r1 with ⟨fp, r2⟩
      rcases hep : numExpPart r2 with ⟨ep, r3⟩
      simp only [hip, hfp, hep] at h
      by_cases hif : fp = [] ∧ ep = []
      · rw [if_pos hif, Option.some.injEq, Prod.mk.injEq] at h
        exact Or.inl ⟨_, h.1.symm⟩
      · rw [if_neg hif, Option.some.injEq, Prod.mk.injEq] at h
        exact Or.inr ⟨_, h.1.symm⟩

/-- Spans consumed by the JSON parser are fence-safe; object spans open
with a brace and close with a brace, member runs close with the object
brace, item runs with the array bracket. -/
theorem parse_span : ∀ fuel : Nat,
    (∀ l v rest, parseValue fuel l = some (v, rest) →
      ∃ pre, l = pre ++ rest ∧ spanOK pre ∧ pre ≠ [] ∧
        (∀ ms, v = PyJson.obj ms → pre.head? = some '{' ∧ pre.getLast? = some '}')) ∧
    (∀ l ms rest, parseMembers fuel l = some (ms, rest) →
      ∃ pre, l = pre ++ rest ∧ spanOK pre ∧ pre.getLast? = some '}') ∧
    (∀ l vs rest, parseItems fuel l = some (vs, rest) →
      ∃ pre, l = pre ++ rest ∧ spanOK pre ∧ pre.getLast? = some ']') := by
  intro fuel
  induction fuel with
  | zero =>
    refine ⟨?_, ?_, ?_⟩
    · intro l v rest h
      rw [parseValue.eq_1] at h
      exact Option.noConfusion h
    · intro l ms rest h
      rw [parseMembers.eq_1] at h
      exact Option.noConfusion h
    · intro l vs rest h
      rw [parseItems.eq_1] at h
      exact Option.noConfusion h
  | succ fuel ih =>
    obtain ⟨ihv, ihm, ihi⟩ := ih
    refine ⟨?_, ?_, ?_⟩
    · intro l v rest h
      cases l with
      | nil =>
        rw [pv_nil] at h
        exact Option.noConfusion h
      | cons c t =>
        by_cases hq1 : c = '"'
        · subst hq1
          rw [parseValue.eq_2] at h
          rcases hps : parseStringBody t with _ | ⟨cs, r⟩
          · simp only [hps] at h
            exact Option.noConfusion h
          · simp only [hps, Option.some.injEq, Prod.mk.injEq] at h
            obtain ⟨pre, hpre, hspan, hlast⟩ := string_span t cs r hps
            refine ⟨'"' :: pre, ?_, hspan, by simp, ?_⟩
            · rw [← h.2, hpre]
              rfl
            · intro ms hv
              rw [← h.1] at hv
              exact PyJson.noConfusion hv
        by_cases hq2 : c = '{'
        · subst hq2
          rw [parseValue.eq_3] at h
          split at h
          · rename_i r2 heq
            rw [Option.some.injEq, Prod.mk.injEq] at h
            refine ⟨('{' :: t.takeWhile isJsonWs) ++ ['}'], ?_, ?_, by simp, ?_⟩
            · rw [← h.2]
              conv_lhs => rw [skip_decomp t, heq]
              simp
            · exact spanOK_append _ _
                (spanOK_append _ _ (spanOK_single '{' (by decide)) (spanOK_take_ws t))
                (spanOK_single '}' (by decide))
            · intro ms hv
              exact ⟨rfl, List.getLast?_concat _⟩
          · rename_i r heq
            rcases hpm : parseMembers fuel (skipJsonWs t) with _ | ⟨ms2, rest2⟩
            · simp only [hpm] at h
              exact Option.noConfusion h
            · simp only [hpm, Option.some.injEq, Prod.mk.injEq] at h
              obtain ⟨pre_m, hpm2, hspanm, hlastm⟩ := ihm (skipJsonWs t) ms2 rest2 hpm
              have hmne : pre_m ≠ [] := by
                intro hq
                rw [hq] at hlastm
                cases hlastm
              refine ⟨('{' :: t.takeWhile isJsonWs) ++ pre_m, ?_, ?_, by simp, ?_⟩
              · rw [← h.2]
                conv_lhs => rw [skip_decomp t]
                conv_lhs => rw [hpm2]
                simp [List.append_assoc]
              · exact spanOK_append _ _
                  (spanOK_append _ _ (spanOK_single '{' (by decide)) (spanOK_take_ws t))
                  hspanm
              · intro ms hv
                refine ⟨rfl, ?_⟩
                rw [getLast?_append_ne_nil _ _ hmne]
                exact hlastm
        by_cases hq3 : c = '['
        · subst hq3
          rw [parseValue.eq_4] at h
          split at h
          · rename_i r2 heq
            rw [Option.some.injEq, Prod.mk.injEq] at h
            refine ⟨('[' :: t.takeWhile isJsonWs) ++ [']'], ?_, ?_, by simp, ?_⟩
            · rw [← h.2]
              conv_lhs => rw [skip_decomp t, heq]
              simp
            · exact spanOK_append _ _
                (spanOK_append _ _ (spanOK_single '[' (by decide)) (spanOK_take_ws t))
                (spanOK_single ']' (by decide))
            · intro ms hv
              rw [← h.1] at hv
              exact PyJson.noConfusion hv
          · rename_i r heq
            rcases hpi : parseItems fuel (skipJsonWs t) with _ | ⟨vs2, rest2⟩
            · simp only [hpi] at h
              exact Option.noConfusion h
            · simp only [hpi, Option.some.injEq, Prod.mk.injEq] at h
              obtain ⟨pre_i, hpi2, hspani, hlasti⟩ := ihi (skipJsonWs t) vs2 rest2 hpi
              have hine : pre_i ≠ [] := by
                intro hq
                rw [hq] at hlasti
                cases hlasti
              refine ⟨('[' :: t.takeWhile isJsonWs) ++ pre_i, ?_, ?_, by simp, ?_⟩
              · rw [← h.2]
                conv_lhs => rw [skip_decomp t]
                conv_lhs => rw [hpi2]
                simp [List.append_assoc]
              · exact spanOK_append _ _
                  (spanOK_append _ _ (spanOK_single '[' (by decide)) (spanOK_take_ws t))
                  hspani
              · intro ms hv
                rw [← h.1] at hv
                exact PyJson.noConfusion hv
        · rw [parseValue.eq_5 (c :: t) fuel (fun t2 hq => hq1 (List.cons.inj hq).1)
            (fun t2 hq => hq2 (List.cons.inj hq).1)
            (fun t2 hq => hq3 (List.cons.inj hq).1)] at h
          rcases h0 : dropLit "null".data (c :: t) with _ | r0
          · simp only [h0] at h
            rcases h1 : dropLit "true".data (c :: t) with _ | r1
            · simp only [h1] at h
              rcases h2 : dropLit "false".data (c :: t) with _ | r2
              · simp only [h2] at h
                rcases h3 : dropLit "NaN".data (c :: t) with _ | r3
                · simp only [h3] at h
                  rcases h4 : dropLit "Infinity".data (c :: t) with _ | r4
                  · simp only [h4] at h
                    rcases h5 : dropLit "-Infinity".data (c :: t) with _ | r5
                    · simp only [h5] at h
                      obtain ⟨pre, hpre, hne, hnl, hbt⟩ := parseNumber_span _ _ _ h
                      refine ⟨pre, hpre, spanOK_of_no_bt _ hbt, hne, ?_⟩
                      intro ms hv
                      rcases parseNumber_shape _ _ _ h with ⟨n, hn⟩ | ⟨s, hs⟩
                      · rw [hn] at hv
                        exact PyJson.noConfusion hv
                      · rw [hs] at hv
                        exact PyJson.noConfusion hv
                    · simp only [h5, Option.some.injEq, Prod.mk.injEq] at h
                      refine ⟨"-Infinity".data, ?_, spanOK_of_no_bt _ (by decide),
                        by decide, ?_⟩
                      · rw [← h.2]
                        exact dropLit_some _ _ _ h5
                      · intro ms hv
                        rw [← h.1] at hv
                        exact PyJson.noConfusion hv
                  · simp only [h4, Option.some.injEq, Prod.mk.injEq] at h
                    refine ⟨"Infinity".data, ?_, spanOK_of_no_bt _ (by decide),
                      by decide, ?_⟩
                    · rw [← h.2]
                      exact dropLit_some _ _ _ h4
                    · intro ms hv
                      rw [← h.1] at hv
                      exact PyJson.noConfusion hv
                · simp only [h3, Option.some.injEq, Prod.mk.injEq] at h
                  refine ⟨"NaN".data, ?_, spanOK_of_no_bt _ (by decide), by decide, ?_⟩
                  · rw [← h.2]
                    exact dropLit_some _ _ _ h3
                  · intro ms hv
                    rw [← h.1] at hv
                    exact PyJson.noConfusion hv
              · simp only [h2, Option.some.injEq, Prod.mk.injEq] at h
                refine ⟨"false".data, ?_, spanOK_of_no_bt _ (by decide), by decide, ?_⟩
                · rw [← h.2]
                  exact dropLit_some _ _ _ h2
                · intro ms hv
                  rw [← h.1] at hv
                  exact PyJson.noConfusion hv
            · simp only [h1, Option.some.injEq, Prod.mk.injEq] at h
              refine ⟨"true".data, ?_, spanOK_of_no_bt _ (by decide), by decide, ?_⟩
              · rw [← h.2]
                exact dropLit_some _ _ _ h1
              · intro ms hv
                rw [← h.1] at hv
                exact PyJson.noConfusion hv
          · simp only [h0, Option.some.injEq, Prod.mk.injEq] at h
            refine ⟨"null".data, ?_, spanOK_of_no_bt _ (by decide), by decide, ?_⟩
            · rw [← h.2]
              exact dropLit_some _ _ _ h0
            · intro ms hv
              rw [← h.1] at hv
              exact PyJson.noConfusion hv
    · intro l ms rest h
      cases l with
      | nil =>
        rw [pm_nil] at h
        exact Option.noConfusion h
      | cons c t =>
        by_cases hq1 : c = '"'
        · subst hq1
          rw [parseMembers.eq_2] at h
          rcases hps : parseStringBody t with _ | ⟨kcs, r1⟩
          · simp only [hps] at h
            exact Option.noConfusion h
          simp only [hps] at h
          split at h
          · rename_i r3 heq1
            rcases hpv : parseValue fuel (skipJsonWs r3) with _ | ⟨v, r4⟩
            · simp only [hpv] at h
              exact Option.noConfusion h
            simp only [hpv] at h
            split at h
            · rename_i r6 heq2
              rcases hpm2 : parseMembers fuel (skipJsonWs r6) with _ | ⟨ms2, r7⟩
              · simp only [hpm2] at h
                exact Option.noConfusion h
              simp only [hpm2, Option.some.injEq, Prod.mk.injEq] at h
              obtain ⟨pre_s, hpres, hspans, hlasts⟩ := string_span t kcs r1 hps
              obtain ⟨pre_v, hprev, hspanv, hnev, _⟩ := ihv (skipJsonWs r3) v r4 hpv
              obtain ⟨pre_m, hprem, hspanm, hlastm⟩ := ihm (skipJsonWs r6) ms2 r7 hpm2
              have hmne : pre_m ≠ [] := by
                intro hq
                rw [hq] at hlastm
                cases hlastm
              refine ⟨(((((((('"' :: pre_s) ++ r1.takeWhile isJsonWs) ++ [':'])
                  ++ r3.takeWhile isJsonWs) ++ pre_v) ++ r4.takeWhile isJsonWs) ++ [','])
                  ++ r6.takeWhile isJsonWs) ++ pre_m, ?_, ?_, ?_⟩
              · rw [← h.2]
                conv_lhs => rw [hpres]
                conv_lhs => rw [skip_decomp r1, heq1]
                conv_lhs => rw [skip_decomp r3]
                conv_lhs => rw [hprev]
                conv_lhs => rw [skip_decomp r4, heq2]
                conv_lhs => rw [skip_decomp r6]
                conv_lhs => rw [hprem]
                simp [List.append_assoc]
              · refine spanOK_append _ _ ?_ hspanm
                refine spanOK_append _ _ ?_ (spanOK_take_ws r6)
                refine spanOK_append _ _ ?_ (spanOK_single ',' (by decide))
                refine spanOK_append _ _ ?_ (spanOK_take_ws r4)
                refine spanOK_append _ _ ?_ hspanv
                refine spanOK_append _ _ ?_ (spanOK_take_ws r3)
                refine spanOK_append _ _ ?_ (spanOK_single ':' (by decide))
                exact spanOK_append _ _ hspans (spanOK_take_ws r1)
              · rw [getLast?_append_ne_nil _ _ hmne]
                exact hlastm
            · rename_i r6 heq2
              rw [Option.some.injEq, Prod.mk.injEq] at h
              obtain ⟨pre_s, hpres, hspans, hlasts⟩ := string_span t kcs r1 hps
              obtain ⟨pre_v, hprev, hspanv, hnev, _⟩ := ihv (skipJsonWs r3) v r4 hpv
              refine ⟨(((((('"' :: pre_s) ++ r1.takeWhile isJsonWs) ++ [':'])
                  ++ r3.takeWhile isJsonWs) ++ pre_v) ++ r4.takeWhile isJsonWs) ++ ['}'],
                  ?_, ?_, ?_⟩
              · rw [← h.2]
                conv_lhs => rw [hpres]
                conv_lhs => rw [skip_decomp r1, heq1]
                conv_lhs => rw [skip_decomp r3]
                conv_lhs => rw [hprev]
                conv_lhs => rw [skip_decomp r4, heq2]
                simp [List.append_assoc]
              · refine spanOK_append _ _ ?_ (spanOK_single '}' (by decide))
                refine spanOK_append _ _ ?_ (spanOK_take_ws r4)
                refine spanOK_append _ _ ?_ hspanv
                refine spanOK_append _ _ ?_ (spanOK_take_ws r3)
                refine spanOK_append _ _ ?_ (spanOK_single ':' (by decide))
                exact spanOK_append _ _ hspans (spanOK_take_ws r1)
              · exact List.getLast?_concat _
            · exact Option.noConfusion h
          · exact Option.noConfusion h
        · rw [parseMembers.eq_3 (c :: t) fuel (fun t2 hq => hq1 (List.cons.inj hq).1)] at h
          exact Option.noConfusion h
    · intro l vs rest h
      rw [parseItems.eq_2] at h
      rcases hpv : parseValue fuel l with _ | ⟨v, r1⟩
      · simp only [hpv] at h
        exact Option.noConfusion h
      simp only [hpv] at h
      split at h
      · rename_i r3 heq1
        rcases hpi2 : parseItems fuel (skipJsonWs r3) with _ | ⟨vs2, r4⟩
        · simp only [hpi2] at h
          exact Option.noConfusion h
        simp only [hpi2, Option.some.injEq, Prod.mk.injEq] at h
        obtain ⟨pre_v, hprev, hspanv, hnev, _⟩ := ihv l v r1 hpv
        obtain ⟨pre_i, hprei, hspani, hlasti⟩ := ihi (skipJsonWs r3) vs2 r4 hpi2
        have hine : pre_i ≠ [] := by
          intro hq
          rw [hq] at hlasti
          cases hlasti
        refine ⟨(((pre_v ++ r1.takeWhile isJsonWs) ++ [','])
            ++ r3.takeWhile isJsonWs) ++ pre_i, ?_, ?_, ?_⟩
        · rw [← h.2]
          conv_lhs => rw [hprev]
          conv_lhs => rw [skip_decomp r1, heq1]
          conv_lhs => rw [skip_decomp r3]
          conv_lhs => rw [hprei]
          simp [List.append_assoc]
        · refine spanOK_append _ _ ?_ hspani
          refine spanOK_append _ _ ?_ (spanOK_take_ws r3)
          refine spanOK_append _ _ ?_ (spanOK_single ',' (by decide))
          exact spanOK_append _ _ hspanv (spanOK_take_ws r1)
        · rw [getLast?_append_ne_nil _ _ hine]
          exact hlasti
      · rename_i r3 heq1
        rw [Option.some.injEq, Prod.mk.injEq] at h
        obtain ⟨pre_v, hprev, hspanv, hnev, _⟩ := ihv l v r1 hpv
        refine ⟨(pre_v ++ r1.takeWhile isJsonWs) ++ [']'], ?_, ?_, ?_⟩
        · rw [← h.2]
          conv_lhs => rw [hprev]
          conv_lhs => rw [skip_decomp r1, heq1]
          simp [List.append_assoc]
        · exact spanOK_append _ _ (spanOK_append _ _ hspanv (spanOK_take_ws r1))
            (spanOK_single ']' (by decide))
        · exact List.getLast?_concat _
      · exact Option.noConfusion h

/-! ### The fence-strip scanners fix fence-safe text -/

theorem fenceJsonGo_skip (W : List Char) (hW : ∀ c ∈ W, isPyWs c = true) :
    ∀ (flag : Bool) (c : Char) (t : List Char), ¬(c = '`') → isPyWs c = false →
    fenceJsonGo true flag (W ++ c :: t) = c :: fenceJsonGo false (decide (c = '\n')) t := by
  induction W with
  | nil =>
    intro flag c t hbt hws
    rw [List.nil_append, fenceJsonGo.eq_5 flag c t (fun t1 hq _ => hbt hq),
      if_neg (by simp [hws])]
  | cons w W2 ih =>
    intro flag c t hbt hws
    have hw := hW w (by simp)
    have hwbt : ¬(w = '`') := by
      intro hq
      rw [hq] at hw
      exact absurd hw (by decide)
    rw [List.cons_append, fenceJsonGo.eq_5 flag w _ (fun t1 hq _ => hwbt hq), if_pos hw]
    exact ih (fun d hd => hW d (by simp [hd])) _ c t hbt hws

theorem fence_nl_tail (b : Bool) :
    fenceJsonGo false b ('\n' :: '`' :: '`' :: '`' :: []) = '\n' :: '`' :: '`' :: '`' :: [] := by
  rw [fenceJsonGo.eq_3 b '\n' _ (fun t1 hq _ => absurd hq (by decide))]
  rw [show (decide ('\n' = '\n')) = true from by decide]
  rw [fence_bt3]

theorem pyStripChars_ws_core (W1 C W2 : List Char)
    (h1 : ∀ c ∈ W1, isPyWs c = true) (h2 : ∀ c ∈ W2, isPyWs c = true)
    (hCne : C ≠ [])
    (hh : ∀ c, C.head? = some c → isPyWs c = false)
    (hl : ∀ c, C.getLast? = some c → isPyWs c = false) :
    pyStripChars (W1 ++ C ++ W2) = C := by
  unfold pyStripChars
  have hstep1 : (W1 ++ C ++ W2).dropWhile isPyWs = C ++ W2 := by
    rw [List.append_assoc, dropWhile_append_all W1 (C ++ W2) h1]
    refine dropWhile_not_head _ ?_
    intro c hc
    cases C with
    | nil => exact absurd rfl hCne
    | cons x xs =>
      rw [List.cons_append, List.head?_cons] at hc
      exact hh c (by rw [List.head?_cons]; exact hc)
  rw [hstep1]
  rw [List.reverse_append]
  rw [dropWhile_append_all W2.reverse C.reverse (by
    intro c hc
    exact h2 c (List.mem_reverse.mp hc))]
  rw [dropWhile_not_head _ (by
    intro c hc
    rw [List.head?_reverse] at hc
    exact hl c hc)]
  exact List.reverse_reverse C

/-- Scanning fence-safe text followed by a fixed scanner-neutral tail
changes nothing: the MULTILINE fence marker can match neither inside the
text nor straddling into the tail. -/
theorem fenceJsonGo_keep (tail : List Char)
    (htail : ∀ b, fenceJsonGo false b tail = tail)
    (hth : ∀ c, tail.head? = some c →
      ¬(c = '`') ∧ ¬(c = 'j') ∧ ¬(c = 's') ∧ ¬(c = 'o') ∧ ¬(c = 'n')) :
    ∀ (n : Nat) (l : List Char) (flag : Bool), l.length ≤ n → pairsOK l = true →
    (flag = true → ∀ c, l.head? = some c → ¬(c = '`')) →
    fenceJsonGo false flag (l ++ tail) = l ++ tail := by
  intro n
  induction n with
  | zero =>
    intro l flag hlen _ _
    rw [List.length_eq_zero.mp (Nat.le_zero.mp hlen), List.nil_append]
    exact htail flag
  | succ n ih =>
    intro l flag hlen hpairs hflag
    cases l with
    | nil =>
      rw [List.nil_append]
      exact htail flag
    | cons c t =>
      by_cases hp : ("```json".data).isPrefixOf (c :: (t ++ tail)) = true
      · obtain ⟨u, hu⟩ := List.isPrefixOf_iff_prefix.mp hp
        by_cases hlen6 : 6 ≤ t.length
        · have htd : t = t.take 6 ++ t.drop 6 := (List.take_append_drop 6 t).symm
          have hlen7 : (c :: t.take 6).length = ("```json".data).length := by
            simp [List.length_take]
            omega
          have hsplit : (c :: t.take 6) ++ (t.drop 6 ++ tail) = "```json".data ++ u := by
            rw [hu, List.cons_append, ← List.append_assoc, ← htd]
          obtain ⟨hpat, hrest⟩ := List.append_inj hsplit hlen7
          have hc : c = '`' := by
            have := congrArg List.head? hpat
            simpa using this
          cases hflagv : flag with
          | true =>
            exact absurd hc (hflag hflagv c rfl)
          | false =>
            have harg : (c :: t) ++ tail
                = '`' :: '`' :: '`' :: 'j' :: 's' :: 'o' :: 'n' :: (t.drop 6 ++ tail) := by
              rw [show ('`' :: '`' :: '`' :: 'j' :: 's' :: 'o' :: 'n'
                  :: (t.drop 6 ++ tail) : List Char)
                = "```json".data ++ (t.drop 6 ++ tail) from rfl]
              rw [← hpat, List.cons_append, List.cons_append, ← List.append_assoc, ← htd]
            rw [harg, fenceJsonGo.eq_2, if_neg (by simp)]
            have hdp : pairsOK (t.drop 6) = true := by
              have hpt := pairsOK_tail c t hpairs
              rw [htd] at hpt
              exact pairsOK_append_right _ _ hpt
            have hlen2 : (t.drop 6).length ≤ n := by
              simp only [List.length_cons] at hlen
              rw [List.length_drop]
              omega
            rw [ih (t.drop 6) false hlen2 hdp (fun hq => absurd hq (by decide))]
        · have hu2 : '`' :: '`' :: '`' :: 'j' :: 's' :: 'o' :: 'n' :: u
              = c :: (t ++ tail) := by
            rw [show ('`' :: '`' :: '`' :: 'j' :: 's' :: 'o' :: 'n' :: u : List Char)
              = "```json".data ++ u from rfl]
            exact hu
          rcases t with _ | ⟨a1, _ | ⟨a2, _ | ⟨a3, _ | ⟨a4, _ | ⟨a5, t6⟩⟩⟩⟩⟩
          · simp only [List.nil_append, List.cons.injEq] at hu2
            exact absurd rfl ((hth '`' (by rw [← hu2.2]; rfl)).1)
          · simp only [List.cons_append, List.nil_append, List.cons.injEq] at hu2
            exact absurd rfl ((hth '`' (by rw [← hu2.2.2]; rfl)).1)
          · simp only [List.cons_append, List.nil_append, List.cons.injEq] at hu2
            exact absurd rfl ((hth 'j' (by rw [← hu2.2.2.2]; rfl)).2.1)
          · simp only [List.cons_append, List.nil_append, List.cons.injEq] at hu2
            exact absurd rfl ((hth 's' (by rw [← hu2.2.2.2.2]; rfl)).2.2.1)
          · simp only [List.cons_append, List.nil_append, List.cons.injEq] at hu2
            exact absurd rfl ((hth 'o' (by rw [← hu2.2.2.2.2.2]; rfl)).2.2.2.1)
          · have ht6 : t6 = [] := by
              simp only [List.length_cons] at hlen6
              have : t6.length = 0 := by omega
              exact List.length_eq_zero.mp this
            subst ht6
            simp only [List.cons_append, List.nil_append, List.cons.injEq] at hu2
            exact absurd rfl ((hth 'n' (by rw [← hu2.2.2.2.2.2.2]; rfl)).2.2.2.2)
      · have hex : ∀ t1 : List Char, c = '`' →
            t ++ tail = '`' :: '`' :: 'j' :: 's' :: 'o' :: 'n' :: t1 → False := by
          intro t1 hc ht
          refine hp ?_
          refine List.isPrefixOf_iff_prefix.mpr ⟨t1, ?_⟩
          rw [show ("```json".data : List Char)
            = '`' :: '`' :: '`' :: 'j' :: 's' :: 'o' :: 'n' :: [] from rfl]
          simp [hc, ht]
        rw [List.cons_append, fenceJsonGo.eq_3 flag c _ hex]
        cases t with
        | nil =>
          rw [List.nil_append, htail (decide (c = '\n'))]
        | cons d t2 =>
          have hdflag : decide (c = '\n') = true → ∀ c2, (d :: t2).head? = some c2 →
              ¬(c2 = '`') := by
            intro hdec c2 hc2
            rw [List.head?_cons, Option.some.injEq] at hc2
            intro hq
            have hok := (pairsOK_cons c d t2 hpairs).1
            rw [of_decide_eq_true hdec, hc2, hq] at hok
            exact absurd hok (by decide)
          rw [ih (d :: t2) (decide (c = '\n')) (by
            simp only [List.length_cons] at hlen ⊢
            omega) (pairsOK_tail c _ hpairs) hdflag]

/-- Scanning fence-safe text followed by a fixed tail: the line-end fence
regex can fire neither inside the text nor straddling into the tail, so
only the tail is rewritten. -/
theorem sub2Go_keep (tail tres : List Char) (htail : sub2Go tail = tres)
    (hth : ∀ c, tail.head? = some c → ¬(c = '`')) :
    ∀ l : List Char, pairsOK l = true → (∀ c, l.getLast? = some c → ¬(c = '`')) →
    sub2Go (l ++ tail) = l ++ tres := by
  intro l
  induction l with
  | nil =>
    intro _ _
    rw [List.nil_append, List.nil_append]
    exact htail
  | cons c t ih =>
    intro hpairs hlast
    have htpairs := pairsOK_tail c t hpairs
    have htlast : ∀ c2, t.getLast? = some c2 → ¬(c2 = '`') := by
      intro c2 hc2
      have htne : t ≠ [] := by
        intro hq
        rw [hq] at hc2
        cases hc2
      exact hlast c2 (by rw [getLast?_cons_ne_nil c t htne]; exact hc2)
    by_cases hc : c = '\n'
    · subst hc
      cases t with
      | nil =>
        rw [List.cons_append, List.nil_append, List.cons_append, List.nil_append]
        rw [sub2Go.eq_4 '\n' tail
          (fun rest hq ht => absurd rfl ((hth '`' (by rw [ht]; rfl)) : ¬('`' = '`')))
          (fun rest hq ht => absurd hq (by decide))]
        rw [htail]
      | cons d t2 =>
        have hdbt : ¬(d = '`') := by
          intro hq
          have hok := (pairsOK_cons '\n' d t2 hpairs).1
          rw [hq] at hok
          exact absurd hok (by decide)
        rw [List.cons_append]
        rw [sub2Go.eq_4 '\n' ((d :: t2) ++ tail)
          (fun rest hq ht => hdbt (List.cons.inj (by rwa [List.cons_append] at ht)).1)
          (fun rest hq ht => absurd hq (by decide))]
        rw [ih htpairs htlast]
        rfl
    · by_cases hb : c = '`'
      · subst hb
        cases t with
        | nil => exact absurd rfl (hlast '`' rfl)
        | cons d t2 =>
          by_cases hd : d = '`'
          · subst hd
            cases t2 with
            | nil => exact absurd rfl (hlast '`' rfl)
            | cons e t3 =>
              by_cases he : e = '`'
              · subst he
                cases t3 with
                | nil => exact absurd rfl (hlast '`' rfl)
                | cons f t4 =>
                  have hf : ¬(f = '\n') := by
                    intro hq
                    have hok := (pairsOK_cons '`' f t4
                      (pairsOK_tail _ _ (pairsOK_tail _ _ hpairs))).1
                    rw [hq] at hok
                    exact absurd hok (by decide)
                  simp only [List.cons_append]
                  rw [sub2Go.eq_3]
                  rw [if_neg (by
                    unfold eolAt
                    simp [hf])]
                  have hrec := ih htpairs htlast
                  simp only [List.cons_append] at hrec
                  rw [hrec]
              · simp only [List.cons_append]
                rw [sub2Go.eq_4 '`' ('`' :: (e :: (t3 ++ tail)))
                  (fun rest hq ht => absurd hq (by decide))
                  (fun rest hq ht => he (List.cons.inj (List.cons.inj ht).2).1)]
                have hrec := ih htpairs htlast
                simp only [List.cons_append] at hrec
                rw [hrec]
          · simp only [List.cons_append]
            rw [sub2Go.eq_4 '`' (d :: (t2 ++ tail))
              (fun rest hq ht => absurd hq (by decide))
              (fun rest hq ht => hd (List.cons.inj ht).1)]
            have hrec := ih htpairs htlast
            simp only [List.cons_append] at hrec
            rw [hrec]
      · cases t with
        | nil =>
          rw [List.cons_append, List.nil_append, List.cons_append, List.nil_append]
          rw [sub2Go.eq_4 c tail
            (fun rest hq ht => hc hq)
            (fun rest hq ht => hb hq)]
          rw [htail]
        | cons d t2 =>
          simp only [List.cons_append]
          rw [sub2Go.eq_4 c (d :: (t2 ++ tail))
            (fun rest hq ht => hc hq)
            (fun rest hq ht => hb hq)]
          have hrec := ih htpairs htlast
          simp only [List.cons_append] at hrec
          rw [hrec]

theorem jsonWs_pyWs (c : Char) (h : isJsonWs c = true) : isPyWs c = true := by
  simp only [isJsonWs, Bool.decide_or, Bool.or_eq_true, decide_eq_true_eq] at h
  simp only [isPyWs, Bool.decide_or, Bool.or_eq_true, decide_eq_true_eq]
  rcases h with h | h | h | h <;> simp [h]

/-- C8: wrapping any text that json.loads accepts as a JSON object in a
leading fence marker line and a trailing bare fence changes nothing: the
Recoverer strips exactly the fences and recovers the same mapping as for
the unfenced text. -/
theorem C8_fenced_equals_unfenced (T : String) (ms : List (String × PyJson))
    (hload : pyJsonLoads T = some (.obj ms)) :
    extract_json_from_response ⟨"```json\n".data ++ T.data ++ "\n```".data⟩
      = extract_json_from_response T := by
  unfold pyJsonLoads at hload
  rcases hpv : parseValue (T.data.length + 1) (skipJsonWs T.data) with _ | ⟨v, rest⟩
  · simp only [hpv] at hload
    exact Option.noConfusion hload
  simp only [hpv] at hload
  have hv : v = PyJson.obj ms := by
    by_cases hr : skipJsonWs rest = []
    · rw [if_pos hr, Option.some.injEq] at hload
      exact hload
    · rw [if_neg hr] at hload
      exact Option.noConfusion hload
  have hrest : skipJsonWs rest = [] := by
    by_cases hr : skipJsonWs rest = []
    · exact hr
    · rw [if_neg hr] at hload
      exact Option.noConfusion hload
  subst hv
  obtain ⟨C, hC, hCspan, hCne, hCobj⟩ := (parse_span (T.data.length + 1)).1 _ _ _ hpv
  obtain ⟨hChead, hClast⟩ := hCobj ms rfl
  have hW1 : ∀ c ∈ T.data.takeWhile isJsonWs, isJsonWs c = true :=
    fun c hc => List.mem_takeWhile_imp hc
  have hW2 : ∀ c ∈ rest, isJsonWs c = true := List.dropWhile_eq_nil_iff.mp hrest
  have hTd : T.data = T.data.takeWhile isJsonWs ++ (C ++ rest) := by
    conv_lhs => rw [skip_decomp T.data]
    rw [hC]
  obtain ⟨C', hC'⟩ : ∃ C', C = '{' :: C' := by
    cases C with
    | nil => exact absurd rfl hCne
    | cons x xs =>
      rw [List.head?_cons, Option.some.injEq] at hChead
      exact ⟨xs, by rw [← hChead]⟩
  have hC'ne : C' ≠ [] := by
    intro hq
    rw [hC', hq] at hClast
    exact absurd hClast (by decide)
  have hC'last : C'.getLast? = some '}' := by
    rw [hC'] at hClast
    rwa [getLast?_cons_ne_nil '{' C' hC'ne] at hClast
  have hW1span : spanOK (T.data.takeWhile isJsonWs) := spanOK_take_ws T.data
  have hW2span : spanOK rest :=
    spanOK_of_no_bt _ (fun hmem => absurd (hW2 _ hmem) (by decide))
  have hCrestspan : spanOK (C ++ rest) := spanOK_append _ _ hCspan hW2span
  have hSspan : spanOK (T.data.takeWhile isJsonWs ++ (C ++ rest)) :=
    spanOK_append _ _ hW1span hCrestspan
  have hTne : ¬(T = "") := by
    intro hq
    have hq2 := congrArg String.data hq
    rw [hTd, show (("" : String).data : List Char) = [] from rfl] at hq2
    rcases List.append_eq_nil.mp hq2 with ⟨_, hq3⟩
    rcases List.append_eq_nil.mp hq3 with ⟨hq4, _⟩
    exact hCne hq4
  have hChw : ∀ c, C.head? = some c → isPyWs c = false := by
    intro c hc
    rw [hChead, Option.some.injEq] at hc
    rw [← hc]
    decide
  have hClw : ∀ c, C.getLast? = some c → isPyWs c = false := by
    intro c hc
    rw [hClast, Option.some.injEq] at hc
    rw [← hc]
    decide
  have hsub1R : sub1 T.data = T.data := by
    unfold sub1
    have hk := fenceJsonGo_keep [] (fun b => fenceJsonGo.eq_1 false b)
      (fun c hc => by simp at hc) T.data.length T.data true (le_refl _)
      (by rw [hTd]; exact hSspan.1)
      (by
        intro _ c hc
        exact hSspan.2.1 c (by rw [← hTd]; exact hc))
    rw [List.append_nil] at hk
    exact hk
  have hsub2R : sub2 T.data = T.data := by
    unfold sub2
    have hk := sub2Go_keep [] [] rfl (fun c hc => by simp at hc) T.data
      (by rw [hTd]; exact hSspan.1)
      (by
        intro c hc
        exact hSspan.2.2 c (by rw [← hTd]; exact hc))
    rw [List.append_nil] at hk
    exact hk
  have hstripR : pyStripChars T.data = C := by
    rw [hTd, ← List.append_assoc]
    exact pyStripChars_ws_core _ _ _ (fun c hc => jsonWs_pyWs c (hW1 c hc))
      (fun c hc => jsonWs_pyWs c (hW2 c hc)) hCne hChw hClw
  have hRHS : extract_json_from_response T = recoverFromCleaned C := by
    unfold extract_json_from_response
    rw [if_neg hTne, hsub1R, hsub2R, hstripR]
  have hwrapne : ¬((⟨"```json\n".data ++ T.data ++ "\n```".data⟩ : String) = "") := by
    intro hq
    have hq2 := congrArg String.data hq
    rw [show ((⟨"```json\n".data ++ T.data ++ "\n```".data⟩ : String).data : List Char)
      = "```json\n".data ++ T.data ++ "\n```".data from rfl,
      show (("" : String).data : List Char) = [] from rfl] at hq2
    rcases List.append_eq_nil.mp hq2 with ⟨hq3, _⟩
    rcases List.append_eq_nil.mp hq3 with ⟨hq4, _⟩
    exact absurd hq4 (by decide)
  have hpairsC' : pairsOK C' = true := by
    have hp := hCspan.1
    rw [hC'] at hp
    exact pairsOK_tail _ _ hp
  have hpairsC'rest : pairsOK (C' ++ rest) = true := by
    refine pairsOK_append C' rest hpairsC' hW2span.1 ?_
    intro x y hx hy
    rw [hC'last, Option.some.injEq] at hx
    refine okPair_of_no_bt x y (by rw [← hx]; decide) ?_
    intro hq
    rw [hq] at hy
    exact absurd (hW2 '`' (List.mem_of_mem_head? hy)) (by decide)
  have hsub1L : sub1 ("```json\n".data ++ T.data ++ "\n```".data)
      = (C ++ rest) ++ '\n' :: '`' :: '`' :: '`' :: [] := by
    unfold sub1
    rw [show ("```json\n".data ++ T.data ++ "\n```".data : List Char)
      = '`' :: '`' :: '`' :: 'j' :: 's' :: 'o' :: 'n'
        :: ('\n' :: (T.data ++ "\n```".data)) from by
      rw [show ("```json\n".data : List Char)
        = '`' :: '`' :: '`' :: 'j' :: 's' :: 'o' :: 'n' :: '\n' :: [] from rfl]
      simp]
    rw [fenceJsonGo.eq_2, if_pos rfl]
    have hshape : '\n' :: (T.data ++ "\n```".data)
        = ('\n' :: T.data.takeWhile isJsonWs)
          ++ ('{' :: ((C' ++ rest) ++ '\n' :: '`' :: '`' :: '`' :: [])) := by
      conv_lhs => rw [hTd]
      rw [hC', show ("\n```".data : List Char) = '\n' :: '`' :: '`' :: '`' :: [] from rfl]
      simp [List.append_assoc]
    rw [hshape]
    rw [fenceJsonGo_skip ('\n' :: T.data.takeWhile isJsonWs)
      (by
        intro c hc
        rcases List.mem_cons.mp hc with hc | hc
        · rw [hc]; decide
        · exact jsonWs_pyWs c (hW1 c hc))
      false '{' _ (by decide) (by decide)]
    rw [show (decide ('{' = '\n')) = false from by decide]
    have hkeep := fenceJsonGo_keep ('\n' :: '`' :: '`' :: '`' :: []) fence_nl_tail
      (by
        intro c hc
        rw [List.head?_cons, Option.some.injEq] at hc
        rw [← hc]
        refine ⟨by decide, by decide, by decide, by decide, by decide⟩)
      (C' ++ rest).length (C' ++ rest) false (le_refl _) hpairsC'rest
      (fun hq => absurd hq (by decide))
    rw [hkeep, hC']
    simp [List.append_assoc]
  have hsub2L : sub2 ((C ++ rest) ++ '\n' :: '`' :: '`' :: '`' :: []) = C ++ rest := by
    unfold sub2
    have hk := sub2Go_keep ('\n' :: '`' :: '`' :: '`' :: []) [] rfl
      (by
        intro c hc
        rw [List.head?_cons, Option.some.injEq] at hc
        rw [← hc]
        decide)
      (C ++ rest) hCrestspan.1 hCrestspan.2.2
    rw [List.append_nil] at hk
    exact hk
  have hstripL : pyStripChars (C ++ rest) = C := by
    have hk := pyStripChars_ws_core [] C rest (by intro c hc; simp at hc)
      (fun c hc => jsonWs_pyWs c (hW2 c hc)) hCne hChw hClw
    rw [List.nil_append] at hk
    exact hk
  have hLHS : extract_json_from_response ⟨"```json\n".data ++ T.data ++ "\n```".data⟩
      = recoverFromCleaned C := by
    unfold extract_json_from_response
    rw [if_neg hwrapne]
    rw [show ((⟨"```json\n".data ++ T.data ++ "\n```".data⟩ : String).data : List Char)
      = "```json\n".data ++ T.data ++ "\n```".data from rfl]
    rw [hsub1L, hsub2L, hstripL]
  rw [hLHS, hRHS]

/-- Witness: fencing a two-line pretty-printed object whose value holds
backticks does not change recovery. -/
theorem C8_fenced_equals_unfenced_witness :
    pyJsonLoads "\x7b\n  \x22a\x22: \x22`x`\x22\n\x7d"
      = some (.obj [("a", .str "`x`")]) ∧
    extract_json_from_response
        ⟨"```json\n".data ++ ("\x7b\n  \x22a\x22: \x22`x`\x22\n\x7d" : String).data
          ++ "\n```".data⟩
      = extract_json_from_response "\x7b\n  \x22a\x22: \x22`x`\x22\n\x7d" :=
  ⟨by rfl, C8_fenced_equals_unfenced _ [("a", .str "`x`")] (by rfl)⟩

end VB6
